import Mathlib

/-!
A shallow embedding, in Lean 4, of the FAT32 driver from `src/fat32/disk.py`
and `src/fat32/models.py` (repository careyi3/fat32py), together with proofs
about the embedded code.

Modelling conventions:

* Python byte strings (`bytes`, `bytearray`) are `List Nat`, one entry per
  byte.  Python text strings are also `List Nat`, one entry per code point.
* The injected block device (`reader` / `writer` capabilities) is modelled by
  a total function `mem : Nat → List Nat` from logical-block index to block
  content, together with a chronological log of block-level I/O events, so
  that claims about which reads/writes are issued, and in which order, can be
  stated.
* Python `while` loops that are not structurally bounded take an explicit
  `fuel : Nat` argument and return the state reached when the fuel runs out;
  all theorems that depend on such loops carry hypotheses guaranteeing the
  fuel suffices, so the embedded result coincides with the source loop.
* Fallible operations return `Option`/`Except`; `struct.pack` range failures
  and failed `raise` statements are modelled explicitly (see `PyErr`).
-/

set_option maxRecDepth 100000

deriving instance DecidableEq for Except

/-- One byte-level little-endian 16-bit encoding, `struct.pack "<H"` for a
value already known to be in range. -/
def le16 (v : Nat) : List Nat := [v % 256, v / 256 % 256]

/-- Little-endian 32-bit encoding, `value.to_bytes(4, byteorder="little")` /
`struct.pack "<I"` for an in-range value. -/
def le32 (v : Nat) : List Nat :=
  [v % 256, v / 256 % 256, v / 65536 % 256, v / 16777216 % 256]

/-- Python pySlice `data[i : i + n]` on a byte list. -/
def pySlice (data : List Nat) (i n : Nat) : List Nat := (data.drop i).take n

/-- `struct.unpack "<H"` of a 2-byte pySlice (missing bytes read as 0; the
source only ever unpacks complete slices). -/
def unpackLE16 (l : List Nat) : Nat := l.getD 0 0 + 256 * l.getD 1 0

/-- `struct.unpack "<I"` of a 4-byte pySlice (missing bytes read as 0; the
source only ever unpacks complete slices). -/
def unpackLE32 (l : List Nat) : Nat :=
  l.getD 0 0 + 256 * l.getD 1 0 + 65536 * l.getD 2 0 + 16777216 * l.getD 3 0

/-- `LOGICAL_BLOCK_SIZE` from `disk.py`. -/
def LOGICAL_BLOCK_SIZE : Nat := 512

/-- A block-level I/O event, as delegated to the injected reader/writer. -/
inductive Ev where
  | read (block : Nat)
  | write (block : Nat) (data : List Nat)
  deriving DecidableEq

/-- The injected block device: current block contents plus the chronological
log of delegated I/O operations. -/
structure Dev where
  mem : Nat → List Nat
  log : List Ev

/-- `self.reader(block)`: returns the block's bytes and logs the read. -/
def Dev.readBlock (dev : Dev) (block : Nat) : List Nat × Dev :=
  (dev.mem block, { dev with log := dev.log ++ [Ev.read block] })

/-- `self.writer(block, data)`: replaces the block's bytes and logs the
write. -/
def Dev.writeBlock (dev : Dev) (block : Nat) (data : List Nat) : Dev :=
  { mem := fun b => if b = block then data else dev.mem b,
    log := dev.log ++ [Ev.write block data] }

/-- `Disk._read_disk(offset)`: `block = offset // LOGICAL_BLOCK_SIZE`, then
delegate to the reader. -/
def Dev.readDisk (dev : Dev) (offset : Nat) : List Nat × Dev :=
  dev.readBlock (offset / LOGICAL_BLOCK_SIZE)

/-- `Disk._write_disk(offset, data)`: `block = offset // LOGICAL_BLOCK_SIZE`,
then delegate to the writer. -/
def Dev.writeDisk (dev : Dev) (offset : Nat) (data : List Nat) : Dev :=
  dev.writeBlock (offset / LOGICAL_BLOCK_SIZE) data

/-- The write events of a log, in order, as (block, data) pairs. -/
def writesOf (log : List Ev) : List (Nat × List Nat) :=
  log.filterMap fun e => match e with
    | Ev.write b d => some (b, d)
    | Ev.read _ => none

/-- The read events of a log, in order, as block indices. -/
def readsOf (log : List Ev) : List Nat :=
  log.filterMap fun e => match e with
    | Ev.write _ _ => none
    | Ev.read b => some b

/-- The byte stored at absolute byte offset `off` (blocks are 512 bytes). -/
def byteAt (mem : Nat → List Nat) (off : Nat) : Nat :=
  (mem (off / 512)).getD (off % 512) 0

/-- The `len` consecutive bytes starting at absolute byte offset `start`. -/
def memBytes (mem : Nat → List Nat) (start len : Nat) : List Nat :=
  (List.range len).map fun j => byteAt mem (start + j)

/-- `BiosParameterBlock` (`models.py`): the fields decoded by `__init__`.
The embedding stores the raw fields; the values `__init__` derives from them
(`fat_size`, `data_start_sector`, …) are exposed as functions computing
exactly the expressions assigned in `__init__`. -/
structure BiosParameterBlock where
  bytes_per_sector : Nat
  sectors_per_cluster : Nat
  reserved_sector_count : Nat
  num_fats : Nat
  total_sectors_16 : Nat
  total_sectors_32 : Nat
  fat_size_16 : Nat
  fat_size_32 : Nat
  root_cluster : Nat
  fs_info_sector : Nat
  backup_boot_sector : Nat
  deriving DecidableEq

/-- `fat_size = fat_size_32 if fat_size_16 == 0 else fat_size_16`. -/
def BiosParameterBlock.fat_size (b : BiosParameterBlock) : Nat :=
  if b.fat_size_16 = 0 then b.fat_size_32 else b.fat_size_16

/-- `fat_start_sector = reserved_sector_count`. -/
def BiosParameterBlock.fat_start_sector (b : BiosParameterBlock) : Nat :=
  b.reserved_sector_count

/-- `data_start_sector = reserved_sector_count + num_fats * fat_size`. -/
def BiosParameterBlock.data_start_sector (b : BiosParameterBlock) : Nat :=
  b.reserved_sector_count + b.num_fats * b.fat_size

/-- `get_bytes_per_cluster`. -/
def BiosParameterBlock.get_bytes_per_cluster (b : BiosParameterBlock) : Nat :=
  b.sectors_per_cluster * b.bytes_per_sector

/-- `get_sectors_per_cluster`. -/
def BiosParameterBlock.get_sectors_per_cluster (b : BiosParameterBlock) : Nat :=
  b.sectors_per_cluster

/-- `get_fat_table_byte_offset = fat_start_sector * bytes_per_sector`. -/
def BiosParameterBlock.get_fat_table_byte_offset (b : BiosParameterBlock) : Nat :=
  b.fat_start_sector * b.bytes_per_sector

/-- `get_data_sector_bytes_offset = data_start_sector * bytes_per_sector`. -/
def BiosParameterBlock.get_data_sector_bytes_offset (b : BiosParameterBlock) : Nat :=
  b.data_start_sector * b.bytes_per_sector

/-- `get_fat_size_in_sectors` returns `fat_size_32` (not `fat_size`). -/
def BiosParameterBlock.get_fat_size_in_sectors (b : BiosParameterBlock) : Nat :=
  b.fat_size_32

/-- `File` (`models.py`).  `name`, `created`, `accessed`, `written` are
Python strings, modelled as lists of code points; `attributes` is a Python
set of strings. -/
structure File where
  name : List Nat
  attr : Nat
  attributes : Finset (List Nat)
  start_cluster : Nat
  size : Nat
  created : List Nat
  accessed : List Nat
  written : List Nat
  is_lfn : Bool
  byte_offset : Nat
  deriving DecidableEq

/-- `File._attributes(attr)`: the set of short flag strings for an attribute
byte.  The strings "R","H","S","V","D","A","DV","RS" as code-point lists. -/
def File.attributesOf (attr : Nat) : Finset (List Nat) :=
  (if attr &&& 0x01 ≠ 0 then {[82]} else ∅) ∪
  (if attr &&& 0x02 ≠ 0 then {[72]} else ∅) ∪
  (if attr &&& 0x04 ≠ 0 then {[83]} else ∅) ∪
  (if attr &&& 0x08 ≠ 0 then {[86]} else ∅) ∪
  (if attr &&& 0x10 ≠ 0 then {[68]} else ∅) ∪
  (if attr &&& 0x20 ≠ 0 then {[65]} else ∅) ∪
  (if attr &&& 0x40 ≠ 0 then {[68, 86]} else ∅) ∪
  (if attr &&& 0x80 ≠ 0 then {[82, 83]} else ∅)

/-- Decimal digits of `n` as ASCII codes, most significant first, computed
with explicit fuel (`fuel > log10 n` suffices; callers pass `n + 1`). -/
def digitsAux : Nat → Nat → List Nat
  | 0, _ => []
  | fuel + 1, n => if n < 10 then [48 + n] else digitsAux fuel (n / 10) ++ [48 + n % 10]

/-- Python `str(n)` for a natural number. -/
def natStr (n : Nat) : List Nat := digitsAux (n + 1) n

/-- Python format `f"{n:0wd}"` for a natural number: the decimal digits,
left-padded with '0' to width `w`. -/
def pyFmt (w n : Nat) : List Nat :=
  List.replicate (w - (natStr n).length) 48 ++ natStr n

/-- `decode_date(d)` from `parse_directory_entries`:
`f"{year:04}-{month:02}-{day:02}"` with
`year = ((d >> 9) & 0x7F) + 1980`, `month = (d >> 5) & 0x0F`,
`day = d & 0x1F`. -/
def decodeDate (d : Nat) : List Nat :=
  pyFmt 4 ((d >>> 9 &&& 0x7F) + 1980) ++ [45] ++
  pyFmt 2 (d >>> 5 &&& 0x0F) ++ [45] ++
  pyFmt 2 (d &&& 0x1F)

/-- `decode_time(t)` from `parse_directory_entries`:
`f"{hour:02}:{minute:02}:{second:02}"` with `hour = (t >> 11) & 0x1F`,
`minute = (t >> 5) & 0x3F`, `second = (t & 0x1F) * 2`. -/
def decodeTime (t : Nat) : List Nat :=
  pyFmt 2 (t >>> 11 &&& 0x1F) ++ [58] ++
  pyFmt 2 (t >>> 5 &&& 0x3F) ++ [58] ++
  pyFmt 2 ((t &&& 0x1F) * 2)

/-- Python `bytes.decode("ascii", errors="replace")` on one byte: bytes
≥ 0x80 decode to U+FFFD. -/
def decodeAsciiReplace (c : Nat) : Nat := if c < 128 then c else 0xFFFD

/-- Python `str.encode("ascii", errors="replace")` on one code point:
points ≥ 0x80 encode to `b"?"`. -/
def encodeAsciiReplace (c : Nat) : Nat := if c < 128 then c else 63

/-- Whether a code point below 0x80 is whitespace for Python `str.strip()`. -/
def pyIsSpace (c : Nat) : Bool :=
  c = 9 || c = 10 || c = 11 || c = 12 || c = 13 ||
  c = 28 || c = 29 || c = 30 || c = 31 || c = 32

/-- Python `str.strip()`: drop leading and trailing whitespace. -/
def pyStrip (s : List Nat) : List Nat :=
  ((s.dropWhile pyIsSpace).reverse.dropWhile pyIsSpace).reverse

/-- `is_lfn_entry(entry)` from `parse_directory_entries`. -/
def isLfnEntry (entry : List Nat) : Bool :=
  entry.getD 0x0B 0 = 0x0F && entry.getD 0 0 ≠ 0x00 && entry.getD 0 0 ≠ 0xE5

/-- One parsed 32-byte directory entry (the body of the loop in
`File.parse_directory_entries` for a retained entry at index `i`). -/
def parseOneEntry (entry : List Nat) (sector_offset i : Nat) : File :=
  let crt_time := unpackLE16 (pySlice entry 14 2)
  let crt_date := unpackLE16 (pySlice entry 16 2)
  let lst_acc_date := unpackLE16 (pySlice entry 18 2)
  let fst_clus_hi := unpackLE16 (pySlice entry 20 2)
  let wrt_time := unpackLE16 (pySlice entry 22 2)
  let wrt_date := unpackLE16 (pySlice entry 24 2)
  let fst_clus_lo := unpackLE16 (pySlice entry 26 2)
  let file_size := unpackLE32 (pySlice entry 28 4)
  { name := pyStrip ((pySlice entry 0 11).map decodeAsciiReplace)
    attr := entry.getD 11 0
    attributes := File.attributesOf (entry.getD 11 0)
    start_cluster := fst_clus_hi <<< 16 ||| fst_clus_lo
    size := file_size
    created := decodeDate crt_date ++ [32] ++ decodeTime crt_time
    accessed := decodeDate lst_acc_date
    written := decodeDate wrt_date ++ [32] ++ decodeTime wrt_time
    is_lfn := isLfnEntry entry
    byte_offset := sector_offset + i }

/-- The loop of `File.parse_directory_entries`: `steps` counts the remaining
iterations of `for i in range(0, len(data), 32)` and `i` is the running byte
index.  Halts at a first byte 0x00, skips first byte 0xE5. -/
def parseEntriesAux (data : List Nat) (sector_offset : Nat) :
    Nat → Nat → List File
  | 0, _ => []
  | steps + 1, i =>
    let entry := pySlice data i 32
    if entry.getD 0 0 = 0x00 then []
    else if entry.getD 0 0 = 0xE5 then parseEntriesAux data sector_offset steps (i + 32)
    else parseOneEntry entry sector_offset i :: parseEntriesAux data sector_offset steps (i + 32)

/-- `File.parse_directory_entries(data, sector_offset)`. -/
def File.parse_directory_entries (data : List Nat) (sector_offset : Nat) : List File :=
  parseEntriesAux data sector_offset ((data.length + 31) / 32) 0

/-- Python `s.split(sep)` for a one-character separator `sep` (splits at
every occurrence, keeping empty parts; `"".split(sep) == [""]`). -/
def pySplit (sep : Nat) : List Nat → List (List Nat)
  | [] => [[]]
  | c :: rest =>
    if c = sep then [] :: pySplit sep rest
    else
      match pySplit sep rest with
      | h :: t => (c :: h) :: t
      | [] => [[c]]

/-- Value of a non-empty all-digit string. -/
def digitsVal (s : List Nat) : Option Nat :=
  if s ≠ [] ∧ s.all (fun c => 48 ≤ c ∧ c ≤ 57) then
    some (s.foldl (fun a c => a * 10 + (c - 48)) 0)
  else none

/-- Python `int(s)`: an optional `+` or `-` sign followed by decimal ASCII
digits.  Full Python `int` additionally strips surrounding whitespace, allows
single underscores between digits, and accepts non-ASCII decimal digits;
`intSafeChar` below marks the characters on which this model agrees exactly
with Python, and theorems that draw conclusions from a failing parse restrict
their strings to those characters. -/
def pyInt (s : List Nat) : Option Int :=
  match s with
  | 45 :: rest => (digitsVal rest).map fun n => -(n : Int)
  | 43 :: rest => (digitsVal rest).map fun n => (n : Int)
  | _ => (digitsVal s).map fun n => (n : Int)

/-- Characters on which `pyInt` agrees exactly with Python `int`: ASCII, not
an underscore, not whitespace.  A string of such characters (in any
arrangement) parses to the same result under `pyInt` and under Python
`int`, in particular it fails in the model iff it raises `ValueError` in
Python; outside this set Python accepts forms (embedded underscores,
surrounding whitespace, non-ASCII digits) that `pyInt` does not model. -/
def intSafeChar (c : Nat) : Bool :=
  decide (c < 128) && decide (c ≠ 95) && !(pyIsSpace c)

/-- Python `x << n` on an arbitrary (possibly negative) int: equals
`x * 2 ^ n`. -/
def pyShl (x : Int) (n : Nat) : Int := x * 2 ^ n

/-- Python `x | y` on arbitrary ints: two's-complement bitwise or
(`negSucc m` stands for the complement of `m`'s bits). -/
def pyOr : Int → Int → Int
  | Int.ofNat m, Int.ofNat n => Int.ofNat (m ||| n)
  | Int.ofNat m, Int.negSucc n => Int.negSucc (Nat.ldiff n m)
  | Int.negSucc m, Int.ofNat n => Int.negSucc (Nat.ldiff m n)
  | Int.negSucc m, Int.negSucc n => Int.negSucc (m &&& n)

/-- The `try` block of `File.to_bytes` for `created`/`written`: split the
string on a space into date and time, parse `year-month-day` and
`hour:minute:second`, and pack.  `none` models the `except` branch (the
packed values then default to 0). -/
def parseDateTimeStr (s : List Nat) : Option (Int × Int) :=
  match pySplit 32 s with
  | [date_part, time_part] =>
    match (pySplit 45 date_part).map pyInt with
    | [some y, some mo, some d] =>
      match ((pySplit 58 time_part).take 3).map pyInt with
      | [some h, some mi, some sec] =>
        some (pyOr (pyOr (pyShl (y - 1980) 9) (pyShl mo 5)) d,
              pyOr (pyOr (pyShl h 11) (pyShl mi 5)) (Int.fdiv sec 2))
      | _ => none
    | _ => none
  | _ => none

/-- The `try` block of `File.to_bytes` for `accessed`: parse
`year-month-day` and pack.  `none` models the `except` branch. -/
def parseDateStr (s : List Nat) : Option Int :=
  match (pySplit 45 s).map pyInt with
  | [some y, some mo, some d] =>
    some (pyOr (pyOr (pyShl (y - 1980) 9) (pyShl mo 5)) d)
  | _ => none

/-- `struct.pack "<H"` of a Python int: fails (struct.error) outside
[0, 0xFFFF]. -/
def packH (v : Int) : Option (List Nat) :=
  if 0 ≤ v ∧ v < 65536 then some (le16 v.toNat) else none

/-- `struct.pack "B"` of a Python int: fails outside [0, 0xFF]. -/
def packB (v : Nat) : Option (List Nat) :=
  if v < 256 then some [v] else none

/-- `struct.pack "<I"` of a Python int: fails outside [0, 0xFFFFFFFF]. -/
def packI (v : Nat) : Option (List Nat) :=
  if v < 4294967296 then some (le32 v) else none

/-- `File.to_bytes`.  Returns `none` where the Python method raises
`struct.error` (a packed field out of range); otherwise the 32-byte entry
`pack("<11sBBBHHHHHHHI", ...)` in field order name, attr, ntRes,
crtTimeTenth, crtTime, crtDate, lastAccDate, firstClusterHi, writeTime,
writeDate, firstClusterLo, fileSize. -/
def File.to_bytes (f : File) : Option (List Nat) :=
  let name_trunc := (f.name.map encodeAsciiReplace).take 11
  let name_bytes := name_trunc ++ List.replicate (11 - name_trunc.length) 32
  let crt := (parseDateTimeStr f.created).getD (0, 0)
  let lst_acc_date := (parseDateStr f.accessed).getD 0
  let wrt := (parseDateTimeStr f.written).getD (0, 0)
  let fst_clus_hi := f.start_cluster >>> 16 &&& 0xFFFF
  let fst_clus_lo := f.start_cluster &&& 0xFFFF
  match packB f.attr, packH crt.2, packH crt.1, packH lst_acc_date,
      packH wrt.2, packH wrt.1, packI f.size with
  | some attr_b, some crt_time_b, some crt_date_b, some acc_b,
      some wrt_time_b, some wrt_date_b, some size_b =>
    some (name_bytes ++ attr_b ++ [0] ++ [0] ++ crt_time_b ++ crt_date_b ++
      acc_b ++ le16 fst_clus_hi ++ wrt_time_b ++ wrt_date_b ++
      le16 fst_clus_lo ++ size_b)
  | _, _, _, _, _, _, _ => none

/-- A Python exception escaping one of the embedded operations.
`typeErr` is a `TypeError` (in this code base: instantiating a class with
the wrong number of arguments); `diskNotInitialised msg` is a successfully
constructed `DiskNotInitialised(msg)` — its `__init__` requires the
positional argument `message`, so it can only be raised with one. -/
inductive PyErr where
  | typeErr : PyErr
  | diskNotInitialised (message : List Nat) : PyErr
  deriving DecidableEq

/-- The statement `raise DiskNotInitialised` in `disk.py` names the class,
so Python instantiates it with zero arguments; `DiskNotInitialised.__init__`
requires the positional argument `message`, so the instantiation itself
raises `TypeError` — the exception that actually escapes is a `TypeError`,
not a `DiskNotInitialised`. -/
def raiseDiskNotInitialisedBare : PyErr := PyErr.typeErr

/-- The state of a `Disk` object after `init` has set `self.partition` and
`self.bios_parameter_block` (the only attributes of those objects the
methods consult are `partition.start_lba`, via `get_partition_offset`, and
the BPB fields). -/
structure Disk where
  dev : Dev
  start_lba : Nat
  bpb : BiosParameterBlock
  initialised : Bool

/-- `Partition.get_partition_offset = start_lba * PARTITION_BLOCK_SIZE`. -/
def Disk.partition_offset (d : Disk) : Nat := d.start_lba * 512

/-- `Disk._get_next_cluster(cluster)`: read the FAT sector containing the
cluster's entry and return its little-endian 32-bit value masked to the low
28 bits. -/
def Disk.get_next_cluster (d : Disk) (cluster : Nat) : Nat × Disk :=
  let partition_offset := d.partition_offset
  let offset := d.bpb.get_fat_table_byte_offset
  let cluster_byte_start := cluster * 4
  let sector_num := cluster_byte_start / 512
  let (data, dev) := d.dev.readDisk
    (partition_offset + offset + sector_num * LOGICAL_BLOCK_SIZE)
  let start := cluster_byte_start % LOGICAL_BLOCK_SIZE
  (unpackLE32 (pySlice data start 4) % 0x10000000, { d with dev := dev })

/-- The value `Disk._get_next_cluster` computes, as a pure function of the
block contents (the method's result does not depend on the log). -/
def nextClusterVal (mem : Nat → List Nat) (partition_offset fat_offset cluster : Nat) : Nat :=
  let sector_num := cluster * 4 / 512
  let data := mem ((partition_offset + fat_offset + sector_num * LOGICAL_BLOCK_SIZE) / LOGICAL_BLOCK_SIZE)
  unpackLE32 (pySlice data (cluster * 4 % LOGICAL_BLOCK_SIZE) 4) % 0x10000000

/-- The sector loop `for sec in range(0, sectors_to_read)` inside
`Disk._read_file_in_chunks`: reads one 512-byte sector per iteration and
truncates the final sector of the file's final cluster to
`file.size % 512 or 512` bytes.  `remaining` counts the iterations left and
`sec` is the running index. -/
def Disk.sector_reads (d : Disk) (base size sectors_to_read next_cluster : Nat) :
    Nat → Nat → List (List Nat) × Disk
  | 0, _ => ([], d)
  | remaining + 1, sec =>
    let (data, dev) := d.dev.readDisk (base + sec * LOGICAL_BLOCK_SIZE)
    let data :=
      if sec = sectors_to_read - 1 ∧ 0x0FFFFFF8 ≤ next_cluster then
        data.take (if size % LOGICAL_BLOCK_SIZE = 0 then LOGICAL_BLOCK_SIZE
                   else size % LOGICAL_BLOCK_SIZE)
      else data
    let r := Disk.sector_reads { d with dev := dev } base size
      sectors_to_read next_cluster remaining (sec + 1)
    (data :: r.1, r.2)

/-- The loop of `Disk._read_file_in_chunks`: `while cluster < 0x0FFFFFF8`,
yielding one buffer per sector read; `i` is the 1-based cluster index,
`fuel` bounds the number of loop iterations. -/
def Disk.read_chunks_loop (d : Disk) (size : Nat) :
    Nat → Nat → Nat → List (List Nat) × Disk
  | 0, _, _ => ([], d)
  | fuel + 1, cluster, i =>
    if cluster < 0x0FFFFFF8 then
      let partition_offset := d.partition_offset
      let data_sector_bytes_offset := d.bpb.get_data_sector_bytes_offset
      let bytes_per_cluster := d.bpb.get_bytes_per_cluster
      let offset := data_sector_bytes_offset + (cluster - 2) * bytes_per_cluster
      let sectors_to_read :=
        if size < i * bytes_per_cluster then
          (bytes_per_cluster - (i * bytes_per_cluster - size)) / 512 +
            (if size % LOGICAL_BLOCK_SIZE ≠ 0 then 1 else 0)
        else d.bpb.get_sectors_per_cluster
      let r1 := d.get_next_cluster cluster
      let next_cluster := r1.1
      let r2 := r1.2.sector_reads (partition_offset + offset) size
        sectors_to_read next_cluster sectors_to_read 0
      let r3 := r2.2.read_chunks_loop size fuel next_cluster (i + 1)
      (r2.1 ++ r3.1, r3.2)
    else ([], d)

/-- `Disk._read_file_in_chunks(file)`, drained to a list of chunks. -/
def Disk.read_file_in_chunks_impl (d : Disk) (file : File) (fuel : Nat) :
    List (List Nat) × Disk :=
  d.read_chunks_loop file.size fuel file.start_cluster 1

/-- The scan `for i in range(start_id, len(data), 4)` in
`Disk._find_next_empty_fat_entry`: `steps` is the iteration count of the
range; returns the first index whose entry has low-28 value zero. -/
def scanSector (data : List Nat) : Nat → Nat → Option Nat
  | 0, _ => none
  | steps + 1, i =>
    if unpackLE32 (pySlice data i 4) % 0x10000000 = 0 then some i
    else scanSector data steps (i + 4)

/-- The `while idx == None` loop of `Disk._find_next_empty_fat_entry`.
Arguments thread the loop variables `start_id`, `sector_num`, `data`; the
loop body reads the current FAT sector, scans it, then advances `sector_num`
(wrapping at `fat_sectors`) — note the advance happens even in the iteration
that finds a free index, so the returned `sector_num` is one past the sector
that was scanned.  `fuel` bounds the number of iterations (the Python loop
can run forever when the FAT has no free entry and the start sector is never
revisited). -/
def Disk.find_loop (d : Disk) (fat_sectors start_sector : Nat) :
    Nat → Nat → Nat → (List Nat) → (List Nat × Nat × Option Nat) × Disk
  | 0, sector_num, _, data => ((data, sector_num, none), d)
  | fuel + 1, sector_num, start_id, _ =>
    let partition_offset := d.partition_offset
    let fat_table_byte_offset := d.bpb.get_fat_table_byte_offset
    let (data, dev) := d.dev.readDisk
      (partition_offset + fat_table_byte_offset + sector_num * LOGICAL_BLOCK_SIZE)
    let d1 : Disk := { d with dev := dev }
    let idx := scanSector data ((data.length - start_id + 3) / 4) start_id
    let sector_num1 := sector_num + 1
    let sector_num2 := if sector_num1 = fat_sectors then 0 else sector_num1
    match idx with
    | some i => ((data, sector_num2, some i), d1)
    | none =>
      if start_sector = sector_num2 then ((data, sector_num2, none), d1)
      else d1.find_loop fat_sectors start_sector fuel sector_num2 0 data

/-- `Disk._find_next_empty_fat_entry(cluster)`. -/
def Disk.find_next_empty_fat_entry (d : Disk) (fuel cluster : Nat) :
    (List Nat × Nat × Option Nat) × Disk :=
  let start_sector := cluster * 4 / LOGICAL_BLOCK_SIZE
  let start_id := cluster * 4 % LOGICAL_BLOCK_SIZE
  d.find_loop d.bpb.get_fat_size_in_sectors start_sector fuel start_sector start_id []

/-- The four assignments `data[idx+j] = entry[j]` (j = 0..3) in
`Disk._write_fat_entry`. -/
def set4 (l : List Nat) (idx : Nat) (e : List Nat) : List Nat :=
  (((l.set idx (e.getD 0 0)).set (idx + 1) (e.getD 1 0)).set
    (idx + 2) (e.getD 2 0)).set (idx + 3) (e.getD 3 0)

/-- `Disk._write_fat_entry(data, sector_num, idx, entry)`: patch four bytes
of the sector buffer and flush it to the FAT sector. -/
def Disk.write_fat_entry (d : Disk) (data : List Nat) (sector_num idx : Nat)
    (entry : List Nat) : Disk :=
  let partition_offset := d.partition_offset
  let fat_table_byte_offset := d.bpb.get_fat_table_byte_offset
  let data := set4 data idx entry
  let dev := d.dev.writeDisk
    (partition_offset + fat_table_byte_offset + sector_num * LOGICAL_BLOCK_SIZE) data
  { d with dev := dev }

/-- `Disk._get_fat_block_for_cluster(cluster)`. -/
def Disk.get_fat_block_for_cluster (d : Disk) (cluster : Nat) :
    (List Nat × Nat × Nat) × Disk :=
  let partition_offset := d.partition_offset
  let fat_table_byte_offset := d.bpb.get_fat_table_byte_offset
  let idx := cluster * 4 % LOGICAL_BLOCK_SIZE
  let sector_num := cluster * 4 / LOGICAL_BLOCK_SIZE
  let (data, dev) := d.dev.readDisk
    (partition_offset + fat_table_byte_offset + sector_num * LOGICAL_BLOCK_SIZE)
  ((data, sector_num, idx), { d with dev := dev })

/-- `Disk._allocate_next_free_cluster(last_cluster)`.  When the free-entry
scan fails (`idx` is `None`), the Python code would raise `TypeError` at
`data[idx] = entry[0]`; the embedding returns the state before any write in
that case. -/
def Disk.allocate_next_free_cluster (d : Disk) (fuel last_cluster : Nat) : Disk :=
  let r1 := d.find_next_empty_fat_entry fuel last_cluster
  match r1.1.2.2 with
  | none => r1.2
  | some idx =>
    let entry := le32 (0x0FFFFFF8 % 0x10000000)
    let d2 := r1.2.write_fat_entry r1.1.1 r1.1.2.1 idx entry
    let new_cluster := (r1.1.2.1 * LOGICAL_BLOCK_SIZE + idx) / 4
    let r2 := d2.get_fat_block_for_cluster last_cluster
    let entry := le32 (new_cluster % 0x10000000)
    r2.2.write_fat_entry r2.1.1 r2.1.2.1 r2.1.2.2 entry

/-- The loop of `Disk._get_files_last_cluster`: follow the chain until the
next value is an end-of-chain marker (note the source reads the same FAT
entry twice when advancing). -/
def Disk.last_cluster_loop (d : Disk) : Nat → Nat → Nat × Disk
  | 0, cluster => (cluster, d)
  | fuel + 1, cluster =>
    if cluster < 0x0FFFFFF8 then
      let r1 := d.get_next_cluster cluster
      if r1.1 < 0x0FFFFFF8 then
        let r2 := r1.2.get_next_cluster cluster
        r2.2.last_cluster_loop fuel r2.1
      else (cluster, r1.2)
    else (cluster, d)

/-- `Disk._get_files_last_cluster(file)`. -/
def Disk.get_files_last_cluster (d : Disk) (fuel : Nat) (file : File) : Nat × Disk :=
  d.last_cluster_loop fuel file.start_cluster

/-- The `while free_bytes_in_cluster > 0` loop of
`Disk._write_to_last_cluster`.  The recursion is on `free` itself (the loop
decrements it by exactly one per iteration).  Loop variables: the remaining
input `data`, the sector buffer `block`, `eof_index`, `used_sectors` and the
running count `written`.  `base` is
`partition_offset + offset` (a multiple of 512). -/
def Disk.fill_loop (d : Disk) (base : Nat) :
    Nat → List Nat → List Nat → Nat → Nat → Nat →
    (List Nat × List Nat × Nat × Nat × Nat) × Disk
  | 0, data, block, eof_index, used_sectors, written =>
    ((data, block, eof_index, used_sectors, written), d)
  | _ + 1, [], block, eof_index, used_sectors, written =>
    (([], block, eof_index, used_sectors, written), d)
  | free + 1, dd :: rest, block, eof_index, used_sectors, written =>
    let block := block.set eof_index dd
    let eof_index := eof_index + 1
    if eof_index = LOGICAL_BLOCK_SIZE then
      if rest ≠ [] then
        let dev1 := d.dev.writeDisk (base + used_sectors * LOGICAL_BLOCK_SIZE) block
        let used_sectors := used_sectors + 1
        let (block2, dev2) := dev1.readDisk (base + used_sectors * LOGICAL_BLOCK_SIZE)
        Disk.fill_loop { d with dev := dev2 } base free rest block2 0 used_sectors (written + 1)
      else
        Disk.fill_loop d base free rest block eof_index used_sectors (written + 1)
    else
      Disk.fill_loop d base free rest block eof_index used_sectors (written + 1)

/-- `Disk._write_to_last_cluster(file, data)`.  `fuel` bounds the last-cluster
chain walk. -/
def Disk.write_to_last_cluster (d : Disk) (fuel : Nat) (file : File)
    (data : List Nat) : (List Nat × Nat) × Disk :=
  let partition_offset := d.partition_offset
  let bytes_per_cluster := d.bpb.get_bytes_per_cluster
  let data_sector_bytes_offset := d.bpb.get_data_sector_bytes_offset
  let file_size := file.size
  let free_bytes_in_cluster := bytes_per_cluster - file_size % bytes_per_cluster
  let rl := d.get_files_last_cluster fuel file
  let last_cluster := rl.1
  let cluster_used_bytes := file_size % bytes_per_cluster
  let used_sectors := cluster_used_bytes / LOGICAL_BLOCK_SIZE
  let eof_index := cluster_used_bytes % LOGICAL_BLOCK_SIZE
  let offset := data_sector_bytes_offset + (last_cluster - 2) * bytes_per_cluster
  let rb := rl.2.dev.readDisk
    (partition_offset + offset + used_sectors * LOGICAL_BLOCK_SIZE)
  let rf :=
    Disk.fill_loop { rl.2 with dev := rb.2 } (partition_offset + offset)
      free_bytes_in_cluster data rb.1 eof_index used_sectors 0
  let dev4 := rf.2.dev.writeDisk
    (partition_offset + offset + rf.1.2.2.2.1 * LOGICAL_BLOCK_SIZE) rf.1.2.1
  ((rf.1.1, rf.1.2.2.2.2), { rf.2 with dev := dev4 })

/-- The `while len(data) > 0` loop of `Disk._append_to_file`; `fuel` bounds
its iterations (each iteration writes at least one byte whenever
`bytes_per_cluster > 0`, so `data.length` iterations always suffice). -/
def Disk.append_loop (d : Disk) (wfuel : Nat) :
    Nat → File → List Nat → File × Disk
  | 0, file, _ => (file, d)
  | fuel + 1, file, data =>
    if data = [] then (file, d)
    else
      let rw := d.write_to_last_cluster wfuel file data
      let file := { file with size := file.size + rw.1.2 }
      if rw.1.1 = [] then (file, rw.2)
      else
        let rl := rw.2.get_files_last_cluster wfuel file
        let d3 := rl.2.allocate_next_free_cluster wfuel rl.1
        d3.append_loop wfuel fuel file rw.1.1

/-- `Disk._append_to_file(file, data)`. -/
def Disk.append_to_file_impl (d : Disk) (fuel : Nat) (file : File)
    (data : List Nat) : File × Disk :=
  d.append_loop fuel fuel file data

/-- `Disk._get_root_directory_entries`.  The source calls
`File(None, None, None, 2, bytes_per_cluster, None, None, None, None)` —
nine positional arguments for a constructor with ten required parameters —
so the call raises `TypeError` before any I/O is performed (and the
subsequent `File.parse_directory_entries(data)` call would also be missing
its required `sector_offset` argument). -/
def Disk.get_root_directory_entries (_ : Disk) : Except PyErr (List File) :=
  Except.error PyErr.typeErr

/-- `Disk.list_root_files`: the initialised check, then
`_get_root_directory_entries`.  On the error paths no state changes. -/
def Disk.list_root_files (d : Disk) : Except PyErr (List File) × Disk :=
  if d.initialised = false then (Except.error raiseDiskNotInitialisedBare, d)
  else (d.get_root_directory_entries, d)

/-- `Disk.read_file_in_chunks(file)`, drained: the generator's initialised
check followed by all chunks of `_read_file_in_chunks`. -/
def Disk.read_file_in_chunks_all (d : Disk) (fuel : Nat) (file : File) :
    Except PyErr (List (List Nat)) × Disk :=
  if d.initialised = false then (Except.error raiseDiskNotInitialisedBare, d)
  else
    let r := d.read_file_in_chunks_impl file fuel
    (Except.ok r.1, r.2)

/-- `Disk.append_to_file(file, data)`: the initialised check, then
`_append_to_file`. -/
def Disk.append_to_file (d : Disk) (fuel : Nat) (file : File)
    (data : List Nat) : Except PyErr File × Disk :=
  if d.initialised = false then (Except.error raiseDiskNotInitialisedBare, d)
  else
    let r := d.append_to_file_impl fuel file data
    (Except.ok r.1, r.2)

/-- The generator object returned by calling `Disk.read_file_in_chunks`:
Python runs none of the body at call time, it just packages the receiver and
argument, so the call itself can neither raise nor perform I/O. -/
structure ChunkGenerator where
  disk : Disk
  file : File

/-- Calling `Disk.read_file_in_chunks(file)` on a disk: returns the
suspended generator. -/
def Disk.read_file_in_chunks_gen (d : Disk) (file : File) : ChunkGenerator :=
  ⟨d, file⟩

/-- The first `next()` on the generator: the body runs from the top, so the
`if not self.initialised: raise DiskNotInitialised` check is evaluated now;
otherwise the first yielded chunk (or `none` at `StopIteration`) is
produced. -/
def ChunkGenerator.next1 (g : ChunkGenerator) (fuel : Nat) :
    Except PyErr (Option (List Nat)) :=
  if g.disk.initialised = false then Except.error raiseDiskNotInitialisedBare
  else
    let r := g.disk.read_file_in_chunks_impl g.file fuel
    Except.ok r.1.head?

/-- `chainB mem po fo c cs` holds when, reading the FAT in the block
contents `mem` (partition offset `po`, FAT byte offset `fo`), the cluster
chain starting at `c` consists exactly of the data clusters `cs` and then an
end-of-chain marker: for `cs = []` the value `c` itself is ≥ 0x0FFFFFF8, and
for `cs = k :: tl` we have `c = k`, `c` is a live cluster, and the chain
continues from `c`'s FAT entry through `tl`. -/
def chainB (mem : Nat → List Nat) (po fo : Nat) : Nat → List Nat → Bool
  | c, [] => 0x0FFFFFF8 ≤ c
  | c, k :: tl =>
    c == k && c < 0x0FFFFFF8 && chainB mem po fo (nextClusterVal mem po fo c) tl

/-- The bytes a file of size `size` occupies along the data clusters `cs`
(1-based running index `i`): every cluster contributes its full
`bytes_per_cluster` bytes except the last, which contributes the remaining
`size - (i - 1) * bpc` bytes.  `P` is the partition byte offset and `dso`
the data-region byte offset. -/
def chainBytes (mem : Nat → List Nat) (P dso bpc size : Nat) :
    List Nat → Nat → List Nat
  | [], _ => []
  | c :: tl, i =>
    memBytes mem (P + dso + (c - 2) * bpc)
      (if tl = [] then size - (i - 1) * bpc else bpc) ++
    chainBytes mem P dso bpc size tl (i + 1)

/-- `d'` has the same configuration attributes as `d` (`partition`,
`bios_parameter_block`, `initialised`); only the device may differ. -/
def Disk.sameGeom (d d' : Disk) : Prop :=
  d'.bpb = d.bpb ∧ d'.start_lba = d.start_lba ∧ d'.initialised = d.initialised

/-- Canonical date-time string `YYYY-MM-DD HH:MM:SS` (zero padded), the
rendering produced by `decode_date`/`decode_time`. -/
def mkDateTimeStr (y mo d h mi s : Nat) : List Nat :=
  pyFmt 4 y ++ [45] ++ pyFmt 2 mo ++ [45] ++ pyFmt 2 d ++ [32] ++
  pyFmt 2 h ++ [58] ++ pyFmt 2 mi ++ [58] ++ pyFmt 2 s

/-- Canonical date string `YYYY-MM-DD` (zero padded), the rendering produced
by `decode_date`. -/
def mkDateStr (y mo d : Nat) : List Nat :=
  pyFmt 4 y ++ [45] ++ pyFmt 2 mo ++ [45] ++ pyFmt 2 d

/-- The effect of writing the bytes of `data` into `block` at consecutive
indices starting at `i` (the repeated `block[eof_index] = d` assignments of
the fill loop of `_write_to_last_cluster`). -/
def setSeq (block : List Nat) (i : Nat) : List Nat → List Nat
  | [] => block
  | x :: rest => setSeq (block.set i x) (i + 1) rest

/-- A FAT sector in which clusters 0 and 1 hold the usual reserved marks,
cluster 21 is an end-of-chain, and every other entry is free. -/
def fatSector1 : List Nat :=
  (List.range 128).flatMap fun i =>
    if i = 0 then [248, 255, 255, 15]
    else if i = 1 then [255, 255, 255, 15]
    else if i = 21 then [255, 255, 255, 15]
    else [0, 0, 0, 0]

/-- A small BPB: 512-byte sectors, 1 sector per cluster, 1 reserved sector,
a single 1-sector FAT.  FAT bytes start at offset 512 and the data region at
offset 1024, so cluster `c` occupies logical block `c`. -/
def bpb3 : BiosParameterBlock :=
  { bytes_per_sector := 512, sectors_per_cluster := 1,
    reserved_sector_count := 1, num_fats := 1,
    total_sectors_16 := 0, total_sectors_32 := 4096,
    fat_size_16 := 0, fat_size_32 := 1,
    root_cluster := 2, fs_info_sector := 0, backup_boot_sector := 0 }

/-- The same geometry with a 2-sector FAT (data region at offset 1536). -/
def bpb4 : BiosParameterBlock :=
  { bytes_per_sector := 512, sectors_per_cluster := 1,
    reserved_sector_count := 1, num_fats := 1,
    total_sectors_16 := 0, total_sectors_32 := 4096,
    fat_size_16 := 0, fat_size_32 := 2,
    root_cluster := 2, fs_info_sector := 0, backup_boot_sector := 0 }

/-- The 32-byte root-directory entry of the file `LOG-1`: size 11 bytes,
start cluster 21, archive attribute, all timestamps zero. -/
def dirEntry3 : List Nat :=
  [76, 79, 71, 45, 49, 32, 32, 32, 32, 32, 32] ++ [32] ++ [0] ++ [0] ++
  [0, 0] ++ [0, 0] ++ [0, 0] ++ [0, 0] ++ [0, 0] ++ [0, 0] ++
  [21, 0] ++ [11, 0, 0, 0]

/-- The data cluster of `LOG-1`: the eleven bytes of "log line 1\n" then
zero padding. -/
def dataBlock3 : List Nat :=
  [108, 111, 103, 32, 108, 105, 110, 101, 32, 49, 10] ++ List.replicate 501 0

/-- Block contents of a small initialised disk (geometry `bpb3`): block 1 is
the FAT, block 2 the root directory holding `dirEntry3`, block 21 the data
cluster of `LOG-1`; all other blocks are zero. -/
def mem3 : Nat → List Nat := fun b =>
  if b = 1 then fatSector1
  else if b = 2 then dirEntry3 ++ List.replicate 480 0
  else if b = 21 then dataBlock3
  else List.replicate 512 0

/-- An initialised `Disk` over `mem3` with an empty I/O log. -/
def disk3 : Disk := { dev := { mem := mem3, log := [] }, start_lba := 0, bpb := bpb3, initialised := true }

/-- The `File` record of `LOG-1` on `disk3` (as `parse_directory_entries`
would build it from `dirEntry3` at byte offset 1024). -/
def file3 : File :=
  { name := [76, 79, 71, 45, 49], attr := 32, attributes := File.attributesOf 32,
    start_cluster := 21, size := 11,
    created := decodeDate 0 ++ [32] ++ decodeTime 0,
    accessed := decodeDate 0,
    written := decodeDate 0 ++ [32] ++ decodeTime 0,
    is_lfn := false, byte_offset := 1024 }

/-- Block contents for the C1 counterexample: cluster 21 holds a file of
exactly 512 bytes (all byte 65), so its single cluster is completely full. -/
def memC1 : Nat → List Nat := fun b =>
  if b = 1 then fatSector1
  else if b = 21 then List.replicate 512 65
  else List.replicate 512 0

/-- An initialised `Disk` over `memC1`. -/
def diskC1 : Disk := { dev := { mem := memC1, log := [] }, start_lba := 0, bpb := bpb3, initialised := true }

/-- A file whose size is exactly one full cluster (512 bytes) at cluster 21. -/
def fileC1 : File :=
  { name := [76, 79, 71, 45, 49], attr := 32, attributes := File.attributesOf 32,
    start_cluster := 21, size := 512,
    created := decodeDate 0 ++ [32] ++ decodeTime 0,
    accessed := decodeDate 0,
    written := decodeDate 0 ++ [32] ++ decodeTime 0,
    is_lfn := false, byte_offset := 1024 }

/-- An initialised `Disk` with the 2-sector-FAT geometry `bpb4`; FAT sector
0 (block 1) is `fatSector1`, FAT sector 1 (block 2) and everything else is
zero. -/
def disk4 : Disk :=
  { dev := { mem := fun b => if b = 1 then fatSector1 else List.replicate 512 0, log := [] },
    start_lba := 0, bpb := bpb4, initialised := true }

/-- An uninitialised `Disk` (no `init` call yet) over the `mem3` contents. -/
def disk5 : Disk := { dev := { mem := mem3, log := [] }, start_lba := 0, bpb := bpb3, initialised := false }

/-- A file whose `created` string parses as integers but packs to a date
outside 16 bits: "9999-01-01 00:00:00". -/
def fileC10 : File :=
  { name := [65], attr := 32, attributes := File.attributesOf 32,
    start_cluster := 2, size := 0,
    created := [57, 57, 57, 57, 45, 48, 49, 45, 48, 49, 32,
                48, 48, 58, 48, 48, 58, 48, 48],
    accessed := decodeDate 0,
    written := decodeDate 0 ++ [32] ++ decodeTime 0,
    is_lfn := false, byte_offset := 0 }

/-- A file whose three timestamp strings ("?") fail to parse, so `to_bytes`
encodes packed value 0 for each of them. -/
def fileC10w : File :=
  { name := [65], attr := 32, attributes := File.attributesOf 32,
    start_cluster := 2, size := 0,
    created := [63], accessed := [63], written := [63],
    is_lfn := false, byte_offset := 0 }

/-- The file `File 1` of the repository's `to_bytes` round-trip test: an
8.3-encodable name, attribute 1 (`R`), cluster 2, 512 bytes, all three
timestamps "2025-07-28 10:11:02" / "2025-07-28" (packed date 23292, packed
time 20833). -/
def fileC6 : File :=
  { name := [70, 105, 108, 101, 32, 49], attr := 1,
    attributes := File.attributesOf 1, start_cluster := 2, size := 512,
    created := decodeDate 23292 ++ [32] ++ decodeTime 20833,
    accessed := decodeDate 23292,
    written := decodeDate 23292 ++ [32] ++ decodeTime 20833,
    is_lfn := false, byte_offset := 1000 }

/-- C9: on an initialised disk, `append_to_file` with an empty buffer issues
no block reads and no block writes and returns the file with its size field
unchanged (the state, including the I/O log, is returned untouched). -/
theorem C9_empty_append_no_io (d : Disk) (f : File) (fuel : Nat)
    (h : d.initialised = true) :
    d.append_to_file fuel f [] = (Except.ok f, d) := by
  unfold Disk.append_to_file Disk.append_to_file_impl
  rw [h]
  cases fuel with
  | zero => simp [Disk.append_loop]
  | succ n => simp [Disk.append_loop]

/-- Witness for C9 at a concrete initialised disk. -/
theorem C9_empty_append_no_io_witness :
    disk3.append_to_file 5 file3 [] = (Except.ok file3, disk3) :=
  C9_empty_append_no_io disk3 file3 5 rfl

/-- C5 (evidence for the code bug): on a disk on which `init` has not been
called, `list_root_files`, a drained `read_file_in_chunks` and
`append_to_file` all fail before performing any block I/O (the state is
returned untouched) — but, because `raise DiskNotInitialised` instantiates
the exception class without its required `message` argument, the exception
that escapes is a `TypeError`, never a constructed `DiskNotInitialised`. -/
theorem C5_uninitialised_raises_type_error (d : Disk) (f : File)
    (b : List Nat) (fuel : Nat) (h : d.initialised = false) :
    d.list_root_files = (Except.error PyErr.typeErr, d) ∧
    d.read_file_in_chunks_all fuel f = (Except.error PyErr.typeErr, d) ∧
    d.append_to_file fuel f b = (Except.error PyErr.typeErr, d) ∧
    ∀ msg, d.list_root_files.1 ≠ Except.error (PyErr.diskNotInitialised msg) := by
  unfold Disk.list_root_files Disk.read_file_in_chunks_all Disk.append_to_file
  rw [h]
  simp [raiseDiskNotInitialisedBare]

/-- Witness for C5 at a concrete uninitialised disk. -/
theorem C5_uninitialised_raises_type_error_witness :
    disk5.list_root_files = (Except.error PyErr.typeErr, disk5) ∧
    disk5.read_file_in_chunks_all 3 file3 = (Except.error PyErr.typeErr, disk5) ∧
    disk5.append_to_file 3 file3 [] = (Except.error PyErr.typeErr, disk5) ∧
    ∀ msg, disk5.list_root_files.1 ≠ Except.error (PyErr.diskNotInitialised msg) :=
  C5_uninitialised_raises_type_error disk5 file3 [] 3 rfl

/-- C8: calling `read_file_in_chunks` on an uninitialised disk returns the
suspended generator without raising and without touching the device (the
call just packages the receiver and the argument); the initialised check
only runs at the first `next()`, which is when the error is raised. -/
theorem C8_generator_defers_check (d : Disk) (f : File) (fuel : Nat)
    (h : d.initialised = false) :
    d.read_file_in_chunks_gen f = ⟨d, f⟩ ∧
    (d.read_file_in_chunks_gen f).next1 fuel = Except.error PyErr.typeErr := by
  refine ⟨rfl, ?_⟩
  unfold ChunkGenerator.next1 Disk.read_file_in_chunks_gen
  rw [show (⟨d, f⟩ : ChunkGenerator).disk = d from rfl, h]
  simp [raiseDiskNotInitialisedBare]

/-- Witness for C8 at a concrete uninitialised disk. -/
theorem C8_generator_defers_check_witness :
    disk5.read_file_in_chunks_gen file3 = ⟨disk5, file3⟩ ∧
    (disk5.read_file_in_chunks_gen file3).next1 3 = Except.error PyErr.typeErr :=
  C8_generator_defers_check disk5 file3 3 rfl

/-- C3 (evidence for the code bug): appending "Test Data" to the 11-byte
file `LOG-1` on `disk3` returns the in-memory record with the new size 20,
but the 32-byte directory entry on disk at the file's byte offset (block 2,
i.e. byte offset `partition_offset + 1024`) is never rewritten: the block is
bit-identical to what it was, its size field still encodes 11, and the only
block write issued targets the data cluster (block 21). -/
theorem C3_directory_entry_not_updated :
    (disk3.append_to_file 3 file3 [84, 101, 115, 116, 32, 68, 97, 116, 97]).1 =
      Except.ok { file3 with size := 20 } ∧
    (disk3.append_to_file 3 file3 [84, 101, 115, 116, 32, 68, 97, 116, 97]).2.dev.mem
      ((disk3.partition_offset + file3.byte_offset) / 512) =
      disk3.dev.mem ((disk3.partition_offset + file3.byte_offset) / 512) ∧
    pySlice ((disk3.append_to_file 3 file3 [84, 101, 115, 116, 32, 68, 97, 116, 97]).2.dev.mem
      ((disk3.partition_offset + file3.byte_offset) / 512))
      (file3.byte_offset % 512 + 28) 4 = le32 11 ∧
    le32 11 ≠ le32 20 ∧
    (writesOf (disk3.append_to_file 3 file3
      [84, 101, 115, 116, 32, 68, 97, 116, 97]).2.dev.log).map Prod.fst = [21] ∧
    (disk3.partition_offset + file3.byte_offset) / 512 = 2 ∧ (2 : Nat) ≠ 21 := by
  refine ⟨by decide, by decide, by decide, by decide, by decide, by decide, by decide⟩

/-- C4 (evidence for the code bug): on `disk4` (2-sector FAT; FAT sector 0
has clusters 2 through 20 and 22 onwards free, cluster 21 allocated), the
scan of `_find_next_empty_fat_entry(21)` starts at cluster 21's entry in FAT
sector 0 and the first free slot it encounters is cluster 22, at byte 88 of
sector 0 — yet the returned triple carries sector index 1 (one past the
sector that was scanned), so the cluster number
`(sectorIndex * 512 + byteIndexInSector) / 4` the triple designates is 150,
not the first free entry 22. -/
theorem C4_find_returns_sector_past_free_slot :
    (disk4.find_next_empty_fat_entry 4 21).1.2 = (1, some 88) ∧
    (1 * LOGICAL_BLOCK_SIZE + 88) / 4 = 150 ∧
    unpackLE32 (pySlice (disk4.dev.mem 1) (22 * 4) 4) % 0x10000000 = 0 ∧
    unpackLE32 (pySlice (disk4.dev.mem 1) (21 * 4) 4) % 0x10000000 ≠ 0 ∧
    22 * 4 / LOGICAL_BLOCK_SIZE = 0 ∧ 22 * 4 % LOGICAL_BLOCK_SIZE = 88 ∧
    (150 : Nat) ≠ 22 := by
  refine ⟨by decide, by decide, by decide, by decide, by decide, by decide, by decide⟩

/-- C1 (counterexample): on `diskC1` the file `fileC1` occupies exactly one
full cluster (512 bytes of value 65).  Appending the single byte 66 makes
`append_to_file` treat the full last cluster as having 512 free bytes and
overwrite its first byte, and the subsequent chunked read of the returned
file yields just `[66]` instead of the original 512 bytes followed by 66. -/
theorem C1_counterexample :
    (diskC1.append_to_file 3 fileC1 [66]).1 = Except.ok { fileC1 with size := 513 } ∧
    ((diskC1.append_to_file 3 fileC1 [66]).2.read_file_in_chunks_all 3
      { fileC1 with size := 513 }).1 = Except.ok [[66]] ∧
    (diskC1.read_file_in_chunks_all 3 fileC1).1 = Except.ok [List.replicate 512 65] ∧
    [[66]].flatten ≠ [List.replicate 512 65].flatten ++ [66] := by
  refine ⟨by decide, by decide, by decide, by decide⟩

/-- C10 (counterexample): the `created` string of `fileC10`,
"9999-01-01 00:00:00", parses successfully inside the `try` block of
`File.to_bytes` (year 9999, so the packed date is
(9999 - 1980) * 512 + 32 + 1 = 4105761), but `struct.pack "<H"` then fails
because the value exceeds 0xFFFF — `to_bytes` raises `struct.error` instead
of returning 32 bytes, although `name`, `created`, `accessed` and `written`
are all strings. -/
theorem C10_counterexample :
    parseDateTimeStr fileC10.created = some (4105761, 0) ∧
    ¬((4105761 : Int) < 65536) ∧
    File.to_bytes fileC10 = none := by
  refine ⟨by decide, by decide, by decide⟩

/-- A list equals the map of its `getD` over its index range. -/
theorem list_eq_map_getD (l : List Nat) :
    (List.range l.length).map (fun j => l.getD j 0) = l := by
  induction l with
  | nil => simp
  | cons a t ih =>
    rw [List.length_cons, List.range_succ_eq_map, List.map_cons, List.map_map]
    simp only [Function.comp_def, List.getD_cons_zero, List.getD_cons_succ]
    rw [ih]

/-- `take` as a map of `getD` over an index range. -/
theorem take_eq_map_getD (l : List Nat) (t : Nat) (h : t ≤ l.length) :
    l.take t = (List.range t).map (fun j => l.getD j 0) := by
  induction l generalizing t with
  | nil => simp at h; simp [h]
  | cons a tl ih =>
    cases t with
    | zero => simp
    | succ t' =>
      rw [List.take_succ_cons, List.range_succ_eq_map, List.map_cons, List.map_map]
      simp only [Function.comp_def, List.getD_cons_zero, List.getD_cons_succ]
      rw [ih t' (by simpa using h)]

/-- `memBytes` splits over a sum of lengths. -/
theorem memBytes_add (m : Nat → List Nat) (a x y : Nat) :
    memBytes m a (x + y) = memBytes m a x ++ memBytes m (a + x) y := by
  unfold memBytes
  rw [List.range_add, List.map_append, List.map_map]
  congr 1
  apply List.map_congr_left
  intro j _
  simp [Function.comp]
  ring_nf

/-- A whole 512-byte block as a `memBytes` run. -/
theorem block_eq_memBytes (m : Nat → List Nat) (hm : ∀ blk, (m blk).length = 512)
    (β : Nat) : memBytes m (β * 512) 512 = m β := by
  unfold memBytes byteAt
  have h1 : ∀ j ∈ List.range 512,
      (m ((β * 512 + j) / 512)).getD ((β * 512 + j) % 512) 0 = (m β).getD j 0 := by
    intro j hj
    rw [List.mem_range] at hj
    have hd : (β * 512 + j) / 512 = β := by omega
    have hmod : (β * 512 + j) % 512 = j := by omega
    rw [hd, hmod]
  rw [List.map_congr_left h1]
  have := list_eq_map_getD (m β)
  rwa [hm β] at this

/-- A `take` of a 512-byte block as a `memBytes` run. -/
theorem take_block_memBytes (m : Nat → List Nat) (hm : ∀ blk, (m blk).length = 512)
    (β t : Nat) (h : t ≤ 512) : (m β).take t = memBytes m (β * 512) t := by
  unfold memBytes byteAt
  have h1 : ∀ j ∈ List.range t,
      (m ((β * 512 + j) / 512)).getD ((β * 512 + j) % 512) 0 = (m β).getD j 0 := by
    intro j hj
    rw [List.mem_range] at hj
    have hd : (β * 512 + j) / 512 = β := by omega
    have hmod : (β * 512 + j) % 512 = j := by omega
    rw [hd, hmod]
  rw [List.map_congr_left h1]
  exact take_eq_map_getD (m β) t (by rw [hm β]; exact h)

/-- Flattening `n` consecutive blocks starting at block `β` gives the
`memBytes` run of `n * 512` bytes from byte `β * 512`. -/
theorem blocks_flatten (m : Nat → List Nat) (hm : ∀ blk, (m blk).length = 512) :
    ∀ (n β : Nat),
    ((List.range n).map (fun s => m (β + s))).flatten = memBytes m (β * 512) (n * 512) := by
  intro n
  induction n with
  | zero => intro β; simp [memBytes]
  | succ k ih =>
    intro β
    rw [List.range_succ, List.map_append, List.flatten_append]
    have : (k + 1) * 512 = k * 512 + 512 := by ring
    rw [this, memBytes_add, ih β]
    have : β * 512 + k * 512 = (β + k) * 512 := by ring
    rw [this, block_eq_memBytes m hm]
    simp

/-- `sameGeom` is reflexive. -/
theorem Disk.sameGeom_refl (d : Disk) : d.sameGeom d := ⟨rfl, rfl, rfl⟩

/-- `sameGeom` is transitive. -/
theorem Disk.sameGeom_trans {d d' d'' : Disk} (h1 : d.sameGeom d')
    (h2 : d'.sameGeom d'') : d.sameGeom d'' :=
  ⟨h2.1.trans h1.1, h2.2.1.trans h1.2.1, h2.2.2.trans h1.2.2⟩

/-- The value computed by `_get_next_cluster` is `nextClusterVal` of the
current block contents. -/
theorem get_next_cluster_fst (d : Disk) (c : Nat) :
    (d.get_next_cluster c).1 =
      nextClusterVal d.dev.mem d.partition_offset d.bpb.get_fat_table_byte_offset c := rfl

/-- `_get_next_cluster` only reads: the block contents are unchanged. -/
theorem get_next_cluster_mem (d : Disk) (c : Nat) :
    (d.get_next_cluster c).2.dev.mem = d.dev.mem := rfl

/-- `_get_next_cluster` leaves the configuration attributes unchanged. -/
theorem get_next_cluster_geom (d : Disk) (c : Nat) :
    d.sameGeom (d.get_next_cluster c).2 := ⟨rfl, rfl, rfl⟩

/-- What the sector loop of `_read_file_in_chunks` yields: one buffer per
sector index, the final sector of the file's final cluster truncated; and it
performs reads only. -/
theorem sector_reads_spec (base size str nc : Nat) :
    ∀ (n : Nat) (sec : Nat) (d : Disk),
    (d.sector_reads base size str nc n sec).1 =
      (List.range' sec n).map (fun s =>
        if s = str - 1 ∧ 0x0FFFFFF8 ≤ nc then
          (d.dev.mem ((base + s * 512) / 512)).take
            (if size % 512 = 0 then 512 else size % 512)
        else d.dev.mem ((base + s * 512) / 512)) ∧
    (d.sector_reads base size str nc n sec).2.dev.mem = d.dev.mem ∧
    d.sameGeom (d.sector_reads base size str nc n sec).2 := by
  intro n
  induction n with
  | zero =>
    intro sec d
    exact ⟨rfl, rfl, Disk.sameGeom_refl d⟩
  | succ k ih =>
    intro sec d
    have hrec := ih (sec + 1) { d with dev := (d.dev.readDisk (base + sec * LOGICAL_BLOCK_SIZE)).2 }
    simp only [Disk.sector_reads]
    refine ⟨?_, ?_, ?_⟩
    · rw [List.range'_succ, List.map_cons]
      simp only [Dev.readDisk, Dev.readBlock, LOGICAL_BLOCK_SIZE] at hrec ⊢
      rw [hrec.1]
    · simp only [Dev.readDisk, Dev.readBlock, LOGICAL_BLOCK_SIZE] at hrec ⊢
      exact hrec.2.1
    · simp only [Dev.readDisk, Dev.readBlock, LOGICAL_BLOCK_SIZE] at hrec ⊢
      exact hrec.2.2

/-- Unfolding of `chainB` on a cons cell. -/
theorem chainB_cons {m : Nat → List Nat} {po fo c cl : Nat} {tl : List Nat}
    (h : chainB m po fo c (cl :: tl) = true) :
    c = cl ∧ c < 0x0FFFFFF8 ∧
      chainB m po fo (nextClusterVal m po fo c) tl = true := by
  simp only [chainB, Bool.and_eq_true, beq_iff_eq, decide_eq_true_eq] at h
  exact ⟨h.1.1, h.1.2, h.2⟩

/-- Unfolding of `chainB` on nil. -/
theorem chainB_nil {m : Nat → List Nat} {po fo c : Nat}
    (h : chainB m po fo c [] = true) : 0x0FFFFFF8 ≤ c := by
  simpa [chainB] using h

/-- The chunk list produced by the loop of `_read_file_in_chunks`, flattened,
is exactly the file's bytes along its cluster chain, provided the chain is
exactly `cs`, every cluster before the last is fully used and the last
cluster covers the remaining bytes.  The device is only read, never written. -/
theorem read_chunks_loop_spec
    (m : Nat → List Nat) (hm : ∀ blk, (m blk).length = 512)
    (B : BiosParameterBlock) (L : Nat)
    (hbps : B.bytes_per_sector = 512) (size : Nat) :
    ∀ (cs : List Nat) (fuel i c : Nat) (d : Disk),
    d.dev.mem = m → d.bpb = B → d.start_lba = L →
    chainB m (L * 512) B.get_fat_table_byte_offset c cs = true →
    (∀ k, k + 1 < cs.length → (i + k) * B.get_bytes_per_cluster ≤ size) →
    size ≤ (i - 1 + cs.length) * B.get_bytes_per_cluster →
    (i - 1) * B.get_bytes_per_cluster ≤ size →
    1 ≤ i →
    cs.length ≤ fuel →
    (d.read_chunks_loop size fuel c i).1.flatten =
      chainBytes m (L * 512) B.get_data_sector_bytes_offset
        B.get_bytes_per_cluster size cs i ∧
    (d.read_chunks_loop size fuel c i).2.dev.mem = m ∧
    d.sameGeom (d.read_chunks_loop size fuel c i).2 := by
  intro cs
  induction cs with
  | nil =>
    intro fuel i c d hmem hbpb hlba hchain _ _ _ _ _
    have hc : ¬ c < 0x0FFFFFF8 := by
      have := chainB_nil hchain; omega
    cases fuel with
    | zero =>
      exact ⟨by simp [Disk.read_chunks_loop, chainBytes],
             by simp [Disk.read_chunks_loop, hmem], by
        simp only [Disk.read_chunks_loop]; exact Disk.sameGeom_refl d⟩
    | succ F =>
      refine ⟨?_, ?_, ?_⟩
      · simp [Disk.read_chunks_loop, hc, chainBytes]
      · simp [Disk.read_chunks_loop, hc, hmem]
      · simp only [Disk.read_chunks_loop, hc, if_false]
        exact Disk.sameGeom_refl d
  | cons cl tl ih =>
    intro fuel i c d hmem hbpb hlba hchain H1 H2 H0 hi hfuel
    cases fuel with
    | zero => simp at hfuel
    | succ F =>
    obtain ⟨hccl, hlt, hchtl⟩ := chainB_cons hchain
    -- abbreviations
    set po := L * 512 with hpo
    set fo := B.get_fat_table_byte_offset with hfo
    set dso := B.get_data_sector_bytes_offset with hdso
    set bpc := B.get_bytes_per_cluster with hbpcdef
    set spc := B.sectors_per_cluster with hspcdef
    have hbpc : bpc = spc * 512 := by
      rw [hbpcdef, BiosParameterBlock.get_bytes_per_cluster, hbps, hspcdef]
    have hdso512 : dso = B.data_start_sector * 512 := by
      rw [hdso, BiosParameterBlock.get_data_sector_bytes_offset, hbps]
    have hpodisk : d.partition_offset = po := by
      rw [Disk.partition_offset, hlba, hpo]
    -- the next-cluster value
    have hnc : (d.get_next_cluster c).1 = nextClusterVal m po fo c := by
      rw [get_next_cluster_fst, hmem, hpodisk, hbpb]
    -- geometry of the cluster base
    have hibpc : i * bpc = (i - 1) * bpc + bpc := by
      have h1 : i - 1 + 1 = i := by omega
      calc i * bpc = (i - 1 + 1) * bpc := by rw [h1]
        _ = (i - 1) * bpc + bpc := by ring
    have hbase : po + (dso + (c - 2) * bpc) =
        (L + B.data_start_sector + (c - 2) * spc) * 512 := by
      rw [hpo, hdso512, hbpc]; ring
    set β := L + B.data_start_sector + (c - 2) * spc with hβ
    have hblk : ∀ s : Nat, (po + (dso + (c - 2) * bpc) + s * 512) / 512 = β + s := by
      intro s; rw [hbase]; omega
    -- unfold one loop iteration
    simp only [Disk.read_chunks_loop, hlt, if_true, LOGICAL_BLOCK_SIZE]
    rw [hpodisk, hbpb, hnc]
    rw [← hdso, ← hbpcdef, show B.get_sectors_per_cluster = spc from rfl]
    set nc := nextClusterVal m po fo c with hncdef
    set str := (if size < i * bpc then
      (bpc - (i * bpc - size)) / 512 + if size % 512 ≠ 0 then 1 else 0
      else spc) with hstrdef
    set base := po + (dso + (c - 2) * bpc) with hbasedef
    set d1 := (d.get_next_cluster c).2 with hd1def
    have hd1mem : d1.dev.mem = m := by
      rw [hd1def, get_next_cluster_mem, hmem]
    have hd1geom : d.sameGeom d1 := get_next_cluster_geom d c
    have hsr := sector_reads_spec base size str nc str 0 d1
    set rsr := d1.sector_reads base size str nc str 0 with hrsrdef
    have hsrmem : rsr.2.dev.mem = m := by rw [hsr.2.1, hd1mem]
    have hsrgeom : d.sameGeom rsr.2 := Disk.sameGeom_trans hd1geom hsr.2.2
    have hchunk_base : po + dso + (cl - 2) * bpc = base := by
      rw [hbasedef, ← hccl]; ring
    -- case split on whether this is the last cluster
    cases tl with
    | cons k2 tl' =>
      -- not the last cluster: it is fully used and the chain continues
      have hfull : i * bpc ≤ size := by
        have := H1 0 (by simp)
        simpa using this
      have hstr : str = spc := by
        rw [hstrdef, if_neg (by omega)]
      obtain ⟨hnck2, hnclt, _⟩ := chainB_cons hchtl
      -- this cluster's chunks are its spc full sectors
      have hchunks : rsr.1.flatten = memBytes m base bpc := by
        have hcongr : (List.range spc).map (fun s =>
            if s = spc - 1 ∧ 0x0FFFFFF8 ≤ nc then
              (m ((base + s * 512) / 512)).take
                (if size % 512 = 0 then 512 else size % 512)
            else m ((base + s * 512) / 512)) =
            (List.range spc).map (fun s => m (β + s)) := by
          apply List.map_congr_left
          intro s _
          rw [if_neg (fun hcond => absurd hcond.2 (Nat.not_le.mpr hnclt)), hblk s]
        rw [hsr.1, hd1mem, hstr, ← List.range_eq_range', hcongr,
          blocks_flatten m hm spc β, ← hbase, hbpc]
      -- apply the induction hypothesis to the tail
      have hrec := ih F (i + 1) nc rsr.2 hsrmem
        (by rw [hsrgeom.1, hbpb]) (by rw [hsrgeom.2.1, hlba]) hchtl
        (by
          intro k hk
          have := H1 (k + 1) (by simp at hk ⊢; omega)
          have harith : i + (k + 1) = i + 1 + k := by omega
          rwa [harith] at this)
        (by
          have harith : i + 1 - 1 + (k2 :: tl').length =
              i - 1 + (cl :: k2 :: tl').length := by
            simp [List.length_cons]; omega
          rwa [harith])
        (by simpa using hfull)
        (by omega)
        (by simp at hfuel ⊢; omega)
      refine ⟨?_, hrec.2.1, Disk.sameGeom_trans hsrgeom hrec.2.2⟩
      rw [List.flatten_append, hchunks, hrec.1]
      conv_rhs => rw [chainBytes]
      rw [if_neg (List.cons_ne_nil k2 tl'), hchunk_base]
    | nil =>
      -- the last cluster
      have hEOCnc : 0x0FFFFFF8 ≤ nc := chainB_nil hchtl
      have hrest : rsr.2.read_chunks_loop size F nc (i + 1) = ([], rsr.2) := by
        cases F with
        | zero => rfl
        | succ F' => simp [Disk.read_chunks_loop, show ¬ nc < 0x0FFFFFF8 by omega]
      have hszle : size ≤ i * bpc := by
        have harith : i - 1 + ([cl] : List Nat).length = i := by simp; omega
        rwa [harith] at H2
      have hA512 : (i - 1) * bpc % 512 = 0 := by
        rw [hbpc, ← Nat.mul_assoc]
        exact Nat.mul_mod_left _ _
      have hchainBytes : chainBytes m po dso bpc size [cl] i =
          memBytes m base (size - (i - 1) * bpc) := by
        rw [chainBytes, chainBytes, if_pos rfl, hchunk_base, List.append_nil]
      refine ⟨?_, by rw [hrest, hsrmem], by rw [hrest]; exact hsrgeom⟩
      rw [hrest, hchainBytes]
      simp only [List.append_nil]
      by_cases hsz : size < i * bpc
      · -- genuinely partial last cluster
        have hbpc_sub : bpc - (i * bpc - size) = size - (i - 1) * bpc := by
          rw [hibpc] at hszle ⊢
          generalize (i - 1) * bpc = A at hszle ⊢
          omega
        by_cases hs512 : size % 512 = 0
        · have hstr2 : str = (size - (i - 1) * bpc) / 512 := by
            rw [hstrdef, if_pos hsz, hbpc_sub, if_neg (by omega), Nat.add_zero]
          have hr512 : (size - (i - 1) * bpc) % 512 = 0 := by
            generalize hA : (i - 1) * bpc = A at H0 hA512 ⊢
            omega
          have hcongr : (List.range ((size - (i - 1) * bpc) / 512)).map (fun s =>
              if s = (size - (i - 1) * bpc) / 512 - 1 ∧ 0x0FFFFFF8 ≤ nc then
                (m ((base + s * 512) / 512)).take
                  (if size % 512 = 0 then 512 else size % 512)
              else m ((base + s * 512) / 512)) =
              (List.range ((size - (i - 1) * bpc) / 512)).map (fun s => m (β + s)) := by
            apply List.map_congr_left
            intro s _
            rw [hblk s, if_pos hs512]
            split
            · exact List.take_of_length_le (le_of_eq (hm (β + s)))
            · rfl
          rw [hsr.1, hd1mem, hstr2, ← List.range_eq_range', hcongr,
            blocks_flatten m hm _ β, ← hbase]
          congr 1
          generalize hA : (i - 1) * bpc = A at H0 hr512 ⊢
          omega
        · have hstr2 : str = (size - (i - 1) * bpc) / 512 + 1 := by
            rw [hstrdef, if_pos hsz, hbpc_sub, if_pos hs512]
          have hrs : (size - (i - 1) * bpc) % 512 = size % 512 := by
            generalize hA : (i - 1) * bpc = A at H0 hA512 ⊢
            omega
          have hfirst : ((List.range ((size - (i - 1) * bpc) / 512)).map (fun s =>
              if s = (size - (i - 1) * bpc) / 512 + 1 - 1 ∧ 0x0FFFFFF8 ≤ nc then
                (m ((base + s * 512) / 512)).take
                  (if size % 512 = 0 then 512 else size % 512)
              else m ((base + s * 512) / 512))).flatten =
              memBytes m base ((size - (i - 1) * bpc) / 512 * 512) := by
            have hcongr : (List.range ((size - (i - 1) * bpc) / 512)).map (fun s =>
                if s = (size - (i - 1) * bpc) / 512 + 1 - 1 ∧ 0x0FFFFFF8 ≤ nc then
                  (m ((base + s * 512) / 512)).take
                    (if size % 512 = 0 then 512 else size % 512)
                else m ((base + s * 512) / 512)) =
                (List.range ((size - (i - 1) * bpc) / 512)).map (fun s => m (β + s)) := by
              apply List.map_congr_left
              intro s hs
              rw [List.mem_range] at hs
              rw [if_neg (fun hcond => absurd hcond.1 (by
                rw [Nat.add_sub_cancel]; exact Nat.ne_of_lt hs)), hblk s]
            rw [hcongr, blocks_flatten m hm _ β, ← hbase]
          rw [hsr.1, hd1mem, hstr2, ← List.range_eq_range', List.range_succ,
            List.map_append, List.flatten_append, hfirst]
          simp only [List.map_cons, List.map_nil, List.flatten_cons,
            List.flatten_nil, List.append_nil]
          rw [if_pos ⟨by rw [Nat.add_sub_cancel], hEOCnc⟩, if_neg hs512, hblk, ← hrs,
            take_block_memBytes m hm _ _ (le_of_lt (Nat.mod_lt _ (by norm_num)))]
          have hbq : (β + (size - (i - 1) * bpc) / 512) * 512 =
              base + (size - (i - 1) * bpc) / 512 * 512 := by
            rw [hbase]; ring
          rw [hbq, ← memBytes_add]
          congr 1
          generalize hA : (i - 1) * bpc = A at H0 ⊢
          omega
      · -- the last cluster is exactly full
        have hsize_eq : size = i * bpc := le_antisymm hszle (not_lt.mp hsz)
        have hstr2 : str = spc := by rw [hstrdef, if_neg hsz]
        have hs512 : size % 512 = 0 := by
          rw [hsize_eq, hbpc, ← Nat.mul_assoc]
          exact Nat.mul_mod_left _ _
        have hr_eq : size - (i - 1) * bpc = bpc := by
          rw [hsize_eq, hibpc, Nat.add_sub_cancel_left]
        have hcongr : (List.range spc).map (fun s =>
            if s = spc - 1 ∧ 0x0FFFFFF8 ≤ nc then
              (m ((base + s * 512) / 512)).take
                (if size % 512 = 0 then 512 else size % 512)
            else m ((base + s * 512) / 512)) =
            (List.range spc).map (fun s => m (β + s)) := by
          apply List.map_congr_left
          intro s _
          rw [hblk s, if_pos hs512]
          split
          · exact List.take_of_length_le (le_of_eq (hm (β + s)))
          · rfl
        rw [hsr.1, hd1mem, hstr2, ← List.range_eq_range', hcongr,
          blocks_flatten m hm spc β, ← hbase, hr_eq, hbpc]

/-- The length of a `memBytes` run. -/
theorem memBytes_length (m : Nat → List Nat) (s l : Nat) :
    (memBytes m s l).length = l := by
  simp [memBytes]

/-- The total number of bytes along a chain whose non-final clusters are all
fully used. -/
theorem chainBytes_length (m : Nat → List Nat) (P dso bpc size : Nat) :
    ∀ (cs : List Nat) (i : Nat),
    (∀ k, k + 1 < cs.length → (i + k) * bpc ≤ size) →
    size ≤ (i - 1 + cs.length) * bpc →
    (i - 1) * bpc ≤ size →
    1 ≤ i →
    (chainBytes m P dso bpc size cs i).length = size - (i - 1) * bpc := by
  intro cs
  induction cs with
  | nil =>
    intro i _ H2 _ _
    simp only [chainBytes, List.length_nil]
    have : size ≤ (i - 1) * bpc := by simpa using H2
    omega
  | cons c tl ih =>
    intro i H1 H2 H0 hi
    have hibpc : i * bpc = (i - 1) * bpc + bpc := by
      have h1 : i - 1 + 1 = i := by omega
      calc i * bpc = (i - 1 + 1) * bpc := by rw [h1]
        _ = (i - 1) * bpc + bpc := by ring
    cases tl with
    | nil =>
      simp [chainBytes, memBytes_length]
    | cons k2 tl' =>
      have hrec := ih (i + 1)
        (fun k hk => by
          have := H1 (k + 1) (by simp at hk ⊢; omega)
          have harith : i + (k + 1) = i + 1 + k := by omega
          rwa [harith] at this)
        (by
          have harith : i + 1 - 1 + (k2 :: tl').length =
              i - 1 + (c :: k2 :: tl').length := by
            simp [List.length_cons]; omega
          rw [harith]; exact H2)
        (by
          have := H1 0 (by simp)
          simpa using this)
        (by omega)
      rw [chainBytes, if_neg (List.cons_ne_nil k2 tl'), List.length_append,
        memBytes_length, hrec]
      have hfull : i * bpc ≤ size := by
        have := H1 0 (by simp)
        simpa using this
      simp only [Nat.add_sub_cancel]
      generalize hA : (i - 1) * bpc = A at hibpc ⊢
      generalize hB : i * bpc = Bv at hibpc hfull ⊢
      omega

/-- C2: on an initialised disk with the 512-byte-block device contract, if
the cluster chain of `f` reaches an end-of-chain marker in exactly
`⌈size / bytesPerCluster⌉` steps (the chain being the cluster list `cs`),
then the chunks yielded by `read_file_in_chunks` total exactly `f.size`
bytes. -/
theorem C2_read_length (d : Disk) (f : File) (cs : List Nat) (fuel : Nat)
    (hinit : d.initialised = true)
    (hbps : d.bpb.bytes_per_sector = 512)
    (hmem : ∀ blk, (d.dev.mem blk).length = 512)
    (hbpcpos : 0 < d.bpb.get_bytes_per_cluster)
    (hchain : chainB d.dev.mem (d.start_lba * 512)
      d.bpb.get_fat_table_byte_offset f.start_cluster cs = true)
    (hlen : cs.length = (f.size + d.bpb.get_bytes_per_cluster - 1) /
      d.bpb.get_bytes_per_cluster)
    (hfuel : cs.length ≤ fuel) :
    ∃ L dR, d.read_file_in_chunks_all fuel f = (Except.ok L, dR) ∧
      (L.map List.length).sum = f.size := by
  set bpc := d.bpb.get_bytes_per_cluster with hbpcdef
  set n := cs.length with hn
  -- ceiling facts
  have hceil := Nat.div_add_mod (f.size + bpc - 1) bpc
  have hrem : (f.size + bpc - 1) % bpc < bpc := Nat.mod_lt _ hbpcpos
  have key1 : f.size ≤ n * bpc := by
    rw [hlen, Nat.mul_comm]
    generalize hq : (f.size + bpc - 1) / bpc = q at hceil ⊢
    generalize hrm : (f.size + bpc - 1) % bpc = rem at hceil hrem
    generalize hC : bpc * q = C at hceil ⊢
    omega
  have key2 : ∀ k, k + 1 < n → (1 + k) * bpc ≤ f.size := by
    intro k hk
    have h1 : (1 + k) * bpc ≤ (n - 1) * bpc :=
      Nat.mul_le_mul_right bpc (by omega)
    refine le_trans h1 ?_
    have hsub : (n - 1) * bpc = bpc * n - bpc := by
      rw [Nat.sub_mul, Nat.one_mul, Nat.mul_comm]
    rw [hsub, hlen]
    generalize hq : (f.size + bpc - 1) / bpc = q at hceil ⊢
    generalize hrm : (f.size + bpc - 1) % bpc = rem at hceil hrem
    generalize hC : bpc * q = C at hceil ⊢
    omega
  have hspec := read_chunks_loop_spec d.dev.mem hmem d.bpb d.start_lba hbps
    f.size cs fuel 1 f.start_cluster d rfl rfl rfl hchain
    (fun k hk => key2 k hk)
    (by simpa using key1)
    (by simp)
    (le_refl 1)
    hfuel
  refine ⟨(d.read_chunks_loop f.size fuel f.start_cluster 1).1,
    (d.read_chunks_loop f.size fuel f.start_cluster 1).2, ?_, ?_⟩
  · unfold Disk.read_file_in_chunks_all Disk.read_file_in_chunks_impl
    rw [hinit]
    simp
  · rw [← List.length_flatten, hspec.1]
    have hlen2 := chainBytes_length d.dev.mem (d.start_lba * 512)
      d.bpb.get_data_sector_bytes_offset bpc f.size cs 1
      (fun k hk => key2 k hk)
      (by simpa using key1)
      (by simp)
      (le_refl 1)
    simpa using hlen2

/-- Every block of `mem3` is 512 bytes. -/
theorem mem3_len : ∀ blk, (mem3 blk).length = 512 := by
  intro blk
  simp only [mem3]
  split
  · decide
  · split
    · decide
    · split
      · decide
      · decide

/-- Every block of `memC1` is 512 bytes. -/
theorem memC1_len : ∀ blk, (memC1 blk).length = 512 := by
  intro blk
  simp only [memC1]
  split
  · decide
  · split
    · decide
    · decide

/-- Witness for C2: reading the 11-byte file `LOG-1` on `disk3` (chain
`[21]`, one cluster) yields chunks totalling exactly 11 bytes. -/
theorem C2_read_length_witness :
    ∃ L dR, disk3.read_file_in_chunks_all 1 file3 = (Except.ok L, dR) ∧
      (L.map List.length).sum = file3.size :=
  C2_read_length disk3 file3 [21] 1 rfl rfl mem3_len (by decide) (by decide)
    (by decide) (by decide)

/-- `writesOf` distributes over log concatenation. -/
theorem writesOf_append (l1 l2 : List Ev) :
    writesOf (l1 ++ l2) = writesOf l1 ++ writesOf l2 := by
  simp [writesOf]

/-- `readsOf` distributes over log concatenation. -/
theorem readsOf_append (l1 l2 : List Ev) :
    readsOf (l1 ++ l2) = readsOf l1 ++ readsOf l2 := by
  simp [readsOf]

/-- `getD` after `set` at a different index. -/
theorem getD_set_ne (l : List Nat) (i j a : Nat) (h : i ≠ j) :
    (l.set i a).getD j 0 = l.getD j 0 := by
  simp [List.getD, List.getElem?_set_ne h]

/-- `getD` after `set` at the same (in-bounds) index. -/
theorem getD_set_self (l : List Nat) (i a : Nat) (h : i < l.length) :
    (l.set i a).getD i 0 = a := by
  simp [List.getD, List.getElem?_set_self', h]

/-- A 4-byte Python slice of a sufficiently long list, element-wise. -/
theorem slice4_eq (l : List Nat) (i : Nat) (h : i + 4 ≤ l.length) :
    pySlice l i 4 = [l.getD i 0, l.getD (i + 1) 0, l.getD (i + 2) 0, l.getD (i + 3) 0] := by
  have h4 : 4 ≤ (l.drop i).length := by simp; omega
  rw [pySlice, take_eq_map_getD _ 4 h4, show List.range 4 = [0, 1, 2, 3] from rfl]
  simp [List.getD, List.getElem?_drop]

/-- Slicing the four patched bytes out of `set4 l idx e` recovers the
entry's bytes. -/
theorem set4_slice (l : List Nat) (idx : Nat) (e : List Nat)
    (h : idx + 4 ≤ l.length) :
    pySlice (set4 l idx e) idx 4 =
      [e.getD 0 0, e.getD 1 0, e.getD 2 0, e.getD 3 0] := by
  rw [slice4_eq _ _ (by simp [set4]; omega)]
  unfold set4
  have e0 : ((((l.set idx (e.getD 0 0)).set (idx + 1) (e.getD 1 0)).set
      (idx + 2) (e.getD 2 0)).set (idx + 3) (e.getD 3 0)).getD idx 0 = e.getD 0 0 := by
    rw [getD_set_ne _ _ _ _ (by omega), getD_set_ne _ _ _ _ (by omega),
      getD_set_ne _ _ _ _ (by omega), getD_set_self _ _ _ (by omega)]
  have e1 : ((((l.set idx (e.getD 0 0)).set (idx + 1) (e.getD 1 0)).set
      (idx + 2) (e.getD 2 0)).set (idx + 3) (e.getD 3 0)).getD (idx + 1) 0 = e.getD 1 0 := by
    rw [getD_set_ne _ _ _ _ (by omega), getD_set_ne _ _ _ _ (by omega),
      getD_set_self _ _ _ (by simp; omega)]
  have e2 : ((((l.set idx (e.getD 0 0)).set (idx + 1) (e.getD 1 0)).set
      (idx + 2) (e.getD 2 0)).set (idx + 3) (e.getD 3 0)).getD (idx + 2) 0 = e.getD 2 0 := by
    rw [getD_set_ne _ _ _ _ (by omega),
      getD_set_self _ _ _ (by simp; omega)]
  have e3 : ((((l.set idx (e.getD 0 0)).set (idx + 1) (e.getD 1 0)).set
      (idx + 2) (e.getD 2 0)).set (idx + 3) (e.getD 3 0)).getD (idx + 3) 0 = e.getD 3 0 := by
    rw [getD_set_self _ _ _ (by simp; omega)]
  rw [e0, e1, e2, e3]

/-- If the sector scan finds a free index, it lies on the scanned 4-byte
grid within the scanned range. -/
theorem scanSector_some (data : List Nat) :
    ∀ (steps i0 i : Nat), scanSector data steps i0 = some i →
      ∃ k, i = i0 + 4 * k ∧ k < steps := by
  intro steps
  induction steps with
  | zero => intro i0 i h; simp [scanSector] at h
  | succ st ih =>
    intro i0 i h
    simp only [scanSector] at h
    split at h
    · exact ⟨0, by simp [(Option.some_inj.mp h).symm], by omega⟩
    · obtain ⟨k, hk1, hk2⟩ := ih (i0 + 4) i h
      exact ⟨k + 1, by omega, by omega⟩

/-- The free-entry search loop only reads; when it reports a free index, the
index is 4-aligned and within the 512-byte sector whose buffer it returns. -/
theorem find_loop_post (fs ss : Nat) :
    ∀ (fuel : Nat) (d : Disk) (sn sid : Nat) (data0 : List Nat),
    (∀ blk, (d.dev.mem blk).length = 512) →
    sid % 4 = 0 → sid < 512 →
    ((d.find_loop fs ss fuel sn sid data0).2.dev.mem = d.dev.mem ∧
     d.sameGeom (d.find_loop fs ss fuel sn sid data0).2 ∧
     writesOf (d.find_loop fs ss fuel sn sid data0).2.dev.log =
       writesOf d.dev.log) ∧
    (∀ buf s i, (d.find_loop fs ss fuel sn sid data0).1 = (buf, s, some i) →
      i % 4 = 0 ∧ i < 512 ∧ buf.length = 512) := by
  intro fuel
  induction fuel with
  | zero =>
    intro d sn sid data0 hmem h4 hlt
    refine ⟨⟨rfl, Disk.sameGeom_refl d, rfl⟩, ?_⟩
    intro buf s i h
    simp [Disk.find_loop] at h
  | succ F ih =>
    intro d sn sid data0 hmem h4 hlt
    set blk := (d.partition_offset + d.bpb.get_fat_table_byte_offset + sn * 512) / 512 with hblkdef
    set data := d.dev.mem blk with hdata
    have hdlen : data.length = 512 := hmem blk
    set d1 : Disk := { d with dev := { mem := d.dev.mem, log := d.dev.log ++ [Ev.read blk] } } with hd1
    have hd1mem : d1.dev.mem = d.dev.mem := rfl
    have hd1geom : d.sameGeom d1 := ⟨rfl, rfl, rfl⟩
    have hd1w : writesOf d1.dev.log = writesOf d.dev.log := by
      rw [hd1]
      show writesOf (d.dev.log ++ [Ev.read blk]) = writesOf d.dev.log
      rw [writesOf_append]
      simp [writesOf]
    have hstep : d.find_loop fs ss (F + 1) sn sid data0 =
        (match scanSector data ((data.length - sid + 3) / 4) sid with
         | some i => ((data, if sn + 1 = fs then 0 else sn + 1, some i), d1)
         | none =>
           if ss = (if sn + 1 = fs then 0 else sn + 1)
           then ((data, (if sn + 1 = fs then 0 else sn + 1), none), d1)
           else d1.find_loop fs ss F (if sn + 1 = fs then 0 else sn + 1) 0 data) := by
      simp only [Disk.find_loop, Dev.readDisk, Dev.readBlock, LOGICAL_BLOCK_SIZE]
    rcases hscan : scanSector data ((data.length - sid + 3) / 4) sid with _ | j
    · -- nothing found in this sector
      rw [hscan] at hstep
      by_cases hstop : ss = (if sn + 1 = fs then 0 else sn + 1)
      · rw [if_pos hstop] at hstep
        rw [hstep]
        refine ⟨⟨hd1mem, hd1geom, hd1w⟩, ?_⟩
        intro buf s i h
        simp at h
      · rw [if_neg hstop] at hstep
        rw [hstep]
        have hrec := ih d1 (if sn + 1 = fs then 0 else sn + 1) 0 data
          (fun b => hmem b) (by omega) (by omega)
        exact ⟨⟨hrec.1.1.trans hd1mem, Disk.sameGeom_trans hd1geom hrec.1.2.1,
          hrec.1.2.2.trans hd1w⟩, hrec.2⟩
    · -- found a free index j
      rw [hscan] at hstep
      rw [hstep]
      refine ⟨⟨hd1mem, hd1geom, hd1w⟩, ?_⟩
      intro buf s i h
      simp only [Prod.mk.injEq, Option.some_inj] at h
      obtain ⟨hbuf, _, hij⟩ := h
      obtain ⟨k, hk1, hk2⟩ := scanSector_some data _ sid j hscan
      rw [hdlen] at hk2
      exact ⟨by omega, by omega, by rw [← hbuf, hdlen]⟩

/-- `_find_next_empty_fat_entry` only reads; a reported free index is
4-aligned and within the returned 512-byte sector buffer. -/
theorem find_next_post (d : Disk) (fuel c : Nat)
    (hmem : ∀ blk, (d.dev.mem blk).length = 512) :
    ((d.find_next_empty_fat_entry fuel c).2.dev.mem = d.dev.mem ∧
     d.sameGeom (d.find_next_empty_fat_entry fuel c).2 ∧
     writesOf (d.find_next_empty_fat_entry fuel c).2.dev.log =
       writesOf d.dev.log) ∧
    (∀ buf s i, (d.find_next_empty_fat_entry fuel c).1 = (buf, s, some i) →
      i % 4 = 0 ∧ i < 512 ∧ buf.length = 512) := by
  unfold Disk.find_next_empty_fat_entry
  exact find_loop_post _ _ fuel d _ _ [] hmem
    (by simp only [LOGICAL_BLOCK_SIZE]; omega)
    (by simp only [LOGICAL_BLOCK_SIZE]; omega)

/-- The log effect of `_write_fat_entry`: exactly one block write, of the
patched buffer, to the FAT sector. -/
theorem write_fat_entry_log (d : Disk) (data : List Nat) (sn idx : Nat)
    (e : List Nat) :
    (d.write_fat_entry data sn idx e).dev.log =
      d.dev.log ++ [Ev.write ((d.partition_offset +
        d.bpb.get_fat_table_byte_offset + sn * LOGICAL_BLOCK_SIZE) /
        LOGICAL_BLOCK_SIZE) (set4 data idx e)] := rfl

/-- `_write_fat_entry` preserves the configuration attributes. -/
theorem write_fat_entry_geom (d : Disk) (data : List Nat) (sn idx : Nat)
    (e : List Nat) : d.sameGeom (d.write_fat_entry data sn idx e) :=
  ⟨rfl, rfl, rfl⟩

/-- `_write_fat_entry` keeps every block 512 bytes long when the written
buffer is 512 bytes long. -/
theorem write_fat_entry_mem_len (d : Disk) (data : List Nat) (sn idx : Nat)
    (e : List Nat) (hmem : ∀ blk, (d.dev.mem blk).length = 512)
    (hd : data.length = 512) :
    ∀ blk, ((d.write_fat_entry data sn idx e).dev.mem blk).length = 512 := by
  intro blk
  unfold Disk.write_fat_entry Dev.writeDisk Dev.writeBlock
  dsimp only
  split
  · simp [set4, hd]
  · exact hmem blk

/-- The components returned by `_get_fat_block_for_cluster`. -/
theorem get_fat_block_fst (d : Disk) (c : Nat) :
    (d.get_fat_block_for_cluster c).1 =
      (d.dev.mem ((d.partition_offset + d.bpb.get_fat_table_byte_offset +
        c * 4 / LOGICAL_BLOCK_SIZE * LOGICAL_BLOCK_SIZE) / LOGICAL_BLOCK_SIZE),
       c * 4 / LOGICAL_BLOCK_SIZE, c * 4 % LOGICAL_BLOCK_SIZE) := rfl

/-- `_get_fat_block_for_cluster` logs one read and changes nothing else. -/
theorem get_fat_block_log (d : Disk) (c : Nat) :
    (d.get_fat_block_for_cluster c).2.dev.log =
      d.dev.log ++ [Ev.read ((d.partition_offset +
        d.bpb.get_fat_table_byte_offset +
        c * 4 / LOGICAL_BLOCK_SIZE * LOGICAL_BLOCK_SIZE) / LOGICAL_BLOCK_SIZE)] := rfl

/-- `_get_fat_block_for_cluster` leaves the block contents unchanged. -/
theorem get_fat_block_mem (d : Disk) (c : Nat) :
    (d.get_fat_block_for_cluster c).2.dev.mem = d.dev.mem := rfl

/-- `_get_fat_block_for_cluster` preserves the configuration attributes. -/
theorem get_fat_block_geom (d : Disk) (c : Nat) :
    d.sameGeom (d.get_fat_block_for_cluster c).2 := ⟨rfl, rfl, rfl⟩

/-- C7: whenever the free-entry scan succeeds, `_allocate_next_free_cluster`
issues exactly two block writes, in this order: first the write that stores
the end-of-chain marker 0x0FFFFFF8 into the FAT slot of the newly allocated
cluster `(sectorIndex * 512 + byteIndex) / 4`, then the write that stores
that cluster number into `last`'s FAT slot.  No other block writes are
issued. -/
theorem C7_allocate_write_order (d : Disk) (fuel last : Nat)
    (buf : List Nat) (sn idx : Nat)
    (hmem : ∀ blk, (d.dev.mem blk).length = 512)
    (hbps : d.bpb.bytes_per_sector = 512)
    (hfind : (d.find_next_empty_fat_entry fuel last).1 = (buf, sn, some idx)) :
    ∃ w1 w2,
      writesOf (d.allocate_next_free_cluster fuel last).dev.log =
        writesOf d.dev.log ++ [w1, w2] ∧
      w1.1 = (d.partition_offset + d.bpb.get_fat_table_byte_offset) / 512 +
        (sn * LOGICAL_BLOCK_SIZE + idx) / 4 * 4 / 512 ∧
      pySlice w1.2 ((sn * LOGICAL_BLOCK_SIZE + idx) / 4 * 4 % 512) 4 =
        le32 0x0FFFFFF8 ∧
      w2.1 = (d.partition_offset + d.bpb.get_fat_table_byte_offset) / 512 +
        last * 4 / 512 ∧
      pySlice w2.2 (last * 4 % 512) 4 =
        le32 ((sn * LOGICAL_BLOCK_SIZE + idx) / 4 % 0x10000000) := by
  obtain ⟨⟨hfmem, hfgeom, hfw⟩, hpost⟩ := find_next_post d fuel last hmem
  obtain ⟨hi4, hi512, hbuflen⟩ := hpost buf sn idx hfind
  set d1 := (d.find_next_empty_fat_entry fuel last).2 with hd1def
  have hmem1 : ∀ blk, (d1.dev.mem blk).length = 512 := by
    intro blk; rw [hfmem]; exact hmem blk
  have hpo1 : d1.partition_offset = d.partition_offset := by
    rw [Disk.partition_offset, Disk.partition_offset, hfgeom.2.1]
  have hbpb1 : d1.bpb = d.bpb := hfgeom.1
  have hfo : d.bpb.get_fat_table_byte_offset =
      d.bpb.reserved_sector_count * 512 := by
    rw [BiosParameterBlock.get_fat_table_byte_offset,
      BiosParameterBlock.fat_start_sector, hbps]
  have hpo512 : d.partition_offset = d.start_lba * 512 := rfl
  have hdivblk : ∀ s : Nat,
      (d.partition_offset + d.bpb.get_fat_table_byte_offset + s * 512) / 512 =
      (d.partition_offset + d.bpb.get_fat_table_byte_offset) / 512 + s := by
    intro s
    rw [hpo512, hfo]
    omega
  set e1 := le32 (0x0FFFFFF8 % 0x10000000) with he1
  set e2 := le32 ((sn * LOGICAL_BLOCK_SIZE + idx) / 4 % 0x10000000) with he2
  have halloc : d.allocate_next_free_cluster fuel last =
      ((d1.write_fat_entry buf sn idx e1).get_fat_block_for_cluster last).2.write_fat_entry
        ((d1.write_fat_entry buf sn idx e1).get_fat_block_for_cluster last).1.1
        ((d1.write_fat_entry buf sn idx e1).get_fat_block_for_cluster last).1.2.1
        ((d1.write_fat_entry buf sn idx e1).get_fat_block_for_cluster last).1.2.2
        e2 := by
    unfold Disk.allocate_next_free_cluster
    dsimp only
    rw [hfind]
  set d2 := d1.write_fat_entry buf sn idx e1 with hd2def
  have hmem2 : ∀ blk, (d2.dev.mem blk).length = 512 :=
    write_fat_entry_mem_len d1 buf sn idx e1 hmem1 hbuflen
  have hd2geom : d.sameGeom d2 := Disk.sameGeom_trans hfgeom (write_fat_entry_geom d1 buf sn idx e1)
  have hpo2 : d2.partition_offset = d.partition_offset := by
    rw [Disk.partition_offset, Disk.partition_offset, hd2geom.2.1]
  have hbpb2 : d2.bpb = d.bpb := hd2geom.1
  refine ⟨((d.partition_offset + d.bpb.get_fat_table_byte_offset) / 512 + sn,
      set4 buf idx e1),
    ((d.partition_offset + d.bpb.get_fat_table_byte_offset) / 512 + last * 4 / 512,
      set4 (d2.dev.mem ((d.partition_offset + d.bpb.get_fat_table_byte_offset) / 512 +
        last * 4 / 512)) (last * 4 % 512) e2), ?_, ?_, ?_, ?_, ?_⟩
  · rw [halloc, write_fat_entry_log, writesOf_append]
    rw [get_fat_block_log, writesOf_append]
    rw [hd2def, write_fat_entry_log, writesOf_append]
    rw [hfw]
    simp only [writesOf, List.filterMap_cons, List.filterMap_nil, List.append_assoc]
    congr 1
    rw [get_fat_block_fst]
    dsimp only
    rw [hpo1, hbpb1, hpo2, hbpb2]
    simp only [LOGICAL_BLOCK_SIZE]
    rw [hdivblk sn]
    rw [show ((d1.write_fat_entry buf sn idx e1).get_fat_block_for_cluster
        last).2.partition_offset = d.partition_offset from hpo2]
    rw [show ((d1.write_fat_entry buf sn idx e1).get_fat_block_for_cluster
        last).2.bpb = d.bpb from hbpb2]
    rw [hdivblk (last * 4 / 512)]
    simp
  · dsimp only
    rw [show (sn * LOGICAL_BLOCK_SIZE + idx) / 4 * 4 / 512 = sn by
      simp only [LOGICAL_BLOCK_SIZE]; omega]
  · dsimp only
    rw [show (sn * LOGICAL_BLOCK_SIZE + idx) / 4 * 4 % 512 = idx by
      simp only [LOGICAL_BLOCK_SIZE]; omega]
    rw [set4_slice buf idx e1 (by omega)]
    rw [he1]
    decide
  · rfl
  · dsimp only
    rw [set4_slice _ _ e2 (by rw [hmem2]; omega)]
    rw [he2]
    simp [le32, List.getD]

/-- Witness for C7: on `disk4`, allocating after last cluster 21 issues
exactly the two FAT writes in order (end-of-chain mark first, link second). -/
theorem C7_allocate_write_order_witness :
    ∃ w1 w2,
      writesOf (disk4.allocate_next_free_cluster 4 21).dev.log =
        writesOf disk4.dev.log ++ [w1, w2] ∧
      w1.1 = (disk4.partition_offset + disk4.bpb.get_fat_table_byte_offset) / 512 +
        (1 * LOGICAL_BLOCK_SIZE + 88) / 4 * 4 / 512 ∧
      pySlice w1.2 ((1 * LOGICAL_BLOCK_SIZE + 88) / 4 * 4 % 512) 4 =
        le32 0x0FFFFFF8 ∧
      w2.1 = (disk4.partition_offset + disk4.bpb.get_fat_table_byte_offset) / 512 +
        21 * 4 / 512 ∧
      pySlice w2.2 (21 * 4 % 512) 4 =
        le32 ((1 * LOGICAL_BLOCK_SIZE + 88) / 4 % 0x10000000) :=
  C7_allocate_write_order disk4 4 21 fatSector1 1 88
    (by
      intro blk
      show (if blk = 1 then fatSector1 else List.replicate 512 0).length = 512
      split
      · decide
      · simp)
    rfl
    (by decide)

/-- `setSeq` preserves the buffer length. -/
theorem setSeq_length : ∀ (data block : List Nat) (i : Nat),
    (setSeq block i data).length = block.length := by
  intro data
  induction data with
  | nil => intro block i; rfl
  | cons x rest ih =>
    intro block i
    simp only [setSeq]
    rw [ih]
    simp

/-- `setSeq` leaves indices outside the written range unchanged. -/
theorem setSeq_getD_out : ∀ (data block : List Nat) (i j : Nat),
    j < i ∨ i + data.length ≤ j →
    (setSeq block i data).getD j 0 = block.getD j 0 := by
  intro data
  induction data with
  | nil => intro block i j _; rfl
  | cons x rest ih =>
    intro block i j h
    simp only [List.length_cons] at h
    simp only [setSeq]
    rw [ih (block.set i x) (i + 1) j (by omega)]
    exact getD_set_ne _ _ _ _ (by omega)

/-- `setSeq` stores the bytes of `data` at the written indices. -/
theorem setSeq_getD_in : ∀ (data block : List Nat) (i t : Nat),
    t < data.length → i + t < block.length →
    (setSeq block i data).getD (i + t) 0 = data.getD t 0 := by
  intro data
  induction data with
  | nil => intro block i t h _; simp at h
  | cons x rest ih =>
    intro block i t ht hlen
    simp only [setSeq]
    cases t with
    | zero =>
      show (setSeq (block.set i x) (i + 1) rest).getD i 0 = x
      rw [setSeq_getD_out rest (block.set i x) (i + 1) i (by omega)]
      exact getD_set_self _ _ _ (by omega)
    | succ t' =>
      have h1 : i + (t' + 1) = (i + 1) + t' := by omega
      rw [h1, ih (block.set i x) (i + 1) t' (by simp at ht; omega)
        (by simp; omega)]
      simp

/-- The fill loop of `_write_to_last_cluster` when the data fits in the
current sector (it never crosses a sector boundary with data left over): it
consumes all the data, patches the buffer in place, performs no I/O, and
counts one written byte per input byte. -/
theorem fill_loop_no_flush (base : Nat) :
    ∀ (data : List Nat) (free : Nat) (block : List Nat) (eof us wr : Nat)
      (d : Disk),
    data.length ≤ free → eof + data.length ≤ LOGICAL_BLOCK_SIZE →
    d.fill_loop base free data block eof us wr =
      ((([] : List Nat), setSeq block eof data, eof + data.length, us,
        wr + data.length), d) := by
  intro data
  induction data with
  | nil =>
    intro free block eof us wr d _ _
    cases free with
    | zero => rfl
    | succ fr => rfl
  | cons x rest ih =>
    intro free block eof us wr d hfree hfit
    cases free with
    | zero => simp at hfree
    | succ fr =>
      simp only [Disk.fill_loop]
      simp only [List.length_cons] at hfree hfit
      by_cases h512 : eof + 1 = LOGICAL_BLOCK_SIZE
      · rw [if_pos h512]
        have hrest : rest = [] := by
          simp only [LOGICAL_BLOCK_SIZE] at h512 hfit
          have : rest.length = 0 := by omega
          exact List.eq_nil_of_length_eq_zero this
        rw [if_neg (by simp [hrest])]
        subst hrest
        rw [ih fr (block.set eof x) (eof + 1) us (wr + 1) d (by simp)
          (by simp only [List.length_nil, Nat.add_zero]; omega)]
        simp [setSeq]
      · rw [if_neg h512]
        have h1 : eof + (rest.length + 1) = eof + 1 + rest.length := by omega
        have h2 : wr + (rest.length + 1) = wr + 1 + rest.length := by omega
        simp only [setSeq, List.length_cons, h1, h2]
        exact ih fr (block.set eof x) (eof + 1) us (wr + 1) d (by omega)
          (by omega)

/-- The chain walk of `_get_files_last_cluster`: on a well-formed chain
`init ++ [lc]` it returns the final cluster `lc`, reads only (block contents
unchanged) and preserves the configuration attributes. -/
theorem last_cluster_loop_last (m : Nat → List Nat) (po fo : Nat) :
    ∀ (init : List Nat) (lc : Nat) (fuel c : Nat) (d : Disk),
    d.dev.mem = m → d.partition_offset = po →
    d.bpb.get_fat_table_byte_offset = fo →
    chainB m po fo c (init ++ [lc]) = true →
    init.length + 1 ≤ fuel →
    (d.last_cluster_loop fuel c).1 = lc ∧
    (d.last_cluster_loop fuel c).2.dev.mem = m ∧
    d.sameGeom (d.last_cluster_loop fuel c).2 := by
  intro init
  induction init with
  | nil =>
    intro lc fuel c d hmem hpo hfo hchain hfuel
    obtain ⟨hceq, hclt, htl⟩ := chainB_cons (by simpa using hchain)
    have hEOC : 0x0FFFFFF8 ≤ nextClusterVal m po fo c := chainB_nil htl
    cases fuel with
    | zero => simp at hfuel
    | succ F =>
      have hr1 : (d.get_next_cluster c).1 = nextClusterVal m po fo c := by
        rw [get_next_cluster_fst, hmem, hpo, hfo]
      simp only [Disk.last_cluster_loop]
      rw [if_pos hclt, hr1, if_neg (by omega)]
      exact ⟨hceq, by rw [get_next_cluster_mem, hmem], get_next_cluster_geom d c⟩
  | cons k init' ih =>
    intro lc fuel c d hmem hpo hfo hchain hfuel
    rw [List.cons_append] at hchain
    obtain ⟨hck, hclt, htl⟩ := chainB_cons hchain
    cases fuel with
    | zero => simp at hfuel
    | succ F =>
      have hr1 : (d.get_next_cluster c).1 = nextClusterVal m po fo c := by
        rw [get_next_cluster_fst, hmem, hpo, hfo]
      have hr2 : ((d.get_next_cluster c).2.get_next_cluster c).1 =
          nextClusterVal m po fo c := by
        rw [get_next_cluster_fst,
          show (d.get_next_cluster c).2.dev.mem = d.dev.mem from rfl, hmem,
          show (d.get_next_cluster c).2.partition_offset = d.partition_offset
            from rfl, hpo,
          show (d.get_next_cluster c).2.bpb = d.bpb from rfl, hfo]
      have hnclt : nextClusterVal m po fo c < 0x0FFFFFF8 := by
        cases init' with
        | nil => exact (chainB_cons (by simpa using htl)).2.1
        | cons a b =>
          rw [List.cons_append] at htl
          exact (chainB_cons htl).2.1
      have hstep : d.last_cluster_loop (F + 1) c =
          ((d.get_next_cluster c).2.get_next_cluster c).2.last_cluster_loop F
            (nextClusterVal m po fo c) := by
        simp only [Disk.last_cluster_loop]
        rw [if_pos hclt, hr1, if_pos hnclt, hr2]
      have hrec := ih lc F (nextClusterVal m po fo c)
        ((d.get_next_cluster c).2.get_next_cluster c).2 hmem hpo hfo htl
        (by simp only [List.length_cons] at hfuel; omega)
      rw [hstep]
      exact ⟨hrec.1, hrec.2.1, Disk.sameGeom_trans ⟨rfl, rfl, rfl⟩ hrec.2.2⟩

/-- The chain predicate only inspects the FAT sectors of the listed
clusters: it is unchanged when the block contents agree on those sectors. -/
theorem chainB_congr (m m' : Nat → List Nat) (po fo : Nat) :
    ∀ (cs : List Nat) (c : Nat),
    (∀ x ∈ cs, m' ((po + fo + x * 4 / 512 * 512) / 512) =
      m ((po + fo + x * 4 / 512 * 512) / 512)) →
    chainB m' po fo c cs = chainB m po fo c cs := by
  intro cs
  induction cs with
  | nil => intro c _; rfl
  | cons k tl ih =>
    intro c hx
    simp only [chainB]
    by_cases hck : c = k
    · have hncv : nextClusterVal m' po fo c = nextClusterVal m po fo c := by
        simp only [nextClusterVal, LOGICAL_BLOCK_SIZE]
        rw [hx c (by simp [hck])]
      rw [hncv, ih (nextClusterVal m po fo c) (fun x hxm => hx x (by simp [hxm]))]
    · have hf : (c == k) = false := by simp [hck]
      rw [hf]
      simp

/-- `chainBytes` over a chain split as `init ++ [lc]`: every cluster of
`init` contributes its full `bpc` bytes, the final cluster the remainder. -/
theorem chainBytes_append_last (m : Nat → List Nat) (P dso bpc size : Nat) :
    ∀ (init : List Nat) (lc : Nat) (i : Nat), 1 ≤ i →
    chainBytes m P dso bpc size (init ++ [lc]) i =
      (init.map (fun c => memBytes m (P + dso + (c - 2) * bpc) bpc)).flatten ++
      memBytes m (P + dso + (lc - 2) * bpc)
        (size - (i - 1 + init.length) * bpc) := by
  intro init
  induction init with
  | nil =>
    intro lc i hi
    simp [chainBytes]
  | cons c tl ih =>
    intro lc i hi
    rw [List.cons_append]
    show memBytes m (P + dso + (c - 2) * bpc)
        (if tl ++ [lc] = [] then size - (i - 1) * bpc else bpc) ++
      chainBytes m P dso bpc size (tl ++ [lc]) (i + 1) = _
    rw [if_neg (by simp), ih lc (i + 1) (by omega)]
    have harith : i + 1 - 1 + tl.length = i - 1 + (c :: tl).length := by
      simp only [List.length_cons]; omega
    rw [harith]
    simp only [List.map_cons, List.flatten_cons, List.append_assoc]

/-- `_write_to_last_cluster` when the appended bytes fit inside the free
space of the chain's final cluster without crossing a sector boundary: all
bytes are consumed (`remaining = []`, `written = len(data)`), the
configuration is unchanged, and exactly one data sector changes: the partial
final sector of the file, with the new bytes spliced in at the file's
end-of-file index. -/
theorem write_to_last_cluster_spec
    (d : Disk) (f : File) (b : List Nat) (init : List Nat) (lc : Nat)
    (fuel : Nat)
    (hchain : chainB d.dev.mem d.partition_offset
      d.bpb.get_fat_table_byte_offset f.start_cluster (init ++ [lc]) = true)
    (hfuel : init.length + 1 ≤ fuel)
    (hfree : b.length ≤ d.bpb.get_bytes_per_cluster -
      f.size % d.bpb.get_bytes_per_cluster)
    (hfit : f.size % d.bpb.get_bytes_per_cluster % 512 + b.length ≤ 512) :
    (d.write_to_last_cluster fuel f b).1 = ([], b.length) ∧
    d.sameGeom (d.write_to_last_cluster fuel f b).2 ∧
    (d.write_to_last_cluster fuel f b).2.dev.mem = (fun blk =>
      if blk = (d.partition_offset + (d.bpb.get_data_sector_bytes_offset +
          (lc - 2) * d.bpb.get_bytes_per_cluster) +
          f.size % d.bpb.get_bytes_per_cluster / 512 * 512) / 512 then
        setSeq (d.dev.mem ((d.partition_offset +
          (d.bpb.get_data_sector_bytes_offset +
          (lc - 2) * d.bpb.get_bytes_per_cluster) +
          f.size % d.bpb.get_bytes_per_cluster / 512 * 512) / 512))
          (f.size % d.bpb.get_bytes_per_cluster % 512) b
      else d.dev.mem blk) := by
  have hlast := last_cluster_loop_last d.dev.mem d.partition_offset
    d.bpb.get_fat_table_byte_offset init lc fuel f.start_cluster d
    rfl rfl rfl hchain hfuel
  have hrb1 : ((d.last_cluster_loop fuel f.start_cluster).2.dev.readDisk
      (d.partition_offset + (d.bpb.get_data_sector_bytes_offset +
        (lc - 2) * d.bpb.get_bytes_per_cluster) +
        f.size % d.bpb.get_bytes_per_cluster / 512 * 512)).1 =
      d.dev.mem ((d.partition_offset + (d.bpb.get_data_sector_bytes_offset +
        (lc - 2) * d.bpb.get_bytes_per_cluster) +
        f.size % d.bpb.get_bytes_per_cluster / 512 * 512) / 512) := by
    rw [show ((d.last_cluster_loop fuel f.start_cluster).2.dev.readDisk
      (d.partition_offset + (d.bpb.get_data_sector_bytes_offset +
        (lc - 2) * d.bpb.get_bytes_per_cluster) +
        f.size % d.bpb.get_bytes_per_cluster / 512 * 512)).1 =
      (d.last_cluster_loop fuel f.start_cluster).2.dev.mem
        ((d.partition_offset + (d.bpb.get_data_sector_bytes_offset +
        (lc - 2) * d.bpb.get_bytes_per_cluster) +
        f.size % d.bpb.get_bytes_per_cluster / 512 * 512) / 512) from rfl,
      hlast.2.1]
  have heq : d.write_to_last_cluster fuel f b =
      (([], b.length),
       { (d.last_cluster_loop fuel f.start_cluster).2 with dev :=
         (((d.last_cluster_loop fuel f.start_cluster).2.dev.readDisk
           (d.partition_offset + (d.bpb.get_data_sector_bytes_offset +
             (lc - 2) * d.bpb.get_bytes_per_cluster) +
             f.size % d.bpb.get_bytes_per_cluster / 512 * 512)).2.writeDisk
           (d.partition_offset + (d.bpb.get_data_sector_bytes_offset +
             (lc - 2) * d.bpb.get_bytes_per_cluster) +
             f.size % d.bpb.get_bytes_per_cluster / 512 * 512)
           (setSeq (d.dev.mem ((d.partition_offset +
             (d.bpb.get_data_sector_bytes_offset +
             (lc - 2) * d.bpb.get_bytes_per_cluster) +
             f.size % d.bpb.get_bytes_per_cluster / 512 * 512) / 512))
             (f.size % d.bpb.get_bytes_per_cluster % 512) b)) }) := by
    simp only [Disk.write_to_last_cluster, Disk.get_files_last_cluster,
      LOGICAL_BLOCK_SIZE]
    rw [hlast.1]
    rw [fill_loop_no_flush _ b _ _ _ _ _ _ hfree hfit]
    dsimp only
    rw [hrb1]
    simp only [Nat.zero_add]
  refine ⟨by rw [heq], ?_, ?_⟩
  · rw [heq]
    exact Disk.sameGeom_trans hlast.2.2 ⟨rfl, rfl, rfl⟩
  · rw [heq]
    funext blk
    show (if blk = _ then _ else
      (d.last_cluster_loop fuel f.start_cluster).2.dev.mem blk) = _
    rw [hlast.2.1]
    simp only [LOGICAL_BLOCK_SIZE]

/-- `memBytes` only depends on the bytes it reads. -/
theorem memBytes_congr (m m' : Nat → List Nat) (s l : Nat)
    (h : ∀ j, j < l → byteAt m' (s + j) = byteAt m (s + j)) :
    memBytes m' s l = memBytes m s l := by
  unfold memBytes
  apply List.map_congr_left
  intro j hj
  exact h j (List.mem_range.mp hj)

/-- Reading a byte from block contents with one block replaced. -/
theorem byteAt_update (m : Nat → List Nat) (W : Nat) (data : List Nat)
    (x : Nat) :
    byteAt (fun blk => if blk = W then data else m blk) x =
      if x / 512 = W then data.getD (x % 512) 0 else byteAt m x := by
  unfold byteAt
  dsimp only
  by_cases h : x / 512 = W
  · rw [if_pos h, if_pos h]
  · rw [if_neg h, if_neg h]

/-- Distinct clusters occupy disjoint sector ranges. -/
theorem cluster_block_ne (spc : Nat) (hspc : 0 < spc) (c lc j u : Nat)
    (hj : j < spc) (hu : u < spc) (hc : 2 ≤ c) (hlc : 2 ≤ lc)
    (hne : c ≠ lc) : (c - 2) * spc + j ≠ (lc - 2) * spc + u := by
  intro h
  have h1 : ((c - 2) * spc + j) / spc = c - 2 := by
    rw [Nat.mul_comm, Nat.mul_add_div hspc, Nat.div_eq_of_lt hj, Nat.add_zero]
  have h2 : ((lc - 2) * spc + u) / spc = lc - 2 := by
    rw [Nat.mul_comm, Nat.mul_add_div hspc, Nat.div_eq_of_lt hu, Nat.add_zero]
  rw [h, h2] at h1
  omega

/-- `getD` of a prefix. -/
theorem getD_take (l : List Nat) (n k : Nat) (h : k < n) :
    (l.take n).getD k 0 = l.getD k 0 := by
  simp only [List.getD, List.get?_take h]

/-- `getD` of a suffix. -/
theorem getD_drop (l : List Nat) (n k : Nat) :
    (l.drop n).getD k 0 = l.getD (n + k) 0 := by
  simp only [List.getD, List.get?_drop]

/-- One flushing pass of the fill loop: when the data extends past the end
of the current sector, the loop fills that sector to its end, writes it out,
reads the next sector of the cluster and continues there with the remaining
data. -/
theorem fill_loop_flush_step (base : Nat) :
    ∀ (data : List Nat) (eof free us wr : Nat) (block : List Nat) (d : Disk),
    eof < 512 → 512 - eof < data.length → 512 - eof ≤ free →
    d.fill_loop base free data block eof us wr =
      Disk.fill_loop
        { d with dev :=
          ((d.dev.writeDisk (base + us * 512)
              (setSeq block eof (data.take (512 - eof)))).readDisk
            (base + (us + 1) * 512)).2 }
        base (free - (512 - eof)) (data.drop (512 - eof))
        (((d.dev.writeDisk (base + us * 512)
            (setSeq block eof (data.take (512 - eof)))).readDisk
          (base + (us + 1) * 512)).1)
        0 (us + 1) (wr + (512 - eof)) := by
  intro data
  induction data with
  | nil =>
    intro eof free us wr block d heof hlt hle
    simp at hlt
  | cons x rest ih =>
    intro eof free us wr block d heof hlt hle
    obtain ⟨fr, rfl⟩ : ∃ fr, free = fr + 1 := ⟨free - 1, by omega⟩
    simp only [Disk.fill_loop, LOGICAL_BLOCK_SIZE]
    by_cases h512 : eof + 1 = 512
    · rw [if_pos h512]
      have hrest : rest ≠ [] := by
        intro h
        subst h
        simp only [List.length_cons, List.length_nil] at hlt
        omega
      rw [if_pos hrest]
      rw [show 512 - eof = 1 from by omega]
      simp only [List.take_succ_cons, List.take_zero, List.drop_succ_cons,
        List.drop_zero, setSeq, Nat.add_sub_cancel]
    · rw [if_neg h512]
      rw [ih (eof + 1) fr us (wr + 1) (block.set eof x) d (by omega)
        (by simp only [List.length_cons] at hlt; omega) (by omega)]
      rw [show 512 - eof = 512 - (eof + 1) + 1 from by omega]
      simp only [List.take_succ_cons, List.drop_succ_cons, setSeq]
      rw [show fr + 1 - (512 - (eof + 1) + 1) = fr - (512 - (eof + 1)) from by
        omega]
      rw [show wr + (512 - (eof + 1) + 1) = wr + 1 + (512 - (eof + 1)) from by
        omega]

/-- The fill loop followed by the final flush write of
`_write_to_last_cluster`, for data of any length that the loop's free-byte
budget covers: all data is consumed, one byte is counted per input byte, the
configuration is unchanged, block lengths are preserved, blocks before the
starting sector are untouched, and the byte image of the device is the old
one with exactly the bytes `[base + us * 512 + eof, … + data.length)`
replaced by `data`. -/
theorem fill_write_bytes (base : Nat) (hbase : base % 512 = 0) :
    ∀ (L : Nat) (data : List Nat) (free eof us wr : Nat) (d dW : Disk),
    data.length = L →
    data.length ≤ free → eof < 512 →
    (∀ blk, (d.dev.mem blk).length = 512) →
    dW = { (d.fill_loop base free data (d.dev.mem (base / 512 + us))
          eof us wr).2 with
      dev := (d.fill_loop base free data (d.dev.mem (base / 512 + us))
          eof us wr).2.dev.writeDisk
        (base + (d.fill_loop base free data (d.dev.mem (base / 512 + us))
          eof us wr).1.2.2.2.1 * 512)
        (d.fill_loop base free data (d.dev.mem (base / 512 + us))
          eof us wr).1.2.1 } →
    (d.fill_loop base free data (d.dev.mem (base / 512 + us))
      eof us wr).1.1 = [] ∧
    (d.fill_loop base free data (d.dev.mem (base / 512 + us))
      eof us wr).1.2.2.2.2 = wr + data.length ∧
    d.sameGeom dW ∧
    (∀ blk, (dW.dev.mem blk).length = 512) ∧
    (∀ blk, blk < base / 512 + us → dW.dev.mem blk = d.dev.mem blk) ∧
    (∀ x, byteAt dW.dev.mem x =
      if base + us * 512 + eof ≤ x ∧ x < base + us * 512 + eof + data.length
      then data.getD (x - (base + us * 512 + eof)) 0
      else byteAt d.dev.mem x) := by
  intro L
  induction L using Nat.strong_induction_on with
  | _ L ih =>
    intro data free eof us wr d dW hlen hfree heof hm hdW
    by_cases hA : data.length ≤ 512 - eof
    · -- the data fits in the current sector: no intermediate flush
      have hfill := fill_loop_no_flush base data free
        (d.dev.mem (base / 512 + us)) eof us wr d hfree
        (by simp only [LOGICAL_BLOCK_SIZE]; omega)
      rw [hfill] at hdW ⊢
      subst hdW
      have hWv : (base + us * 512) / LOGICAL_BLOCK_SIZE = base / 512 + us := by
        simp only [LOGICAL_BLOCK_SIZE]; omega
      refine ⟨rfl, rfl, ⟨rfl, rfl, rfl⟩, ?_, ?_, ?_⟩
      · intro blk
        show ((if blk = (base + us * 512) / LOGICAL_BLOCK_SIZE then
          setSeq (d.dev.mem (base / 512 + us)) eof data
          else d.dev.mem blk)).length = 512
        split
        · rw [setSeq_length, hm]
        · exact hm blk
      · intro blk hblk
        show (if blk = (base + us * 512) / LOGICAL_BLOCK_SIZE then
          setSeq (d.dev.mem (base / 512 + us)) eof data
          else d.dev.mem blk) = d.dev.mem blk
        rw [if_neg (by rw [hWv]; omega)]
      · intro x
        show byteAt (fun blk =>
          if blk = (base + us * 512) / LOGICAL_BLOCK_SIZE then
            setSeq (d.dev.mem (base / 512 + us)) eof data
          else d.dev.mem blk) x = _
        simp only [hWv]
        rw [byteAt_update]
        by_cases hin : base + us * 512 + eof ≤ x ∧
            x < base + us * 512 + eof + data.length
        · rw [if_pos hin, if_pos (show x / 512 = base / 512 + us by omega)]
          rw [show x % 512 = eof + (x - (base + us * 512 + eof)) from by omega]
          rw [setSeq_getD_in data _ eof _ (by omega) (by rw [hm]; omega)]
        · rw [if_neg hin]
          by_cases hblk : x / 512 = base / 512 + us
          · rw [if_pos hblk]
            rw [setSeq_getD_out data _ eof (x % 512) (by omega)]
            unfold byteAt
            rw [hblk]
          · rw [if_neg hblk]
    · -- the data crosses the end of the current sector: flush once, recurse
      have hstep := fill_loop_flush_step base data eof free us wr
        (d.dev.mem (base / 512 + us)) d heof (by omega) (by omega)
      rw [hstep] at hdW ⊢
      have hB1 : (((d.dev.writeDisk (base + us * 512)
            (setSeq (d.dev.mem (base / 512 + us)) eof
              (data.take (512 - eof)))).readDisk
            (base + (us + 1) * 512)).1) =
          ({ d with dev := ((d.dev.writeDisk (base + us * 512)
            (setSeq (d.dev.mem (base / 512 + us)) eof
              (data.take (512 - eof)))).readDisk
            (base + (us + 1) * 512)).2 } : Disk).dev.mem
            (base / 512 + (us + 1)) := by
        show (d.dev.writeDisk (base + us * 512)
            (setSeq (d.dev.mem (base / 512 + us)) eof
              (data.take (512 - eof)))).mem
            ((base + (us + 1) * 512) / LOGICAL_BLOCK_SIZE) =
          (d.dev.writeDisk (base + us * 512)
            (setSeq (d.dev.mem (base / 512 + us)) eof
              (data.take (512 - eof)))).mem (base / 512 + (us + 1))
        exact congrArg _ (by simp only [LOGICAL_BLOCK_SIZE]; omega)
      rw [hB1] at hdW ⊢
      have hWv : (base + us * 512) / LOGICAL_BLOCK_SIZE = base / 512 + us := by
        simp only [LOGICAL_BLOCK_SIZE]; omega
      have hm' : ∀ blk, (({ d with dev := ((d.dev.writeDisk (base + us * 512)
            (setSeq (d.dev.mem (base / 512 + us)) eof
              (data.take (512 - eof)))).readDisk
            (base + (us + 1) * 512)).2 } : Disk).dev.mem blk).length = 512 := by
        intro blk
        show ((if blk = (base + us * 512) / LOGICAL_BLOCK_SIZE then
          setSeq (d.dev.mem (base / 512 + us)) eof (data.take (512 - eof))
          else d.dev.mem blk)).length = 512
        split
        · rw [setSeq_length, hm]
        · exact hm blk
      have ihres := ih (L - (512 - eof)) (by omega) (data.drop (512 - eof))
        (free - (512 - eof)) 0 (us + 1) (wr + (512 - eof))
        ({ d with dev := ((d.dev.writeDisk (base + us * 512)
            (setSeq (d.dev.mem (base / 512 + us)) eof
              (data.take (512 - eof)))).readDisk
            (base + (us + 1) * 512)).2 } : Disk) dW
        (by rw [List.length_drop]; omega)
        (by rw [List.length_drop]; omega) (by norm_num) hm' hdW
      have hd'b : ∀ y, byteAt (({ d with dev :=
            ((d.dev.writeDisk (base + us * 512)
            (setSeq (d.dev.mem (base / 512 + us)) eof
              (data.take (512 - eof)))).readDisk
            (base + (us + 1) * 512)).2 } : Disk).dev.mem) y =
          if base + us * 512 + eof ≤ y ∧ y < base + (us + 1) * 512
          then data.getD (y - (base + us * 512 + eof)) 0
          else byteAt d.dev.mem y := by
        intro y
        show byteAt (fun blk =>
          if blk = (base + us * 512) / LOGICAL_BLOCK_SIZE then
            setSeq (d.dev.mem (base / 512 + us)) eof (data.take (512 - eof))
          else d.dev.mem blk) y = _
        simp only [hWv]
        rw [byteAt_update]
        by_cases hy : y / 512 = base / 512 + us
        · rw [if_pos hy]
          by_cases hyr : base + us * 512 + eof ≤ y
          · rw [if_pos ⟨hyr, by omega⟩]
            rw [show y % 512 = eof + (y - (base + us * 512 + eof)) from by
              omega]
            rw [setSeq_getD_in _ _ _ _
              (by rw [List.length_take]; omega) (by rw [hm]; omega)]
            rw [getD_take _ _ _ (by omega)]
          · rw [if_neg (by omega)]
            rw [setSeq_getD_out _ _ _ _ (Or.inl (by omega))]
            unfold byteAt
            rw [hy]
        · rw [if_neg hy, if_neg (by omega)]
      refine ⟨ihres.1, ?_, ?_, ihres.2.2.2.1, ?_, ?_⟩
      · rw [ihres.2.1, List.length_drop]
        omega
      · exact Disk.sameGeom_trans (show Disk.sameGeom d _ from ⟨rfl, rfl, rfl⟩)
          ihres.2.2.1
      · intro blk hblk
        rw [ihres.2.2.2.2.1 blk (by omega)]
        show (if blk = (base + us * 512) / LOGICAL_BLOCK_SIZE then
          setSeq (d.dev.mem (base / 512 + us)) eof (data.take (512 - eof))
          else d.dev.mem blk) = d.dev.mem blk
        rw [if_neg (by rw [hWv]; omega)]
      · intro x
        rw [ihres.2.2.2.2.2 x, hd'b x]
        have hld : (data.drop (512 - eof)).length = data.length - (512 - eof) :=
          List.length_drop _ _
        by_cases hc2 : base + (us + 1) * 512 + 0 ≤ x ∧
            x < base + (us + 1) * 512 + 0 + (data.drop (512 - eof)).length
        · rw [hld] at hc2
          rw [if_pos (by rw [hld]; omega)]
          rw [if_pos (show base + us * 512 + eof ≤ x ∧
            x < base + us * 512 + eof + data.length by omega)]
          rw [getD_drop]
          rw [show 512 - eof + (x - (base + (us + 1) * 512 + 0)) =
            x - (base + us * 512 + eof) from by omega]
        · rw [hld] at hc2
          rw [if_neg (by rw [hld]; omega)]
          by_cases hc1 : base + us * 512 + eof ≤ x ∧ x < base + (us + 1) * 512
          · rw [if_pos hc1, if_pos (show base + us * 512 + eof ≤ x ∧
              x < base + us * 512 + eof + data.length by omega)]
          · rw [if_neg hc1, if_neg (by omega)]

/-- `_write_to_last_cluster` for any data that fits in the free space of the
chain's final cluster, crossing sector boundaries within that cluster as
needed: all bytes are consumed (`remaining = []`, `written = len(data)`),
the configuration is unchanged, block lengths are preserved, every block
before the final cluster's data region is untouched, and the byte image of
the device is the old one with exactly the `len(data)` bytes starting at
the file's in-cluster end-of-file offset replaced by `data`. -/
theorem write_to_last_cluster_bytes
    (d : Disk) (f : File) (b : List Nat) (init : List Nat) (lc : Nat)
    (fuel : Nat)
    (hmem : ∀ blk, (d.dev.mem blk).length = 512)
    (hbps : d.bpb.bytes_per_sector = 512)
    (hchain : chainB d.dev.mem d.partition_offset
      d.bpb.get_fat_table_byte_offset f.start_cluster (init ++ [lc]) = true)
    (hfuel : init.length + 1 ≤ fuel)
    (hfree : b.length ≤ d.bpb.get_bytes_per_cluster -
      f.size % d.bpb.get_bytes_per_cluster) :
    (d.write_to_last_cluster fuel f b).1 = ([], b.length) ∧
    d.sameGeom (d.write_to_last_cluster fuel f b).2 ∧
    (∀ blk, ((d.write_to_last_cluster fuel f b).2.dev.mem blk).length = 512) ∧
    (∀ blk, blk < (d.partition_offset + (d.bpb.get_data_sector_bytes_offset +
        (lc - 2) * d.bpb.get_bytes_per_cluster)) / 512 →
      (d.write_to_last_cluster fuel f b).2.dev.mem blk = d.dev.mem blk) ∧
    (∀ x, byteAt (d.write_to_last_cluster fuel f b).2.dev.mem x =
      if d.partition_offset + (d.bpb.get_data_sector_bytes_offset +
        (lc - 2) * d.bpb.get_bytes_per_cluster) +
            f.size % d.bpb.get_bytes_per_cluster ≤ x ∧
          x < d.partition_offset + (d.bpb.get_data_sector_bytes_offset +
        (lc - 2) * d.bpb.get_bytes_per_cluster) +
            f.size % d.bpb.get_bytes_per_cluster + b.length
      then b.getD (x - (d.partition_offset + (d.bpb.get_data_sector_bytes_offset +
        (lc - 2) * d.bpb.get_bytes_per_cluster) +
          f.size % d.bpb.get_bytes_per_cluster)) 0
      else byteAt d.dev.mem x) := by
  have hlast := last_cluster_loop_last d.dev.mem d.partition_offset
    d.bpb.get_fat_table_byte_offset init lc fuel f.start_cluster d
    rfl rfl rfl hchain hfuel
  have hdso512 : d.bpb.get_data_sector_bytes_offset =
      d.bpb.data_start_sector * 512 := by
    rw [BiosParameterBlock.get_data_sector_bytes_offset, hbps]
  have hbpc512 : d.bpb.get_bytes_per_cluster =
      d.bpb.sectors_per_cluster * 512 := by
    rw [BiosParameterBlock.get_bytes_per_cluster, hbps]
  have hbase : (d.partition_offset + (d.bpb.get_data_sector_bytes_offset +
        (lc - 2) * d.bpb.get_bytes_per_cluster)) % 512 = 0 := by
    rw [Disk.partition_offset, hdso512, hbpc512]
    have h1 : (lc - 2) * (d.bpb.sectors_per_cluster * 512) =
        (lc - 2) * d.bpb.sectors_per_cluster * 512 := by ring
    rw [h1]
    generalize (lc - 2) * d.bpb.sectors_per_cluster = K
    omega
  have hrb1 : ((d.last_cluster_loop fuel f.start_cluster).2.dev.readDisk
      (d.partition_offset + (d.bpb.get_data_sector_bytes_offset +
        (lc - 2) * d.bpb.get_bytes_per_cluster) +
        f.size % d.bpb.get_bytes_per_cluster / 512 * 512)).1 =
      ({ (d.last_cluster_loop fuel f.start_cluster).2 with dev :=
      ((d.last_cluster_loop fuel f.start_cluster).2.dev.readDisk
        (d.partition_offset + (d.bpb.get_data_sector_bytes_offset +
        (lc - 2) * d.bpb.get_bytes_per_cluster) +
        f.size % d.bpb.get_bytes_per_cluster / 512 * 512)).2 } : Disk).dev.mem
        ((d.partition_offset + (d.bpb.get_data_sector_bytes_offset +
        (lc - 2) * d.bpb.get_bytes_per_cluster)) / 512 +
          f.size % d.bpb.get_bytes_per_cluster / 512) := by
    show (d.last_cluster_loop fuel f.start_cluster).2.dev.mem
        ((d.partition_offset + (d.bpb.get_data_sector_bytes_offset +
        (lc - 2) * d.bpb.get_bytes_per_cluster) +
        f.size % d.bpb.get_bytes_per_cluster / 512 * 512) /
          LOGICAL_BLOCK_SIZE) =
      (d.last_cluster_loop fuel f.start_cluster).2.dev.mem
        ((d.partition_offset + (d.bpb.get_data_sector_bytes_offset +
        (lc - 2) * d.bpb.get_bytes_per_cluster)) / 512 +
          f.size % d.bpb.get_bytes_per_cluster / 512)
    exact congrArg _ (by
      simp only [LOGICAL_BLOCK_SIZE]
      generalize hB : d.partition_offset + (d.bpb.get_data_sector_bytes_offset +
        (lc - 2) * d.bpb.get_bytes_per_cluster) = B at hbase ⊢
      generalize f.size % d.bpb.get_bytes_per_cluster = r
      omega)
  have heq : d.write_to_last_cluster fuel f b =
      (((Disk.fill_loop
      ({ (d.last_cluster_loop fuel f.start_cluster).2 with dev :=
      ((d.last_cluster_loop fuel f.start_cluster).2.dev.readDisk
        (d.partition_offset + (d.bpb.get_data_sector_bytes_offset +
        (lc - 2) * d.bpb.get_bytes_per_cluster) +
        f.size % d.bpb.get_bytes_per_cluster / 512 * 512)).2 } : Disk)
      (d.partition_offset + (d.bpb.get_data_sector_bytes_offset +
        (lc - 2) * d.bpb.get_bytes_per_cluster))
      (d.bpb.get_bytes_per_cluster - f.size % d.bpb.get_bytes_per_cluster) b
      (({ (d.last_cluster_loop fuel f.start_cluster).2 with dev :=
      ((d.last_cluster_loop fuel f.start_cluster).2.dev.readDisk
        (d.partition_offset + (d.bpb.get_data_sector_bytes_offset +
        (lc - 2) * d.bpb.get_bytes_per_cluster) +
        f.size % d.bpb.get_bytes_per_cluster / 512 * 512)).2 } : Disk).dev.mem
        ((d.partition_offset + (d.bpb.get_data_sector_bytes_offset +
        (lc - 2) * d.bpb.get_bytes_per_cluster)) / 512 +
          f.size % d.bpb.get_bytes_per_cluster / 512))
      (f.size % d.bpb.get_bytes_per_cluster % 512) (f.size % d.bpb.get_bytes_per_cluster / 512) 0).1.1,
        (Disk.fill_loop
      ({ (d.last_cluster_loop fuel f.start_cluster).2 with dev :=
      ((d.last_cluster_loop fuel f.start_cluster).2.dev.readDisk
        (d.partition_offset + (d.bpb.get_data_sector_bytes_offset +
        (lc - 2) * d.bpb.get_bytes_per_cluster) +
        f.size % d.bpb.get_bytes_per_cluster / 512 * 512)).2 } : Disk)
      (d.partition_offset + (d.bpb.get_data_sector_bytes_offset +
        (lc - 2) * d.bpb.get_bytes_per_cluster))
      (d.bpb.get_bytes_per_cluster - f.size % d.bpb.get_bytes_per_cluster) b
      (({ (d.last_cluster_loop fuel f.start_cluster).2 with dev :=
      ((d.last_cluster_loop fuel f.start_cluster).2.dev.readDisk
        (d.partition_offset + (d.bpb.get_data_sector_bytes_offset +
        (lc - 2) * d.bpb.get_bytes_per_cluster) +
        f.size % d.bpb.get_bytes_per_cluster / 512 * 512)).2 } : Disk).dev.mem
        ((d.partition_offset + (d.bpb.get_data_sector_bytes_offset +
        (lc - 2) * d.bpb.get_bytes_per_cluster)) / 512 +
          f.size % d.bpb.get_bytes_per_cluster / 512))
      (f.size % d.bpb.get_bytes_per_cluster % 512) (f.size % d.bpb.get_bytes_per_cluster / 512) 0).1.2.2.2.2),
       { (Disk.fill_loop
      ({ (d.last_cluster_loop fuel f.start_cluster).2 with dev :=
      ((d.last_cluster_loop fuel f.start_cluster).2.dev.readDisk
        (d.partition_offset + (d.bpb.get_data_sector_bytes_offset +
        (lc - 2) * d.bpb.get_bytes_per_cluster) +
        f.size % d.bpb.get_bytes_per_cluster / 512 * 512)).2 } : Disk)
      (d.partition_offset + (d.bpb.get_data_sector_bytes_offset +
        (lc - 2) * d.bpb.get_bytes_per_cluster))
      (d.bpb.get_bytes_per_cluster - f.size % d.bpb.get_bytes_per_cluster) b
      (({ (d.last_cluster_loop fuel f.start_cluster).2 with dev :=
      ((d.last_cluster_loop fuel f.start_cluster).2.dev.readDisk
        (d.partition_offset + (d.bpb.get_data_sector_bytes_offset +
        (lc - 2) * d.bpb.get_bytes_per_cluster) +
        f.size % d.bpb.get_bytes_per_cluster / 512 * 512)).2 } : Disk).dev.mem
        ((d.partition_offset + (d.bpb.get_data_sector_bytes_offset +
        (lc - 2) * d.bpb.get_bytes_per_cluster)) / 512 +
          f.size % d.bpb.get_bytes_per_cluster / 512))
      (f.size % d.bpb.get_bytes_per_cluster % 512) (f.size % d.bpb.get_bytes_per_cluster / 512) 0).2 with dev :=
         ((Disk.fill_loop
      ({ (d.last_cluster_loop fuel f.start_cluster).2 with dev :=
      ((d.last_cluster_loop fuel f.start_cluster).2.dev.readDisk
        (d.partition_offset + (d.bpb.get_data_sector_bytes_offset +
        (lc - 2) * d.bpb.get_bytes_per_cluster) +
        f.size % d.bpb.get_bytes_per_cluster / 512 * 512)).2 } : Disk)
      (d.partition_offset + (d.bpb.get_data_sector_bytes_offset +
        (lc - 2) * d.bpb.get_bytes_per_cluster))
      (d.bpb.get_bytes_per_cluster - f.size % d.bpb.get_bytes_per_cluster) b
      (({ (d.last_cluster_loop fuel f.start_cluster).2 with dev :=
      ((d.last_cluster_loop fuel f.start_cluster).2.dev.readDisk
        (d.partition_offset + (d.bpb.get_data_sector_bytes_offset +
        (lc - 2) * d.bpb.get_bytes_per_cluster) +
        f.size % d.bpb.get_bytes_per_cluster / 512 * 512)).2 } : Disk).dev.mem
        ((d.partition_offset + (d.bpb.get_data_sector_bytes_offset +
        (lc - 2) * d.bpb.get_bytes_per_cluster)) / 512 +
          f.size % d.bpb.get_bytes_per_cluster / 512))
      (f.size % d.bpb.get_bytes_per_cluster % 512) (f.size % d.bpb.get_bytes_per_cluster / 512) 0).2.dev.writeDisk
           (d.partition_offset + (d.bpb.get_data_sector_bytes_offset +
        (lc - 2) * d.bpb.get_bytes_per_cluster) +
             (Disk.fill_loop
      ({ (d.last_cluster_loop fuel f.start_cluster).2 with dev :=
      ((d.last_cluster_loop fuel f.start_cluster).2.dev.readDisk
        (d.partition_offset + (d.bpb.get_data_sector_bytes_offset +
        (lc - 2) * d.bpb.get_bytes_per_cluster) +
        f.size % d.bpb.get_bytes_per_cluster / 512 * 512)).2 } : Disk)
      (d.partition_offset + (d.bpb.get_data_sector_bytes_offset +
        (lc - 2) * d.bpb.get_bytes_per_cluster))
      (d.bpb.get_bytes_per_cluster - f.size % d.bpb.get_bytes_per_cluster) b
      (({ (d.last_cluster_loop fuel f.start_cluster).2 with dev :=
      ((d.last_cluster_loop fuel f.start_cluster).2.dev.readDisk
        (d.partition_offset + (d.bpb.get_data_sector_bytes_offset +
        (lc - 2) * d.bpb.get_bytes_per_cluster) +
        f.size % d.bpb.get_bytes_per_cluster / 512 * 512)).2 } : Disk).dev.mem
        ((d.partition_offset + (d.bpb.get_data_sector_bytes_offset +
        (lc - 2) * d.bpb.get_bytes_per_cluster)) / 512 +
          f.size % d.bpb.get_bytes_per_cluster / 512))
      (f.size % d.bpb.get_bytes_per_cluster % 512) (f.size % d.bpb.get_bytes_per_cluster / 512) 0).1.2.2.2.1 * 512)
           (Disk.fill_loop
      ({ (d.last_cluster_loop fuel f.start_cluster).2 with dev :=
      ((d.last_cluster_loop fuel f.start_cluster).2.dev.readDisk
        (d.partition_offset + (d.bpb.get_data_sector_bytes_offset +
        (lc - 2) * d.bpb.get_bytes_per_cluster) +
        f.size % d.bpb.get_bytes_per_cluster / 512 * 512)).2 } : Disk)
      (d.partition_offset + (d.bpb.get_data_sector_bytes_offset +
        (lc - 2) * d.bpb.get_bytes_per_cluster))
      (d.bpb.get_bytes_per_cluster - f.size % d.bpb.get_bytes_per_cluster) b
      (({ (d.last_cluster_loop fuel f.start_cluster).2 with dev :=
      ((d.last_cluster_loop fuel f.start_cluster).2.dev.readDisk
        (d.partition_offset + (d.bpb.get_data_sector_bytes_offset +
        (lc - 2) * d.bpb.get_bytes_per_cluster) +
        f.size % d.bpb.get_bytes_per_cluster / 512 * 512)).2 } : Disk).dev.mem
        ((d.partition_offset + (d.bpb.get_data_sector_bytes_offset +
        (lc - 2) * d.bpb.get_bytes_per_cluster)) / 512 +
          f.size % d.bpb.get_bytes_per_cluster / 512))
      (f.size % d.bpb.get_bytes_per_cluster % 512) (f.size % d.bpb.get_bytes_per_cluster / 512) 0).1.2.1) }) := by
    simp only [Disk.write_to_last_cluster, Disk.get_files_last_cluster,
      LOGICAL_BLOCK_SIZE]
    rw [hlast.1]
    rw [hrb1]
  have hDmem : ({ (d.last_cluster_loop fuel f.start_cluster).2 with dev :=
      ((d.last_cluster_loop fuel f.start_cluster).2.dev.readDisk
        (d.partition_offset + (d.bpb.get_data_sector_bytes_offset +
        (lc - 2) * d.bpb.get_bytes_per_cluster) +
        f.size % d.bpb.get_bytes_per_cluster / 512 * 512)).2 } : Disk).dev.mem = d.dev.mem := hlast.2.1
  have hmD : ∀ blk, (({ (d.last_cluster_loop fuel f.start_cluster).2 with dev :=
      ((d.last_cluster_loop fuel f.start_cluster).2.dev.readDisk
        (d.partition_offset + (d.bpb.get_data_sector_bytes_offset +
        (lc - 2) * d.bpb.get_bytes_per_cluster) +
        f.size % d.bpb.get_bytes_per_cluster / 512 * 512)).2 } : Disk).dev.mem blk).length = 512 := by
    intro blk
    rw [hDmem]
    exact hmem blk
  have happ := fill_write_bytes
    (d.partition_offset + (d.bpb.get_data_sector_bytes_offset +
        (lc - 2) * d.bpb.get_bytes_per_cluster)) hbase b.length b
    (d.bpb.get_bytes_per_cluster - f.size % d.bpb.get_bytes_per_cluster)
    (f.size % d.bpb.get_bytes_per_cluster % 512) (f.size % d.bpb.get_bytes_per_cluster / 512) 0
    ({ (d.last_cluster_loop fuel f.start_cluster).2 with dev :=
      ((d.last_cluster_loop fuel f.start_cluster).2.dev.readDisk
        (d.partition_offset + (d.bpb.get_data_sector_bytes_offset +
        (lc - 2) * d.bpb.get_bytes_per_cluster) +
        f.size % d.bpb.get_bytes_per_cluster / 512 * 512)).2 } : Disk) (d.write_to_last_cluster fuel f b).2
    rfl hfree (Nat.mod_lt _ (by norm_num)) hmD (by rw [heq])
  refine ⟨?_, ?_, happ.2.2.2.1, ?_, ?_⟩
  · rw [heq, happ.1, happ.2.1]
    norm_num
  · exact Disk.sameGeom_trans
      (Disk.sameGeom_trans hlast.2.2 ⟨rfl, rfl, rfl⟩) happ.2.2.1
  · intro blk hblk
    refine (happ.2.2.2.2.1 blk (by
      generalize hB : d.partition_offset + (d.bpb.get_data_sector_bytes_offset +
        (lc - 2) * d.bpb.get_bytes_per_cluster) = B at hblk ⊢
      generalize f.size % d.bpb.get_bytes_per_cluster = r
      omega)).trans (congrFun hDmem blk)
  · intro x
    have hx := happ.2.2.2.2.2 x
    rw [hDmem] at hx
    rw [show (d.partition_offset + (d.bpb.get_data_sector_bytes_offset +
        (lc - 2) * d.bpb.get_bytes_per_cluster)) +
        f.size % d.bpb.get_bytes_per_cluster / 512 * 512 +
        f.size % d.bpb.get_bytes_per_cluster % 512 =
        d.partition_offset + (d.bpb.get_data_sector_bytes_offset +
        (lc - 2) * d.bpb.get_bytes_per_cluster) +
        f.size % d.bpb.get_bytes_per_cluster from by
      generalize hB : d.partition_offset + (d.bpb.get_data_sector_bytes_offset +
        (lc - 2) * d.bpb.get_bytes_per_cluster) = B
      generalize f.size % d.bpb.get_bytes_per_cluster = r
      omega] at hx
    exact hx

/-- Splicing `b` into the tail of the final cluster, byte-image form: with
the device's bytes unchanged except that the `len(b)` bytes at in-cluster
offset `r` of the last cluster `lc` now hold `b`, the chain of the enlarged
file reads as the old bytes followed by `b`. -/
theorem chainBytes_splice_bytes
    (m m2 : Nat → List Nat)
    (lba ds spc : Nat) (hspc : 0 < spc)
    (init : List Nat) (lc : Nat) (b : List Nat) (q r : Nat)
    (hq : init.length = q) (hrlt : r < spc * 512)
    (hrb : r + b.length ≤ spc * 512)
    (hlc2 : 2 ≤ lc) (hinit2 : ∀ c ∈ init, 2 ≤ c)
    (hnelc : ∀ c ∈ init, c ≠ lc)
    (hbyte : ∀ x, byteAt m2 x =
      if lba * 512 + ds * 512 + (lc - 2) * (spc * 512) + r ≤ x ∧
          x < lba * 512 + ds * 512 + (lc - 2) * (spc * 512) + r + b.length
      then b.getD (x - (lba * 512 + ds * 512 + (lc - 2) * (spc * 512) + r)) 0
      else byteAt m x) :
    chainBytes m2 (lba * 512) (ds * 512) (spc * 512)
      (spc * 512 * q + r + b.length) (init ++ [lc]) 1 =
    chainBytes m (lba * 512) (ds * 512) (spc * 512) (spc * 512 * q + r)
      (init ++ [lc]) 1 ++ b := by
  rw [chainBytes_append_last _ _ _ _ _ init lc 1 (by norm_num),
    chainBytes_append_last _ _ _ _ _ init lc 1 (by norm_num)]
  have hs1 : spc * 512 * q + r + b.length -
      (1 - 1 + init.length) * (spc * 512) = r + b.length := by
    have he : (1 - 1 + init.length) * (spc * 512) = spc * 512 * q := by
      rw [hq]; ring
    rw [he]
    generalize spc * 512 * q = Q
    omega
  have hs2 : spc * 512 * q + r - (1 - 1 + init.length) * (spc * 512) = r := by
    have he : (1 - 1 + init.length) * (spc * 512) = spc * 512 * q := by
      rw [hq]; ring
    rw [he]
    generalize spc * 512 * q = Q
    omega
  rw [hs1, hs2]
  have hKK : ∀ c ∈ init, (c - 2) * spc + spc ≤ (lc - 2) * spc ∨
      (lc - 2) * spc + spc ≤ (c - 2) * spc := by
    intro c hc
    rcases Nat.lt_or_ge c lc with h | h
    · left
      have h1 : (c - 2) * spc + spc = (c - 2 + 1) * spc := by ring
      rw [h1]
      exact Nat.mul_le_mul_right _ (by have := hinit2 c hc; omega)
    · right
      have hgt : lc < c := by
        rcases Nat.lt_or_ge lc c with h2 | h2
        · exact h2
        · exact absurd (by omega : c = lc) (hnelc c hc)
      have h1 : (lc - 2) * spc + spc = (lc - 2 + 1) * spc := by ring
      rw [h1]
      exact Nat.mul_le_mul_right _ (by omega)
  have hinitpart : init.map (fun c => memBytes m2
        (lba * 512 + ds * 512 + (c - 2) * (spc * 512)) (spc * 512)) =
      init.map (fun c => memBytes m
        (lba * 512 + ds * 512 + (c - 2) * (spc * 512)) (spc * 512)) := by
    apply List.map_congr_left
    intro c hc
    apply memBytes_congr
    intro j hj
    rw [hbyte (lba * 512 + ds * 512 + (c - 2) * (spc * 512) + j)]
    refine if_neg ?_
    have h1 : (c - 2) * (spc * 512) = (c - 2) * spc * 512 := by ring
    have h2 : (lc - 2) * (spc * 512) = (lc - 2) * spc * 512 := by ring
    rw [h1, h2]
    have hKKc := hKK c hc
    generalize hK1 : (c - 2) * spc = K1 at hKKc ⊢
    generalize hK2 : (lc - 2) * spc = K2 at hKKc ⊢
    omega
  have hpiece1 : memBytes m2
      (lba * 512 + ds * 512 + (lc - 2) * (spc * 512)) r =
      memBytes m (lba * 512 + ds * 512 + (lc - 2) * (spc * 512)) r := by
    apply memBytes_congr
    intro j hj
    rw [hbyte (lba * 512 + ds * 512 + (lc - 2) * (spc * 512) + j)]
    refine if_neg ?_
    generalize (lc - 2) * (spc * 512) = K
    omega
  have hpiece2 : memBytes m2
      (lba * 512 + ds * 512 + (lc - 2) * (spc * 512) + r) b.length = b := by
    unfold memBytes
    have hcongr : (List.range b.length).map (fun j => byteAt m2
        (lba * 512 + ds * 512 + (lc - 2) * (spc * 512) + r + j)) =
        (List.range b.length).map (fun j => b.getD j 0) := by
      apply List.map_congr_left
      intro j hj
      rw [List.mem_range] at hj
      rw [hbyte (lba * 512 + ds * 512 + (lc - 2) * (spc * 512) + r + j)]
      rw [if_pos (by
        generalize (lc - 2) * (spc * 512) = K
        omega)]
      rw [show lba * 512 + ds * 512 + (lc - 2) * (spc * 512) + r + j -
        (lba * 512 + ds * 512 + (lc - 2) * (spc * 512) + r) = j from by
        generalize (lc - 2) * (spc * 512) = K
        omega]
    rw [hcongr, list_eq_map_getD]
  rw [hinitpart, memBytes_add, hpiece1, hpiece2, List.append_assoc]

/-- Splicing `b` into the final cluster's partial sector extends the bytes
along the chain: with the bytes of `b` written into the last cluster `lc` at
in-cluster offset `r` (sector `r / 512`, index `r % 512`), the chain of the
enlarged file reads as the old bytes followed by `b`. -/
theorem chainBytes_splice
    (m : Nat → List Nat) (hm : ∀ blk, (m blk).length = 512)
    (lba ds spc : Nat) (hspc : 0 < spc)
    (init : List Nat) (lc : Nat) (b : List Nat) (q r : Nat)
    (hq : init.length = q) (hr1 : 1 ≤ r) (hrlt : r < spc * 512)
    (hfit : r % 512 + b.length ≤ 512)
    (hlc2 : 2 ≤ lc) (hinit2 : ∀ c ∈ init, 2 ≤ c)
    (hnelc : ∀ c ∈ init, c ≠ lc) :
    chainBytes (fun blk =>
        if blk = lba + ds + (lc - 2) * spc + r / 512 then
          setSeq (m (lba + ds + (lc - 2) * spc + r / 512)) (r % 512) b
        else m blk)
      (lba * 512) (ds * 512) (spc * 512) (spc * 512 * q + r + b.length)
      (init ++ [lc]) 1 =
    chainBytes m (lba * 512) (ds * 512) (spc * 512) (spc * 512 * q + r)
      (init ++ [lc]) 1 ++ b := by
  have hus : r / 512 < spc := by omega
  rw [chainBytes_append_last _ _ _ _ _ init lc 1 (by norm_num),
    chainBytes_append_last _ _ _ _ _ init lc 1 (by norm_num)]
  have hs1 : spc * 512 * q + r + b.length - (1 - 1 + init.length) * (spc * 512) =
      r + b.length := by
    have he : (1 - 1 + init.length) * (spc * 512) = spc * 512 * q := by
      rw [hq]; ring
    rw [he]
    generalize spc * 512 * q = Q
    omega
  have hs2 : spc * 512 * q + r - (1 - 1 + init.length) * (spc * 512) = r := by
    have he : (1 - 1 + init.length) * (spc * 512) = spc * 512 * q := by
      rw [hq]; ring
    rw [he]
    generalize spc * 512 * q = Q
    omega
  rw [hs1, hs2]
  have hinitpart : init.map (fun c => memBytes (fun blk =>
        if blk = lba + ds + (lc - 2) * spc + r / 512 then
          setSeq (m (lba + ds + (lc - 2) * spc + r / 512)) (r % 512) b
        else m blk) (lba * 512 + ds * 512 + (c - 2) * (spc * 512)) (spc * 512)) =
      init.map (fun c =>
        memBytes m (lba * 512 + ds * 512 + (c - 2) * (spc * 512)) (spc * 512)) := by
    apply List.map_congr_left
    intro c hc
    apply memBytes_congr
    intro j hj
    rw [byteAt_update]
    have hxdiv : (lba * 512 + ds * 512 + (c - 2) * (spc * 512) + j) / 512 =
        lba + ds + ((c - 2) * spc + j / 512) := by
      have h1 : (c - 2) * (spc * 512) = (c - 2) * spc * 512 := by ring
      rw [h1]
      generalize (c - 2) * spc = K
      omega
    have hblkne : (c - 2) * spc + j / 512 ≠ (lc - 2) * spc + r / 512 :=
      cluster_block_ne spc hspc c lc (j / 512) (r / 512)
        (by omega) hus (hinit2 c hc) hlc2 (hnelc c hc)
    rw [if_neg (by
      rw [hxdiv]
      generalize hK1 : (c - 2) * spc + j / 512 = K1 at hblkne ⊢
      generalize hK2 : (lc - 2) * spc = K2 at hblkne ⊢
      omega)]
  rw [hinitpart, memBytes_add]
  have hpiece1 : memBytes (fun blk =>
        if blk = lba + ds + (lc - 2) * spc + r / 512 then
          setSeq (m (lba + ds + (lc - 2) * spc + r / 512)) (r % 512) b
        else m blk) (lba * 512 + ds * 512 + (lc - 2) * (spc * 512)) r =
      memBytes m (lba * 512 + ds * 512 + (lc - 2) * (spc * 512)) r := by
    apply memBytes_congr
    intro j hj
    rw [byteAt_update]
    have hxdiv : (lba * 512 + ds * 512 + (lc - 2) * (spc * 512) + j) / 512 =
        lba + ds + ((lc - 2) * spc + j / 512) := by
      have h1 : (lc - 2) * (spc * 512) = (lc - 2) * spc * 512 := by ring
      rw [h1]
      generalize (lc - 2) * spc = K
      omega
    have hxmod : (lba * 512 + ds * 512 + (lc - 2) * (spc * 512) + j) % 512 =
        j % 512 := by
      have h1 : (lc - 2) * (spc * 512) = (lc - 2) * spc * 512 := by ring
      rw [h1]
      generalize (lc - 2) * spc = K
      omega
    by_cases hcase : j / 512 = r / 512
    · rw [if_pos (by
        rw [hxdiv, hcase]
        generalize (lc - 2) * spc = K
        omega)]
      rw [hxmod]
      rw [setSeq_getD_out b _ _ _ (Or.inl (by omega))]
      unfold byteAt
      rw [hxdiv, hxmod, hcase]
      rw [show lba + ds + ((lc - 2) * spc + r / 512) =
        lba + ds + (lc - 2) * spc + r / 512 by omega]
    · rw [if_neg (by
        rw [hxdiv]
        generalize hK : (lc - 2) * spc = K
        omega)]
  rw [hpiece1]
  have hpiece2 : memBytes (fun blk =>
        if blk = lba + ds + (lc - 2) * spc + r / 512 then
          setSeq (m (lba + ds + (lc - 2) * spc + r / 512)) (r % 512) b
        else m blk) (lba * 512 + ds * 512 + (lc - 2) * (spc * 512) + r)
        b.length = b := by
    unfold memBytes
    have hcongr : (List.range b.length).map (fun j => byteAt (fun blk =>
          if blk = lba + ds + (lc - 2) * spc + r / 512 then
            setSeq (m (lba + ds + (lc - 2) * spc + r / 512)) (r % 512) b
          else m blk)
          (lba * 512 + ds * 512 + (lc - 2) * (spc * 512) + r + j)) =
        (List.range b.length).map (fun j => b.getD j 0) := by
      apply List.map_congr_left
      intro j hj
      rw [List.mem_range] at hj
      rw [byteAt_update]
      have hxdiv : (lba * 512 + ds * 512 + (lc - 2) * (spc * 512) + r + j) / 512 =
          lba + ds + ((lc - 2) * spc + r / 512) := by
        have h1 : (lc - 2) * (spc * 512) = (lc - 2) * spc * 512 := by ring
        rw [h1]
        generalize (lc - 2) * spc = K
        omega
      have hxmod : (lba * 512 + ds * 512 + (lc - 2) * (spc * 512) + r + j) % 512 =
          r % 512 + j := by
        have h1 : (lc - 2) * (spc * 512) = (lc - 2) * spc * 512 := by ring
        rw [h1]
        generalize (lc - 2) * spc = K
        omega
      rw [if_pos (by
        rw [hxdiv]
        generalize (lc - 2) * spc = K
        omega)]
      rw [hxmod]
      exact setSeq_getD_in b _ _ j hj (by
        rw [hm]
        omega)
    rw [hcongr, list_eq_map_getD]
  rw [hpiece2, List.append_assoc]

/-- C1 (amended): on an initialised disk with the 512-byte-block device
contract, appending a buffer `b` to a file whose size is not an exact
multiple of the cluster size (ruling out the full-final-cluster overwrite
bug exhibited by the counterexample), where `b` fits in the free space of
the file's final cluster, extends the file: `append_to_file` succeeds and
reading the returned file in chunks yields exactly the original content
followed by the bytes of `b`.  The chain `cs` is the file's cluster chain,
assumed well formed (`⌈size / bpc⌉` clusters, distinct, within the FAT, at
or above cluster 2). -/
theorem C1_append_extends_read (d : Disk) (f : File) (b : List Nat)
    (cs : List Nat) (fuel : Nat)
    (hinit : d.initialised = true)
    (hbps : d.bpb.bytes_per_sector = 512)
    (hmem : ∀ blk, (d.dev.mem blk).length = 512)
    (hbpcpos : 0 < d.bpb.get_bytes_per_cluster)
    (hchain : chainB d.dev.mem (d.start_lba * 512)
      d.bpb.get_fat_table_byte_offset f.start_cluster cs = true)
    (hlen : cs.length = (f.size + d.bpb.get_bytes_per_cluster - 1) /
      d.bpb.get_bytes_per_cluster)
    (hnodup : cs.Nodup)
    (hcs2 : ∀ c ∈ cs, 2 ≤ c)
    (hfat : ∀ c ∈ cs, d.bpb.fat_start_sector + c * 4 / 512 <
      d.bpb.data_start_sector)
    (hszmod : f.size % d.bpb.get_bytes_per_cluster ≠ 0)
    (hfree : b.length ≤ d.bpb.get_bytes_per_cluster -
      f.size % d.bpb.get_bytes_per_cluster)
    (hfuel : cs.length ≤ fuel) :
    ∃ f' d' L L' dR dR',
      d.append_to_file fuel f b = (Except.ok f', d') ∧
      f'.size = f.size + b.length ∧
      d.read_file_in_chunks_all fuel f = (Except.ok L, dR) ∧
      d'.read_file_in_chunks_all fuel f' = (Except.ok L', dR') ∧
      L'.flatten = L.flatten ++ b := by
  obtain ⟨q, hq⟩ : ∃ q, f.size / d.bpb.get_bytes_per_cluster = q := ⟨_, rfl⟩
  obtain ⟨r, hr⟩ : ∃ r, f.size % d.bpb.get_bytes_per_cluster = r := ⟨_, rfl⟩
  rw [hr] at hszmod hfree
  have hqr : f.size = d.bpb.get_bytes_per_cluster * q + r := by
    rw [← hq, ← hr]
    exact (Nat.div_add_mod _ _).symm
  have hrlt : r < d.bpb.get_bytes_per_cluster := by
    rw [← hr]
    exact Nat.mod_lt _ hbpcpos
  have hceil : (f.size + d.bpb.get_bytes_per_cluster - 1) /
      d.bpb.get_bytes_per_cluster = q + 1 := by
    have hstep : f.size + d.bpb.get_bytes_per_cluster - 1 =
        (r - 1) + d.bpb.get_bytes_per_cluster * (q + 1) := by
      have h3 : d.bpb.get_bytes_per_cluster * (q + 1) =
          d.bpb.get_bytes_per_cluster * q + d.bpb.get_bytes_per_cluster := by
        ring
      rw [h3]
      generalize hQ : d.bpb.get_bytes_per_cluster * q = Q at hqr
      omega
    rw [hstep, Nat.add_mul_div_left _ _ hbpcpos, Nat.div_eq_of_lt (by omega)]
    omega
  have hn : cs.length = q + 1 := by rw [hlen, hceil]
  have hfuel1 : 1 ≤ fuel := by omega
  obtain ⟨F, rfl⟩ : ∃ F, fuel = F + 1 := ⟨fuel - 1, by omega⟩
  -- an empty append returns the file and the disk unchanged
  by_cases hbne : b = []
  · subst hbne
    have hallOld : d.read_file_in_chunks_all (F + 1) f =
        (Except.ok (d.read_chunks_loop f.size (F + 1) f.start_cluster 1).1,
          (d.read_chunks_loop f.size (F + 1) f.start_cluster 1).2) := by
      show (if d.initialised = false then _ else _) = _
      rw [hinit, if_neg (by simp)]
      rfl
    have happend : d.append_to_file (F + 1) f [] = (Except.ok f, d) := by
      show (if d.initialised = false then _ else _) = _
      rw [hinit, if_neg (by simp)]
      show (Except.ok (d.append_loop (F + 1) (F + 1) f []).1,
        (d.append_loop (F + 1) (F + 1) f []).2) = _
      simp [Disk.append_loop]
    exact ⟨f, d, _, _, _, _, happend, by simp, hallOld, hallOld, by simp⟩
  -- main case: the bytes land in the final cluster's free space
  rcases List.eq_nil_or_concat cs with hnil | ⟨init, lc, hcs⟩
  · rw [hnil] at hn
    simp at hn
  rw [List.concat_eq_append] at hcs
  subst hcs
  have hinitlen : init.length = q := by
    rw [List.length_append, List.length_singleton] at hn
    omega
  have hlc2 : 2 ≤ lc := hcs2 lc (by simp)
  have hinit2 : ∀ c ∈ init, 2 ≤ c := fun c hc => hcs2 c (by simp [hc])
  have hnelc : ∀ c ∈ init, c ≠ lc := by
    rw [List.nodup_append] at hnodup
    intro c hc heq
    exact hnodup.2.2 hc (by simp [heq])
  -- geometry abbreviation facts
  have hdso512 : d.bpb.get_data_sector_bytes_offset =
      d.bpb.data_start_sector * 512 := by
    rw [BiosParameterBlock.get_data_sector_bytes_offset, hbps]
  have hfo512 : d.bpb.get_fat_table_byte_offset =
      d.bpb.fat_start_sector * 512 := by
    rw [BiosParameterBlock.get_fat_table_byte_offset, hbps]
  have hbpc512 : d.bpb.get_bytes_per_cluster =
      d.bpb.sectors_per_cluster * 512 := by
    rw [BiosParameterBlock.get_bytes_per_cluster, hbps]
  have hspc : 0 < d.bpb.sectors_per_cluster := by
    rw [hbpc512] at hbpcpos
    omega
  -- the write step
  have hWB := write_to_last_cluster_bytes d f b init lc (F + 1) hmem hbps
    hchain
    (by simp only [List.length_append, List.length_singleton] at hfuel; omega)
    (by rw [hr]; exact hfree)
  have hgeom : d.sameGeom (d.write_to_last_cluster (F + 1) f b).2 := hWB.2.1
  -- the append call
  have hloop : d.append_loop (F + 1) (F + 1) f b =
      ({ f with size := f.size + b.length },
        (d.write_to_last_cluster (F + 1) f b).2) := by
    simp only [Disk.append_loop]
    rw [if_neg hbne, hWB.1]
    dsimp only
    rw [if_pos rfl]
  have happend : d.append_to_file (F + 1) f b =
      (Except.ok { f with size := f.size + b.length },
        (d.write_to_last_cluster (F + 1) f b).2) := by
    show (if d.initialised = false then _ else _) = _
    rw [hinit, if_neg (by simp)]
    show (Except.ok (d.append_loop (F + 1) (F + 1) f b).1,
      (d.append_loop (F + 1) (F + 1) f b).2) = _
    rw [hloop]
  -- size bounds for the two read-path applications
  have key2 : ∀ k, k + 1 < (init ++ [lc]).length →
      (1 + k) * d.bpb.get_bytes_per_cluster ≤ f.size := by
    intro k hk
    rw [hn] at hk
    have h1 : (1 + k) * d.bpb.get_bytes_per_cluster =
        d.bpb.get_bytes_per_cluster * (k + 1) := by ring
    rw [h1]
    have h2 : d.bpb.get_bytes_per_cluster * (k + 1) ≤
        d.bpb.get_bytes_per_cluster * q :=
      Nat.mul_le_mul_left _ (by omega)
    generalize hQ : d.bpb.get_bytes_per_cluster * q = Q at hqr h2
    omega
  have key1 : f.size ≤
      (1 - 1 + (init ++ [lc]).length) * d.bpb.get_bytes_per_cluster := by
    rw [hn]
    have h1 : (1 - 1 + (q + 1)) * d.bpb.get_bytes_per_cluster =
        d.bpb.get_bytes_per_cluster * q + d.bpb.get_bytes_per_cluster := by
      ring
    rw [h1]
    generalize hQ : d.bpb.get_bytes_per_cluster * q = Q at hqr
    omega
  have key1' : f.size + b.length ≤
      (1 - 1 + (init ++ [lc]).length) * d.bpb.get_bytes_per_cluster := by
    rw [hn]
    have h1 : (1 - 1 + (q + 1)) * d.bpb.get_bytes_per_cluster =
        d.bpb.get_bytes_per_cluster * q + d.bpb.get_bytes_per_cluster := by
      ring
    rw [h1]
    generalize hQ : d.bpb.get_bytes_per_cluster * q = Q at hqr
    omega
  have key2' : ∀ k, k + 1 < (init ++ [lc]).length →
      (1 + k) * d.bpb.get_bytes_per_cluster ≤ f.size + b.length :=
    fun k hk => le_trans (key2 k hk) (Nat.le_add_right _ _)
  -- the old read
  have hOld := read_chunks_loop_spec d.dev.mem hmem d.bpb d.start_lba hbps
    f.size (init ++ [lc]) (F + 1) 1 f.start_cluster d rfl rfl rfl hchain
    key2 key1 (by simp) (le_refl 1) hfuel
  have hallOld : d.read_file_in_chunks_all (F + 1) f =
      (Except.ok (d.read_chunks_loop f.size (F + 1) f.start_cluster 1).1,
        (d.read_chunks_loop f.size (F + 1) f.start_cluster 1).2) := by
    show (if d.initialised = false then _ else _) = _
    rw [hinit, if_neg (by simp)]
    rfl
  -- chain preservation on the written device
  have hchain2 : chainB (d.write_to_last_cluster (F + 1) f b).2.dev.mem
      (d.start_lba * 512) d.bpb.get_fat_table_byte_offset f.start_cluster
      (init ++ [lc]) = true := by
    rw [chainB_congr d.dev.mem _ (d.start_lba * 512)
      d.bpb.get_fat_table_byte_offset (init ++ [lc]) f.start_cluster ?_]
    · exact hchain
    · intro x hx
      refine hWB.2.2.2.1 _ ?_
      rw [hfo512, Disk.partition_offset, hdso512, hbpc512]
      have hfx := hfat x hx
      have h1 : (lc - 2) * (d.bpb.sectors_per_cluster * 512) =
          (lc - 2) * d.bpb.sectors_per_cluster * 512 := by ring
      rw [h1]
      generalize (lc - 2) * d.bpb.sectors_per_cluster = K
      omega
  -- the new read
  have hNew := read_chunks_loop_spec
    (d.write_to_last_cluster (F + 1) f b).2.dev.mem hWB.2.2.1 d.bpb
    d.start_lba hbps (f.size + b.length) (init ++ [lc]) (F + 1) 1
    f.start_cluster (d.write_to_last_cluster (F + 1) f b).2 rfl hgeom.1
    hgeom.2.1 hchain2 key2' key1' (by simp) (le_refl 1) hfuel
  have hallNew : (d.write_to_last_cluster (F + 1) f b).2.read_file_in_chunks_all
      (F + 1) { f with size := f.size + b.length } =
      (Except.ok ((d.write_to_last_cluster (F + 1) f b).2.read_chunks_loop
          (f.size + b.length) (F + 1) f.start_cluster 1).1,
        ((d.write_to_last_cluster (F + 1) f b).2.read_chunks_loop
          (f.size + b.length) (F + 1) f.start_cluster 1).2) := by
    show (if (d.write_to_last_cluster (F + 1) f b).2.initialised = false
      then _ else _) = _
    rw [hgeom.2.2, hinit, if_neg (by simp)]
    rfl
  -- assemble
  refine ⟨{ f with size := f.size + b.length },
    (d.write_to_last_cluster (F + 1) f b).2,
    (d.read_chunks_loop f.size (F + 1) f.start_cluster 1).1,
    ((d.write_to_last_cluster (F + 1) f b).2.read_chunks_loop
      (f.size + b.length) (F + 1) f.start_cluster 1).1,
    (d.read_chunks_loop f.size (F + 1) f.start_cluster 1).2,
    ((d.write_to_last_cluster (F + 1) f b).2.read_chunks_loop
      (f.size + b.length) (F + 1) f.start_cluster 1).2,
    happend, rfl, hallOld, hallNew, ?_⟩
  rw [hNew.1, hOld.1]
  rw [hdso512, hbpc512]
  have hsz1 : f.size + b.length =
      d.bpb.sectors_per_cluster * 512 * q + r + b.length := by
    rw [hqr, hbpc512]
  have hsz2 : f.size = d.bpb.sectors_per_cluster * 512 * q + r := by
    rw [hqr, hbpc512]
  rw [hsz1, hsz2]
  have hbeq : d.partition_offset + (d.bpb.get_data_sector_bytes_offset +
      (lc - 2) * d.bpb.get_bytes_per_cluster) +
      f.size % d.bpb.get_bytes_per_cluster =
      d.start_lba * 512 + d.bpb.data_start_sector * 512 +
        (lc - 2) * (d.bpb.sectors_per_cluster * 512) + r := by
    rw [hr, Disk.partition_offset, hdso512, hbpc512]
    ring
  have hbyteC : ∀ x,
      byteAt (d.write_to_last_cluster (F + 1) f b).2.dev.mem x =
      if d.start_lba * 512 + d.bpb.data_start_sector * 512 +
          (lc - 2) * (d.bpb.sectors_per_cluster * 512) + r ≤ x ∧
          x < d.start_lba * 512 + d.bpb.data_start_sector * 512 +
          (lc - 2) * (d.bpb.sectors_per_cluster * 512) + r + b.length
      then b.getD (x - (d.start_lba * 512 + d.bpb.data_start_sector * 512 +
          (lc - 2) * (d.bpb.sectors_per_cluster * 512) + r)) 0
      else byteAt d.dev.mem x := by
    intro x
    rw [hWB.2.2.2.2 x, hbeq]
  exact chainBytes_splice_bytes d.dev.mem
    (d.write_to_last_cluster (F + 1) f b).2.dev.mem d.start_lba
    d.bpb.data_start_sector d.bpb.sectors_per_cluster hspc init lc b q r
    hinitlen (by rw [hbpc512] at hrlt; exact hrlt)
    (by rw [hbpc512] at hrlt hfree; omega) hlc2 hinit2 hnelc hbyteC

/-- Witness for C1: appending "Test Data" to the 11-byte file `LOG-1` on
`disk3` succeeds and the appended file reads back as the old bytes followed
by "Test Data". -/
theorem C1_append_extends_read_witness :
    ∃ f' d' L L' dR dR',
      disk3.append_to_file 1 file3 [84, 101, 115, 116, 32, 68, 97, 116, 97] =
        (Except.ok f', d') ∧
      f'.size = file3.size + [84, 101, 115, 116, 32, 68, 97, 116, 97].length ∧
      disk3.read_file_in_chunks_all 1 file3 = (Except.ok L, dR) ∧
      d'.read_file_in_chunks_all 1 f' = (Except.ok L', dR') ∧
      L'.flatten = L.flatten ++ [84, 101, 115, 116, 32, 68, 97, 116, 97] :=
  C1_append_extends_read disk3 file3 [84, 101, 115, 116, 32, 68, 97, 116, 97]
    [21] 1 rfl rfl mem3_len (by decide) (by decide) (by decide) (by decide)
    (by decide) (by decide) (by decide) (by decide) (by decide)

/-- The decimal digits produced by `digitsAux` evaluate back to the number
(with enough fuel). -/
theorem digitsAux_val : ∀ (fuel n : Nat), n < 10 ^ fuel →
    (digitsAux fuel n).foldl (fun a c => a * 10 + (c - 48)) 0 = n := by
  intro fuel
  induction fuel with
  | zero =>
    intro n h
    simp only [Nat.pow_zero] at h
    simp only [digitsAux, List.foldl_nil]
    omega
  | succ f ih =>
    intro n h
    by_cases h10 : n < 10
    · simp only [digitsAux, if_pos h10, List.foldl_cons, List.foldl_nil]
      omega
    · simp only [digitsAux, if_neg h10, List.foldl_append]
      have hdiv : n / 10 < 10 ^ f := by
        rw [Nat.pow_succ] at h
        generalize 10 ^ f = E at h ⊢
        omega
      rw [ih (n / 10) hdiv]
      simp only [List.foldl_cons, List.foldl_nil]
      omega

/-- Every character `digitsAux` produces is a decimal digit. -/
theorem digitsAux_mem : ∀ (fuel n c : Nat), c ∈ digitsAux fuel n →
    48 ≤ c ∧ c ≤ 57 := by
  intro fuel
  induction fuel with
  | zero => intro n c hc; simp [digitsAux] at hc
  | succ f ih =>
    intro n c hc
    by_cases h10 : n < 10
    · simp only [digitsAux, if_pos h10, List.mem_singleton] at hc
      omega
    · simp only [digitsAux, if_neg h10, List.mem_append,
        List.mem_singleton] at hc
      rcases hc with hc | hc
      · exact ih (n / 10) c hc
      · omega

/-- `digitsAux` with positive fuel is never empty. -/
theorem digitsAux_ne_nil (fuel n : Nat) : digitsAux (fuel + 1) n ≠ [] := by
  by_cases h10 : n < 10
  · simp [digitsAux, if_pos h10]
  · simp [digitsAux, if_neg h10]

/-- `n < 10 ^ (n + 1)`. -/
theorem lt_ten_pow (n : Nat) : n < 10 ^ (n + 1) :=
  lt_of_lt_of_le (Nat.lt_two_pow n)
    (le_trans (Nat.pow_le_pow_left (by norm_num) n)
      (Nat.pow_le_pow_right (by norm_num) (Nat.le_succ n)))

/-- `str(n)` evaluates back to `n`. -/
theorem natStr_val (n : Nat) :
    (natStr n).foldl (fun a c => a * 10 + (c - 48)) 0 = n :=
  digitsAux_val (n + 1) n (lt_ten_pow n)

/-- `str(n)` is nonempty and all digits. -/
theorem natStr_ne (n : Nat) : natStr n ≠ [] := digitsAux_ne_nil n n

/-- Each character of `str(n)` is a digit. -/
theorem natStr_mem (n c : Nat) (hc : c ∈ natStr n) : 48 ≤ c ∧ c ≤ 57 :=
  digitsAux_mem (n + 1) n c hc

/-- Each character of a zero-padded decimal rendering is a digit. -/
theorem pyFmt_mem (w n c : Nat) (hc : c ∈ pyFmt w n) : 48 ≤ c ∧ c ≤ 57 := by
  simp only [pyFmt, List.mem_append] at hc
  rcases hc with hc | hc
  · have := List.eq_of_mem_replicate hc
    omega
  · exact natStr_mem n c hc

/-- A zero-padded decimal rendering is nonempty. -/
theorem pyFmt_ne (w n : Nat) : pyFmt w n ≠ [] := by
  simp only [pyFmt]
  intro h
  rcases List.append_eq_nil.mp h with ⟨_, h2⟩
  exact natStr_ne n h2

/-- Leading zeros do not change the evaluated value. -/
theorem foldl_digits_replicate : ∀ (k : Nat) (l : List Nat),
    (List.replicate k 48 ++ l).foldl (fun a c => a * 10 + (c - 48)) 0 =
      l.foldl (fun a c => a * 10 + (c - 48)) 0 := by
  intro k
  induction k with
  | zero => intro l; simp
  | succ j ih =>
    intro l
    rw [List.replicate_succ, List.cons_append, List.foldl_cons]
    simpa using ih l

/-- `digitsVal` of a zero-padded decimal rendering. -/
theorem digitsVal_pyFmt (w n : Nat) : digitsVal (pyFmt w n) = some n := by
  unfold digitsVal
  rw [if_pos ?_]
  · rw [show pyFmt w n = List.replicate (w - (natStr n).length) 48 ++ natStr n
      from rfl]
    rw [foldl_digits_replicate, natStr_val]
  · refine ⟨pyFmt_ne w n, ?_⟩
    rw [List.all_eq_true]
    intro c hc
    have := pyFmt_mem w n c hc
    simp only [decide_eq_true_eq]
    omega

/-- Python `int` of a zero-padded decimal rendering. -/
theorem pyInt_pyFmt (w n : Nat) : pyInt (pyFmt w n) = some (n : Int) := by
  cases hp : pyFmt w n with
  | nil => exact absurd hp (pyFmt_ne w n)
  | cons c t =>
    have hc : 48 ≤ c ∧ c ≤ 57 := pyFmt_mem w n c (by rw [hp]; simp)
    have hne45 : c ≠ 45 := by omega
    have hne43 : c ≠ 43 := by omega
    have hstep : pyInt (c :: t) = (digitsVal (c :: t)).map fun v => (v : Int) := by
      unfold pyInt
      split
      · next heq =>
        rw [List.cons.injEq] at heq
        exact absurd heq.1 hne45
      · next heq =>
        rw [List.cons.injEq] at heq
        exact absurd heq.1 hne43
      · rfl
    rw [← hp] at hstep
    rw [hp] at hstep
    rw [hstep, ← hp, digitsVal_pyFmt]
    rfl

/-- `split(sep)` of a string not containing the separator. -/
theorem pySplit_not_mem (sep : Nat) : ∀ (s : List Nat), sep ∉ s →
    pySplit sep s = [s] := by
  intro s
  induction s with
  | nil => intro _; rfl
  | cons c t ih =>
    intro h
    have hc : c ≠ sep := fun hc => h (by simp [hc])
    have ht : sep ∉ t := fun ht => h (by simp [ht])
    simp only [pySplit, if_neg hc, ih ht]

/-- `split(sep)` peels off a separator-free prefix. -/
theorem pySplit_append (sep : Nat) : ∀ (s1 : List Nat), sep ∉ s1 →
    ∀ s2, pySplit sep (s1 ++ sep :: s2) = s1 :: pySplit sep s2 := by
  intro s1
  induction s1 with
  | nil =>
    intro _ s2
    simp [pySplit]
  | cons c t ih =>
    intro h s2
    have hc : c ≠ sep := fun hc => h (by simp [hc])
    have ht : sep ∉ t := fun ht => h (by simp [ht])
    rw [List.cons_append]
    simp only [pySplit, if_neg hc, ih ht s2]

/-- Or-ing into the low bits below a shift is addition. -/
theorem lor_two_pow_add (k x y : Nat) (hy : y < 2 ^ k) :
    x <<< k ||| y = x * 2 ^ k + y := by
  apply Nat.eq_of_testBit_eq
  intro i
  rw [Nat.testBit_lor, Nat.testBit_shiftLeft,
    show x * 2 ^ k + y = 2 ^ k * x + y by ring,
    Nat.testBit_mul_pow_two_add x hy i]
  by_cases h : i < k
  · rw [if_pos h]
    simp [Nat.not_le.mpr h]
  · rw [if_neg h]
    have hyy : Nat.testBit y i = false :=
      Nat.testBit_lt_two_pow (lt_of_lt_of_le hy
        (Nat.pow_le_pow_right (by norm_num) (by omega)))
    simp [hyy, Nat.le_of_not_lt h]

/-- Masking facts used by the date/time codec (16-bit packed values). -/
theorem date_fields (dd : Nat) (hdd : dd < 65536) :
    dd >>> 9 &&& 0x7F = dd / 512 ∧ dd >>> 5 &&& 0x0F = dd / 32 % 16 ∧
    dd &&& 0x1F = dd % 32 := by
  refine ⟨?_, ?_, ?_⟩
  · rw [Nat.shiftRight_eq_div_pow, show (0x7F : Nat) = 2 ^ 7 - 1 by norm_num,
      Nat.and_pow_two_sub_one_eq_mod]
    show dd / 512 % 128 = dd / 512
    omega
  · rw [Nat.shiftRight_eq_div_pow, show (0x0F : Nat) = 2 ^ 4 - 1 by norm_num,
      Nat.and_pow_two_sub_one_eq_mod]
  · rw [show (0x1F : Nat) = 2 ^ 5 - 1 by norm_num,
      Nat.and_pow_two_sub_one_eq_mod]

/-- Masking facts for the packed time value. -/
theorem time_fields (tt : Nat) (htt : tt < 65536) :
    tt >>> 11 &&& 0x1F = tt / 2048 ∧ tt >>> 5 &&& 0x3F = tt / 32 % 64 := by
  constructor
  · rw [Nat.shiftRight_eq_div_pow, show (0x1F : Nat) = 2 ^ 5 - 1 by norm_num,
      Nat.and_pow_two_sub_one_eq_mod]
    show tt / 2048 % 32 = tt / 2048
    omega
  · rw [Nat.shiftRight_eq_div_pow, show (0x3F : Nat) = 2 ^ 6 - 1 by norm_num,
      Nat.and_pow_two_sub_one_eq_mod]

/-- Re-packing the decoded date fields gives back the packed date. -/
theorem packDate_val (dd : Nat) (hdd : dd < 65536) :
    pyOr (pyOr (pyShl (((dd / 512 + 1980 : Nat) : Int) - 1980) 9)
        (pyShl ((dd / 32 % 16 : Nat) : Int) 5)) ((dd % 32 : Nat) : Int) =
      (dd : Int) := by
  have hya : ((dd / 512 + 1980 : Nat) : Int) - 1980 =
      ((dd / 512 : Nat) : Int) := by
    push_cast
    ring
  have hshl9 : pyShl ((dd / 512 : Nat) : Int) 9 =
      ((dd / 512 * 512 : Nat) : Int) := by
    unfold pyShl
    push_cast
    ring
  have hshl5 : pyShl ((dd / 32 % 16 : Nat) : Int) 5 =
      ((dd / 32 % 16 * 32 : Nat) : Int) := by
    unfold pyShl
    push_cast
    ring
  have hpyor : ∀ u v : Nat, pyOr ((u : Nat) : Int) ((v : Nat) : Int) =
      ((u ||| v : Nat) : Int) := fun u v => rfl
  rw [hya, hshl9, hshl5, hpyor, hpyor]
  have hor1 : dd / 512 * 512 ||| dd / 32 % 16 * 32 =
      dd / 512 * 512 + dd / 32 % 16 * 32 := by
    have h1 : dd / 512 * 512 = (dd / 512) <<< 9 := by
      rw [Nat.shiftLeft_eq]
    conv_lhs => rw [h1]
    rw [lor_two_pow_add 9 _ _ (by show dd / 32 % 16 * 32 < 512; omega)]
    norm_num
  have hor2 : dd / 512 * 512 + dd / 32 % 16 * 32 ||| dd % 32 =
      dd / 512 * 512 + dd / 32 % 16 * 32 + dd % 32 := by
    have h1 : dd / 512 * 512 + dd / 32 % 16 * 32 =
        (dd / 512 * 16 + dd / 32 % 16) <<< 5 := by
      rw [Nat.shiftLeft_eq]
      ring
    conv_lhs => rw [h1]
    rw [lor_two_pow_add 5 _ _ (by show dd % 32 < 32; omega)]
    ring
  rw [hor1, hor2]
  push_cast
  omega

/-- Re-packing the decoded time fields gives back the packed time. -/
theorem packTime_val (tt : Nat) (htt : tt < 65536) :
    pyOr (pyOr (pyShl ((tt / 2048 : Nat) : Int) 11)
        (pyShl ((tt / 32 % 64 : Nat) : Int) 5))
      (Int.fdiv ((tt % 32 * 2 : Nat) : Int) 2) = (tt : Int) := by
  have hshl11 : pyShl ((tt / 2048 : Nat) : Int) 11 =
      ((tt / 2048 * 2048 : Nat) : Int) := by
    unfold pyShl
    push_cast
    ring
  have hshl5 : pyShl ((tt / 32 % 64 : Nat) : Int) 5 =
      ((tt / 32 % 64 * 32 : Nat) : Int) := by
    unfold pyShl
    push_cast
    ring
  have hsec : Int.fdiv ((tt % 32 * 2 : Nat) : Int) 2 =
      ((tt % 32 * 2 / 2 : Nat) : Int) := by
    show Int.fdiv (Int.ofNat (tt % 32 * 2)) (Int.ofNat 2) =
      Int.ofNat (tt % 32 * 2 / 2)
    cases h : tt % 32 * 2 with
    | zero => rfl
    | succ k => rfl
  have hpyor : ∀ u v : Nat, pyOr ((u : Nat) : Int) ((v : Nat) : Int) =
      ((u ||| v : Nat) : Int) := fun u v => rfl
  rw [hshl11, hshl5, hsec, hpyor, hpyor]
  have hor1 : tt / 2048 * 2048 ||| tt / 32 % 64 * 32 =
      tt / 2048 * 2048 + tt / 32 % 64 * 32 := by
    have h1 : tt / 2048 * 2048 = (tt / 2048) <<< 11 := by
      rw [Nat.shiftLeft_eq]
    conv_lhs => rw [h1]
    rw [lor_two_pow_add 11 _ _ (by show tt / 32 % 64 * 32 < 2048; omega)]
    norm_num
  have hor2 : tt / 2048 * 2048 + tt / 32 % 64 * 32 ||| tt % 32 * 2 / 2 =
      tt / 2048 * 2048 + tt / 32 % 64 * 32 + tt % 32 * 2 / 2 := by
    have h1 : tt / 2048 * 2048 + tt / 32 % 64 * 32 =
        (tt / 2048 * 64 + tt / 32 % 64) <<< 5 := by
      rw [Nat.shiftLeft_eq]
      ring
    conv_lhs => rw [h1]
    rw [lor_two_pow_add 5 _ _ (by show tt % 32 * 2 / 2 < 32; omega)]
    ring
  rw [hor1, hor2]
  push_cast
  omega

/-- Characters of a decoded date string: a dash or a digit. -/
theorem decodeDate_mem (d c : Nat) (hc : c ∈ decodeDate d) :
    c = 45 ∨ (48 ≤ c ∧ c ≤ 57) := by
  simp only [decodeDate, List.append_assoc, List.mem_append,
    List.mem_singleton] at hc
  rcases hc with hc | hc | hc | hc | hc
  · exact Or.inr (pyFmt_mem _ _ _ hc)
  · exact Or.inl hc
  · exact Or.inr (pyFmt_mem _ _ _ hc)
  · exact Or.inl hc
  · exact Or.inr (pyFmt_mem _ _ _ hc)

/-- Characters of a decoded time string: a colon or a digit. -/
theorem decodeTime_mem (t c : Nat) (hc : c ∈ decodeTime t) :
    c = 58 ∨ (48 ≤ c ∧ c ≤ 57) := by
  simp only [decodeTime, List.append_assoc, List.mem_append,
    List.mem_singleton] at hc
  rcases hc with hc | hc | hc | hc | hc
  · exact Or.inr (pyFmt_mem _ _ _ hc)
  · exact Or.inl hc
  · exact Or.inr (pyFmt_mem _ _ _ hc)
  · exact Or.inl hc
  · exact Or.inr (pyFmt_mem _ _ _ hc)

/-- The date string rewritten with its fields in div/mod form. -/
theorem decodeDate_div_mod (dd : Nat) (hdd : dd < 65536) :
    decodeDate dd = pyFmt 4 (dd / 512 + 1980) ++ 45 ::
      (pyFmt 2 (dd / 32 % 16) ++ 45 :: pyFmt 2 (dd % 32)) := by
  obtain ⟨h1, h2, h3⟩ := date_fields dd hdd
  unfold decodeDate
  rw [h1, h2, h3]
  simp [List.append_assoc]

/-- The time string rewritten with its fields in div/mod form. -/
theorem decodeTime_div_mod (tt : Nat) (htt : tt < 65536) :
    decodeTime tt = pyFmt 2 (tt / 2048) ++ 58 ::
      (pyFmt 2 (tt / 32 % 64) ++ 58 :: pyFmt 2 (tt % 32 * 2)) := by
  obtain ⟨h1, h2⟩ := time_fields tt htt
  have h3 : tt &&& 0x1F = tt % 32 := by
    rw [show (0x1F : Nat) = 2 ^ 5 - 1 by norm_num,
      Nat.and_pow_two_sub_one_eq_mod]
  unfold decodeTime
  rw [h1, h2, h3]
  simp [List.append_assoc]

/-- Splitting the decoded date string on dashes gives the three fields. -/
theorem pySplit_decodeDate (dd : Nat) (hdd : dd < 65536) :
    pySplit 45 (decodeDate dd) = [pyFmt 4 (dd / 512 + 1980),
      pyFmt 2 (dd / 32 % 16), pyFmt 2 (dd % 32)] := by
  rw [decodeDate_div_mod dd hdd]
  rw [pySplit_append 45 _ (fun h => by have := pyFmt_mem _ _ _ h; omega)]
  rw [pySplit_append 45 _ (fun h => by have := pyFmt_mem _ _ _ h; omega)]
  rw [pySplit_not_mem 45 _ (fun h => by have := pyFmt_mem _ _ _ h; omega)]

/-- Splitting the decoded time string on colons gives the three fields. -/
theorem pySplit_decodeTime (tt : Nat) (htt : tt < 65536) :
    pySplit 58 (decodeTime tt) = [pyFmt 2 (tt / 2048),
      pyFmt 2 (tt / 32 % 64), pyFmt 2 (tt % 32 * 2)] := by
  rw [decodeTime_div_mod tt htt]
  rw [pySplit_append 58 _ (fun h => by have := pyFmt_mem _ _ _ h; omega)]
  rw [pySplit_append 58 _ (fun h => by have := pyFmt_mem _ _ _ h; omega)]
  rw [pySplit_not_mem 58 _ (fun h => by have := pyFmt_mem _ _ _ h; omega)]

/-- The `try` block of `to_bytes` on a decoded date-time string succeeds and
re-packs exactly the original 16-bit date and time values. -/
theorem parseDateTimeStr_decode (dd tt : Nat) (hdd : dd < 65536)
    (htt : tt < 65536) :
    parseDateTimeStr (decodeDate dd ++ [32] ++ decodeTime tt) =
      some ((dd : Int), (tt : Int)) := by
  have hsp : pySplit 32 (decodeDate dd ++ [32] ++ decodeTime tt) =
      [decodeDate dd, decodeTime tt] := by
    rw [List.append_assoc, List.singleton_append,
      pySplit_append 32 _ (fun h => by
        rcases decodeDate_mem dd 32 h with h | h <;> omega),
      pySplit_not_mem 32 _ (fun h => by
        rcases decodeTime_mem tt 32 h with h | h <;> omega)]
  unfold parseDateTimeStr
  rw [hsp]
  dsimp only
  rw [pySplit_decodeDate dd hdd]
  simp only [List.map_cons, List.map_nil, pyInt_pyFmt]
  rw [pySplit_decodeTime tt htt]
  simp only [List.take_succ_cons, List.take_zero, List.map_cons,
    List.map_nil, pyInt_pyFmt]
  rw [packDate_val dd hdd, packTime_val tt htt]

/-- The `try` block of `to_bytes` on a decoded date string succeeds and
re-packs exactly the original 16-bit date value. -/
theorem parseDateStr_decode (dd : Nat) (hdd : dd < 65536) :
    parseDateStr (decodeDate dd) = some (dd : Int) := by
  unfold parseDateStr
  rw [pySplit_decodeDate dd hdd]
  simp only [List.map_cons, List.map_nil, pyInt_pyFmt]
  rw [packDate_val dd hdd]

/-- Leading spaces are dropped by `dropWhile`. -/
theorem dropWhile_replicate_space (k : Nat) (l : List Nat) :
    List.dropWhile pyIsSpace (List.replicate k 32 ++ l) =
      List.dropWhile pyIsSpace l := by
  induction k with
  | zero => simp
  | succ j ih =>
    rw [List.replicate_succ, List.cons_append,
      List.dropWhile_cons_of_pos (by decide)]
    exact ih

/-- `dropWhile` is the identity when the head is not whitespace. -/
theorem dropWhile_head_not_space (l : List Nat)
    (h : pyIsSpace (l.headD 0) = false) :
    List.dropWhile pyIsSpace l = l := by
  cases l with
  | nil => rfl
  | cons a t =>
    have ha : pyIsSpace a = false := by simpa using h
    rw [List.dropWhile_cons_of_neg (by simp [ha])]

/-- `strip()` of a string padded with trailing spaces, whose own first and
last characters are not whitespace, recovers the string. -/
theorem pyStrip_pad (s : List Nat) (k : Nat)
    (hh : pyIsSpace (s.headD 0) = false)
    (hl : pyIsSpace (s.getLastD 0) = false) :
    pyStrip (s ++ List.replicate k 32) = s := by
  unfold pyStrip
  cases s with
  | nil =>
    rw [List.nil_append,
      show List.dropWhile pyIsSpace (List.replicate k 32) =
        List.dropWhile pyIsSpace ([] : List Nat) from by
          simpa using dropWhile_replicate_space k []]
    simp
  | cons a t =>
    have ha : pyIsSpace a = false := by simpa using hh
    rw [List.cons_append, List.dropWhile_cons_of_neg (by simp [ha]),
      show a :: (t ++ List.replicate k 32) =
        (a :: t) ++ List.replicate k 32 from rfl,
      List.reverse_append, List.reverse_replicate,
      dropWhile_replicate_space,
      dropWhile_head_not_space ((a :: t).reverse) (by
        rw [List.headD_eq_head?, List.head?_reverse,
          ← List.getLastD_eq_getLast?]
        exact hl),
      List.reverse_reverse]

/-- `to_bytes` on a file whose timestamp strings have the decoded shape:
all seven packs succeed and the 32 bytes are the fields in order. -/
theorem to_bytes_of_shape (f : File) (cd ct ad wd wt : Nat)
    (hattr : f.attr < 256) (hsize : f.size < 4294967296)
    (hcd : cd < 65536) (hct : ct < 65536) (had : ad < 65536)
    (hwd : wd < 65536) (hwt : wt < 65536)
    (hcreated : f.created = decodeDate cd ++ [32] ++ decodeTime ct)
    (haccessed : f.accessed = decodeDate ad)
    (hwritten : f.written = decodeDate wd ++ [32] ++ decodeTime wt) :
    f.to_bytes = some (((f.name.map encodeAsciiReplace).take 11 ++
      List.replicate (11 - ((f.name.map encodeAsciiReplace).take 11).length) 32) ++
      [f.attr] ++ [0] ++ [0] ++ le16 ct ++ le16 cd ++ le16 ad ++
      le16 (f.start_cluster >>> 16 &&& 0xFFFF) ++ le16 wt ++ le16 wd ++
      le16 (f.start_cluster &&& 0xFFFF) ++ le32 f.size) := by
  have hpB : packB f.attr = some [f.attr] := by
    unfold packB
    rw [if_pos hattr]
  have hpH : ∀ v : Nat, v < 65536 → packH ((v : Nat) : Int) = some (le16 v) := by
    intro v hv
    unfold packH
    rw [if_pos (by constructor <;> omega), Int.toNat_natCast]
  have hpI : packI f.size = some (le32 f.size) := by
    unfold packI
    rw [if_pos hsize]
  simp only [File.to_bytes, hcreated, haccessed, hwritten,
    parseDateTimeStr_decode cd ct hcd hct, parseDateStr_decode ad had,
    parseDateTimeStr_decode wd wt hwd hwt, Option.getD_some,
    hpB, hpH ct hct, hpH cd hcd, hpH ad had, hpH wd hwd, hpH wt hwt, hpI]

/-- Slicing past an 11-byte prefix. -/
theorem pySlice_append_11 (NB REST : List Nat) (hNB : NB.length = 11)
    (j n : Nat) : pySlice (NB ++ REST) (11 + j) n = pySlice REST j n := by
  unfold pySlice
  rw [← List.drop_drop, List.drop_left' hNB]

/-- `getD` past an 11-byte prefix. -/
theorem getD_append_11 (NB REST : List Nat) (hNB : NB.length = 11)
    (j : Nat) : (NB ++ REST).getD (11 + j) 0 = REST.getD j 0 := by
  simp only [List.getD]
  rw [List.get?_append_right (by omega)]
  rw [show 11 + j - NB.length = j by omega]

/-- Parsing the 32 bytes produced by the encoder recovers every field: the
padded name strips back to the name, the packed shorts and the 32-bit size
unpack to their values, and the split cluster number is reassembled. -/
theorem parse_roundtrip (name : List Nat)
    (attr sc size cd ct ad wd wt off : Nat)
    (hlen : name.length ≤ 11)
    (hname : ∀ c ∈ name, 0 < c ∧ c < 128)
    (hh : pyIsSpace (name.headD 0) = false)
    (hl : pyIsSpace (name.getLastD 0) = false)
    (hattrNotLfn : attr ≠ 0x0F)
    (hsc : sc < 4294967296) (hsize : size < 4294967296)
    (hcd : cd < 65536) (hct : ct < 65536) (had : ad < 65536)
    (hwd : wd < 65536) (hwt : wt < 65536) :
    File.parse_directory_entries
      ((name ++ List.replicate (11 - name.length) 32) ++
        [attr] ++ [0] ++ [0] ++ le16 ct ++ le16 cd ++ le16 ad ++
        le16 (sc >>> 16 &&& 0xFFFF) ++ le16 wt ++ le16 wd ++
        le16 (sc &&& 0xFFFF) ++ le32 size) off =
      [{ name := name, attr := attr, attributes := File.attributesOf attr,
         start_cluster := sc, size := size,
         created := decodeDate cd ++ [32] ++ decodeTime ct,
         accessed := decodeDate ad,
         written := decodeDate wd ++ [32] ++ decodeTime wt,
         is_lfn := false, byte_offset := off }] := by
  set RESTv := attr :: 0 :: 0 :: (le16 ct ++ (le16 cd ++ (le16 ad ++
    (le16 (sc >>> 16 &&& 0xFFFF) ++ (le16 wt ++ (le16 wd ++
    (le16 (sc &&& 0xFFFF) ++ le32 size))))))) with hRESTdef
  have hNBlen : (name ++ List.replicate (11 - name.length) 32).length = 11 := by
    simp
    omega
  have hflat : (name ++ List.replicate (11 - name.length) 32) ++
      [attr] ++ [0] ++ [0] ++ le16 ct ++ le16 cd ++ le16 ad ++
      le16 (sc >>> 16 &&& 0xFFFF) ++ le16 wt ++ le16 wd ++
      le16 (sc &&& 0xFFFF) ++ le32 size =
      (name ++ List.replicate (11 - name.length) 32) ++ RESTv := by
    rw [hRESTdef]
    simp [List.append_assoc]
  rw [hflat]
  have hlen32 : ((name ++ List.replicate (11 - name.length) 32) ++
      RESTv).length = 32 := by
    rw [List.length_append, hNBlen, hRESTdef]
    simp [le16, le32]
  have hhi : sc >>> 16 &&& 0xFFFF = sc / 65536 := by
    rw [Nat.shiftRight_eq_div_pow, show (0xFFFF : Nat) = 2 ^ 16 - 1 by
      norm_num, Nat.and_pow_two_sub_one_eq_mod]
    show sc / 65536 % 65536 = sc / 65536
    omega
  have hlo : sc &&& 0xFFFF = sc % 65536 := by
    rw [show (0xFFFF : Nat) = 2 ^ 16 - 1 by norm_num,
      Nat.and_pow_two_sub_one_eq_mod]
  -- the packed fields unpack to their values
  have h14 : unpackLE16 (pySlice ((name ++
      List.replicate (11 - name.length) 32) ++ RESTv) 14 2) = ct := by
    rw [show (14 : Nat) = 11 + 3 from rfl, pySlice_append_11 _ _ hNBlen,
      show pySlice RESTv 3 2 = le16 ct from rfl]
    simp [unpackLE16, le16, List.getD]
    omega
  have h16 : unpackLE16 (pySlice ((name ++
      List.replicate (11 - name.length) 32) ++ RESTv) 16 2) = cd := by
    rw [show (16 : Nat) = 11 + 5 from rfl, pySlice_append_11 _ _ hNBlen,
      show pySlice RESTv 5 2 = le16 cd from rfl]
    simp [unpackLE16, le16, List.getD]
    omega
  have h18 : unpackLE16 (pySlice ((name ++
      List.replicate (11 - name.length) 32) ++ RESTv) 18 2) = ad := by
    rw [show (18 : Nat) = 11 + 7 from rfl, pySlice_append_11 _ _ hNBlen,
      show pySlice RESTv 7 2 = le16 ad from rfl]
    simp [unpackLE16, le16, List.getD]
    omega
  have h20 : unpackLE16 (pySlice ((name ++
      List.replicate (11 - name.length) 32) ++ RESTv) 20 2) = sc / 65536 := by
    rw [show (20 : Nat) = 11 + 9 from rfl, pySlice_append_11 _ _ hNBlen,
      show pySlice RESTv 9 2 = le16 (sc >>> 16 &&& 0xFFFF) from rfl, hhi]
    simp [unpackLE16, le16, List.getD]
    omega
  have h22 : unpackLE16 (pySlice ((name ++
      List.replicate (11 - name.length) 32) ++ RESTv) 22 2) = wt := by
    rw [show (22 : Nat) = 11 + 11 from rfl, pySlice_append_11 _ _ hNBlen,
      show pySlice RESTv 11 2 = le16 wt from rfl]
    simp [unpackLE16, le16, List.getD]
    omega
  have h24 : unpackLE16 (pySlice ((name ++
      List.replicate (11 - name.length) 32) ++ RESTv) 24 2) = wd := by
    rw [show (24 : Nat) = 11 + 13 from rfl, pySlice_append_11 _ _ hNBlen,
      show pySlice RESTv 13 2 = le16 wd from rfl]
    simp [unpackLE16, le16, List.getD]
    omega
  have h26 : unpackLE16 (pySlice ((name ++
      List.replicate (11 - name.length) 32) ++ RESTv) 26 2) = sc % 65536 := by
    rw [show (26 : Nat) = 11 + 15 from rfl, pySlice_append_11 _ _ hNBlen,
      show pySlice RESTv 15 2 = le16 (sc &&& 0xFFFF) from rfl, hlo]
    simp [unpackLE16, le16, List.getD]
    omega
  have h28 : unpackLE32 (pySlice ((name ++
      List.replicate (11 - name.length) 32) ++ RESTv) 28 4) = size := by
    rw [show (28 : Nat) = 11 + 17 from rfl, pySlice_append_11 _ _ hNBlen,
      show pySlice RESTv 17 4 = le32 size from rfl]
    simp [unpackLE32, le32, List.getD]
    omega
  have hattr11 : ((name ++ List.replicate (11 - name.length) 32) ++
      RESTv).getD 11 0 = attr := by
    rw [show (11 : Nat) = 11 + 0 from rfl, getD_append_11 _ _ hNBlen]
    rfl
  have hname_field : pyStrip ((pySlice ((name ++
      List.replicate (11 - name.length) 32) ++ RESTv) 0 11).map
      decodeAsciiReplace) = name := by
    have hsl : pySlice ((name ++ List.replicate (11 - name.length) 32) ++
        RESTv) 0 11 = name ++ List.replicate (11 - name.length) 32 := by
      unfold pySlice
      rw [List.drop_zero]
      exact List.take_left' hNBlen
    have hmapn : name.map decodeAsciiReplace = name := by
      rw [List.map_congr_left (fun c hc => by
        unfold decodeAsciiReplace
        rw [if_pos (hname c hc).2])]
      exact List.map_id name
    rw [hsl, List.map_append, List.map_replicate, hmapn,
      show decodeAsciiReplace 32 = 32 from rfl]
    exact pyStrip_pad name _ hh hl
  have hlfn : isLfnEntry ((name ++ List.replicate (11 - name.length) 32) ++
      RESTv) = false := by
    unfold isLfnEntry
    rw [hattr11]
    simp [hattrNotLfn]
  have hsc_round : (sc / 65536) <<< 16 ||| sc % 65536 = sc := by
    rw [lor_two_pow_add 16 _ _ (by show sc % 65536 < 65536; omega)]
    show sc / 65536 * 65536 + sc % 65536 = sc
    omega
  -- run the parser: one entry, then the stop
  unfold File.parse_directory_entries
  rw [hlen32, show (32 + 31) / 32 = 1 from rfl,
    show (1 : Nat) = 0 + 1 from rfl]
  simp only [parseEntriesAux]
  have hentry : pySlice ((name ++ List.replicate (11 - name.length) 32) ++
      RESTv) 0 32 = (name ++ List.replicate (11 - name.length) 32) ++
      RESTv := by
    unfold pySlice
    rw [List.drop_zero]
    exact List.take_of_length_le (by rw [hlen32])
  rw [hentry]
  have hb0 : ((name ++ List.replicate (11 - name.length) 32) ++
      RESTv).getD 0 0 ≠ 0 ∧
      ((name ++ List.replicate (11 - name.length) 32) ++
      RESTv).getD 0 0 ≠ 0xE5 := by
    cases hn : name with
    | nil =>
      rw [show (([] : List Nat) ++ List.replicate (11 - ([] : List Nat).length)
        32) ++ RESTv = 32 :: (List.replicate 10 32 ++ RESTv) from rfl]
      simp [List.getD]
    | cons a t =>
      have ha := hname a (by rw [hn]; simp)
      rw [show ((a :: t) ++ List.replicate (11 - (a :: t).length) 32) ++
        RESTv = a :: ((t ++ List.replicate (11 - (a :: t).length) 32) ++
        RESTv) from rfl]
      simp [List.getD]
      omega
  rw [if_neg hb0.1, if_neg hb0.2]
  show [parseOneEntry _ off 0] = _
  unfold parseOneEntry
  dsimp only
  rw [h14, h16, h18, h20, h22, h24, h26, h28, hattr11, hname_field, hlfn,
    hsc_round]
  simp

/-- C6: for every `File` whose fields fit the encoding — an at-most-11-byte
name of non-NUL ASCII characters with no leading or trailing whitespace,
`attr` a byte other than 0x0F, `attributes` derived from `attr`, cluster and
size below 2^32, `is_lfn` false, and the three timestamp strings in the
decoded form of packed 16-bit values (which forces even seconds and in-range
date fields) — `to_bytes` succeeds and `parse_directory_entries` of the
bytes at any offset returns exactly one `File` equal to the original except
that `byte_offset` is the given offset. -/
theorem C6_directory_entry_roundtrip (f : File) (cd ct ad wd wt off : Nat)
    (hlen : f.name.length ≤ 11)
    (hnamec : ∀ c ∈ f.name, 0 < c ∧ c < 128)
    (hh : pyIsSpace (f.name.headD 0) = false)
    (hl : pyIsSpace (f.name.getLastD 0) = false)
    (hattr : f.attr < 256) (hattrNotLfn : f.attr ≠ 0x0F)
    (hattrs : f.attributes = File.attributesOf f.attr)
    (hsc : f.start_cluster < 4294967296) (hsize : f.size < 4294967296)
    (hislfn : f.is_lfn = false)
    (hcd : cd < 65536) (hct : ct < 65536) (had : ad < 65536)
    (hwd : wd < 65536) (hwt : wt < 65536)
    (hcreated : f.created = decodeDate cd ++ [32] ++ decodeTime ct)
    (haccessed : f.accessed = decodeDate ad)
    (hwritten : f.written = decodeDate wd ++ [32] ++ decodeTime wt) :
    ∃ bs, f.to_bytes = some bs ∧
      File.parse_directory_entries bs off = [{ f with byte_offset := off }] := by
  have hmapn : f.name.map encodeAsciiReplace = f.name := by
    rw [List.map_congr_left (fun c hc => by
      unfold encodeAsciiReplace
      rw [if_pos (hnamec c hc).2])]
    exact List.map_id f.name
  have hN : (f.name.map encodeAsciiReplace).take 11 = f.name := by
    rw [hmapn]
    exact List.take_of_length_le hlen
  refine ⟨_, to_bytes_of_shape f cd ct ad wd wt hattr hsize hcd hct had
    hwd hwt hcreated haccessed hwritten, ?_⟩
  rw [hN]
  rw [parse_roundtrip f.name f.attr f.start_cluster f.size cd ct ad wd wt
    off hlen hnamec hh hl hattrNotLfn hsc hsize hcd hct had hwd hwt]
  rw [← hcreated, ← haccessed, ← hwritten, ← hattrs, ← hislfn]

/-- Witness for C6: the repository's own `File 1` test vector round-trips
through `to_bytes` and `parse_directory_entries` at offset 1000. -/
theorem C6_directory_entry_roundtrip_witness :
    ∃ bs, fileC6.to_bytes = some bs ∧
      File.parse_directory_entries bs 1000 =
        [{ fileC6 with byte_offset := 1000 }] :=
  C6_directory_entry_roundtrip fileC6 23292 20833 23292 23292 20833 1000
    (by decide) (by decide) (by decide) (by decide) (by decide) (by decide)
    rfl (by decide) (by decide) rfl (by decide) (by decide) (by decide)
    (by decide) (by decide) rfl rfl rfl

/-- C10 (amended): `to_bytes` is not total (the counterexample shows a
parseable timestamp whose packed date overflows 16 bits raises
`struct.error`), but whenever `attr` is a byte, `size` fits 32 bits, the
timestamp strings use only characters on which the modelled `int` agrees
with Python (`intSafeChar`; a space is additionally allowed in the
datetime strings, where `split(" ")` consumes it before any `int` call),
and each timestamp either fails to parse (packing as 0) or packs into 16
bits, `to_bytes` returns exactly 32 bytes whose first 11 are the
ASCII-encoded name truncated to 11 bytes and right-padded with spaces; a
timestamp string that does not parse is encoded as packed value 0. -/
theorem C10_to_bytes_shape (f : File)
    (hattr : f.attr < 256) (hsize : f.size < 4294967296)
    (hcsafe : ∀ c ∈ f.created, c = 32 ∨ intSafeChar c = true)
    (hasafe : ∀ c ∈ f.accessed, intSafeChar c = true)
    (hwsafe : ∀ c ∈ f.written, c = 32 ∨ intSafeChar c = true)
    (hc1 : 0 ≤ ((parseDateTimeStr f.created).getD (0, 0)).1 ∧
      ((parseDateTimeStr f.created).getD (0, 0)).1 < 65536)
    (hc2 : 0 ≤ ((parseDateTimeStr f.created).getD (0, 0)).2 ∧
      ((parseDateTimeStr f.created).getD (0, 0)).2 < 65536)
    (ha : 0 ≤ (parseDateStr f.accessed).getD 0 ∧
      (parseDateStr f.accessed).getD 0 < 65536)
    (hw1 : 0 ≤ ((parseDateTimeStr f.written).getD (0, 0)).1 ∧
      ((parseDateTimeStr f.written).getD (0, 0)).1 < 65536)
    (hw2 : 0 ≤ ((parseDateTimeStr f.written).getD (0, 0)).2 ∧
      ((parseDateTimeStr f.written).getD (0, 0)).2 < 65536) :
    ∃ bs, f.to_bytes = some bs ∧ bs.length = 32 ∧
      pySlice bs 0 11 = (f.name.map encodeAsciiReplace).take 11 ++
        List.replicate (11 - ((f.name.map encodeAsciiReplace).take 11).length)
          32 ∧
      (parseDateTimeStr f.created = none →
        pySlice bs 14 2 = [0, 0] ∧ pySlice bs 16 2 = [0, 0]) ∧
      (parseDateStr f.accessed = none → pySlice bs 18 2 = [0, 0]) ∧
      (parseDateTimeStr f.written = none →
        pySlice bs 22 2 = [0, 0] ∧ pySlice bs 24 2 = [0, 0]) := by
  have hpB : packB f.attr = some [f.attr] := by
    unfold packB
    rw [if_pos hattr]
  have hpH : ∀ v : Int, 0 ≤ v ∧ v < 65536 → packH v = some (le16 v.toNat) := by
    intro v hv
    unfold packH
    rw [if_pos hv]
  have hpI : packI f.size = some (le32 f.size) := by
    unfold packI
    rw [if_pos hsize]
  have hbs : f.to_bytes = some (((f.name.map encodeAsciiReplace).take 11 ++
      List.replicate (11 - ((f.name.map encodeAsciiReplace).take 11).length)
        32) ++ [f.attr] ++ [0] ++ [0] ++
      le16 ((parseDateTimeStr f.created).getD (0, 0)).2.toNat ++
      le16 ((parseDateTimeStr f.created).getD (0, 0)).1.toNat ++
      le16 ((parseDateStr f.accessed).getD 0).toNat ++
      le16 (f.start_cluster >>> 16 &&& 0xFFFF) ++
      le16 ((parseDateTimeStr f.written).getD (0, 0)).2.toNat ++
      le16 ((parseDateTimeStr f.written).getD (0, 0)).1.toNat ++
      le16 (f.start_cluster &&& 0xFFFF) ++ le32 f.size) := by
    simp only [File.to_bytes, hpB, hpH _ hc2, hpH _ hc1, hpH _ ha,
      hpH _ hw2, hpH _ hw1, hpI]
  have hNBlen : ((f.name.map encodeAsciiReplace).take 11 ++
      List.replicate (11 - ((f.name.map encodeAsciiReplace).take 11).length)
        32).length = 11 := by
    have h1 : ((f.name.map encodeAsciiReplace).take 11).length ≤ 11 := by
      simp [List.length_take]
    simp only [List.length_append, List.length_replicate]
    omega
  have hflat : ((f.name.map encodeAsciiReplace).take 11 ++
      List.replicate (11 - ((f.name.map encodeAsciiReplace).take 11).length)
        32) ++ [f.attr] ++ [0] ++ [0] ++
      le16 ((parseDateTimeStr f.created).getD (0, 0)).2.toNat ++
      le16 ((parseDateTimeStr f.created).getD (0, 0)).1.toNat ++
      le16 ((parseDateStr f.accessed).getD 0).toNat ++
      le16 (f.start_cluster >>> 16 &&& 0xFFFF) ++
      le16 ((parseDateTimeStr f.written).getD (0, 0)).2.toNat ++
      le16 ((parseDateTimeStr f.written).getD (0, 0)).1.toNat ++
      le16 (f.start_cluster &&& 0xFFFF) ++ le32 f.size =
      ((f.name.map encodeAsciiReplace).take 11 ++
      List.replicate (11 - ((f.name.map encodeAsciiReplace).take 11).length)
        32) ++ (f.attr :: 0 :: 0 ::
      (le16 ((parseDateTimeStr f.created).getD (0, 0)).2.toNat ++
      (le16 ((parseDateTimeStr f.created).getD (0, 0)).1.toNat ++
      (le16 ((parseDateStr f.accessed).getD 0).toNat ++
      (le16 (f.start_cluster >>> 16 &&& 0xFFFF) ++
      (le16 ((parseDateTimeStr f.written).getD (0, 0)).2.toNat ++
      (le16 ((parseDateTimeStr f.written).getD (0, 0)).1.toNat ++
      (le16 (f.start_cluster &&& 0xFFFF) ++ le32 f.size)))))))) := by
    simp [List.append_assoc]
  refine ⟨_, hbs, ?_, ?_, ?_, ?_, ?_⟩
  · rw [hflat, List.length_append, hNBlen]
    simp [le16, le32]
  · rw [hflat]
    unfold pySlice
    rw [List.drop_zero]
    exact List.take_left' hNBlen
  · intro h
    constructor
    · rw [hflat, show (14 : Nat) = 11 + 3 from rfl,
        pySlice_append_11 _ _ hNBlen, h]
      simp [pySlice, le16]
    · rw [hflat, show (16 : Nat) = 11 + 5 from rfl,
        pySlice_append_11 _ _ hNBlen, h]
      simp [pySlice, le16]
  · intro h
    rw [hflat, show (18 : Nat) = 11 + 7 from rfl,
      pySlice_append_11 _ _ hNBlen, h]
    simp [pySlice, le16]
  · intro h
    constructor
    · rw [hflat, show (22 : Nat) = 11 + 11 from rfl,
        pySlice_append_11 _ _ hNBlen, h]
      simp [pySlice, le16]
    · rw [hflat, show (24 : Nat) = 11 + 13 from rfl,
        pySlice_append_11 _ _ hNBlen, h]
      simp [pySlice, le16]

/-- Witness for C10 (amended) on `fileC10w`, whose three timestamp strings
all fail to parse: the entry is 32 bytes, name-padded, with zero-packed
timestamps. -/
theorem C10_to_bytes_shape_witness :
    ∃ bs, fileC10w.to_bytes = some bs ∧ bs.length = 32 ∧
      pySlice bs 0 11 = (fileC10w.name.map encodeAsciiReplace).take 11 ++
        List.replicate
          (11 - ((fileC10w.name.map encodeAsciiReplace).take 11).length) 32 ∧
      (parseDateTimeStr fileC10w.created = none →
        pySlice bs 14 2 = [0, 0] ∧ pySlice bs 16 2 = [0, 0]) ∧
      (parseDateStr fileC10w.accessed = none → pySlice bs 18 2 = [0, 0]) ∧
      (parseDateTimeStr fileC10w.written = none →
        pySlice bs 22 2 = [0, 0] ∧ pySlice bs 24 2 = [0, 0]) :=
  C10_to_bytes_shape fileC10w (by decide) (by decide) (by decide) (by decide)
    (by decide) (by decide) (by decide) (by decide) (by decide) (by decide)
